import Mathlib

/-!
Verification development for the versioned-document engine of the
uc-velocity backend: quotes and purchase orders with snapshots,
fulfillment (invoices / receivings), and revert.

The embedding follows `backend/routes/quotes.py` and
`backend/routes/purchase_orders.py` (with the column declarations of the
purchase-order versioning tables taken from the alembic migration
`20260206_1400_po_versioning_system.py`).  Mutable ORM state becomes an
explicit per-document state record, one database transaction becomes one
Lean function returning `Except Nat state` (the `Nat` is the HTTP status
code; an error models a rolled-back transaction, so the caller's state is
unchanged).  Money (`Float` columns) is modelled as `Rat`, quantities
(Integer columns after migration 003) as `Int`, timestamps as `Nat`
(only null-ness and identity matter to the routes).  Pydantic validators
on request schemas are modelled as leading 422 guards, as FastAPI rejects
the request before the route body runs.  Pure display text
(`action_description`, formatted document numbers) is omitted.
-/

set_option synthInstance.maxSize 1024

namespace UcVelocity

/-- Python truthiness of a nullable integer id column: `None` and `0` are falsy. -/
def truthyId : Option Nat → Bool
  | none => false
  | some n => n ≠ 0

/-- Python truthiness of a nullable string column: `None` and `""` are falsy. -/
def truthyStr : Option String → Bool
  | none => false
  | some s => s ≠ ""

/-- Python truthiness of a numeric value: `0` is falsy. -/
def truthyRat (x : Rat) : Bool := x ≠ 0

/-! ## Catalog (external collaborator: parts / labor / misc / discount codes) -/

structure LaborRec where
  rate : Rat
  hours : Rat
  markup_percent : Rat

structure PartRec where
  cost : Rat
  markup_percent : Rat

structure MiscRec where
  unit_price : Rat
  markup_percent : Rat

structure DiscountRec where
  is_archived : Bool

/-- Read-only catalog lookups, indexed by row id. -/
structure Catalog where
  labor : Nat → Option LaborRec
  part : Nat → Option PartRec
  misc : Nat → Option MiscRec
  discount : Nat → Option DiscountRec

/-! ## Quote data model (`models.py`) -/

/-- Row of `quote_line_items`. -/
structure QLine where
  id : Nat
  item_type : String
  labor_id : Option Nat
  part_id : Option Nat
  misc_id : Option Nat
  discount_code_id : Option Nat
  description : Option String
  quantity : Int
  unit_price : Option Rat
  qty_pending : Int
  qty_fulfilled : Int
  is_pms : Bool
  pms_percent : Option Rat
  original_markup_percent : Option Rat
  base_cost : Option Rat
deriving DecidableEq, Repr

/-- Row of `quote_line_item_snapshots`. -/
structure QLineSnap where
  original_line_item_id : Nat
  item_type : String
  labor_id : Option Nat
  part_id : Option Nat
  misc_id : Option Nat
  discount_code_id : Option Nat
  description : Option String
  quantity : Int
  unit_price : Option Rat
  qty_pending : Int
  qty_fulfilled : Int
  is_deleted : Bool
  is_pms : Bool
  pms_percent : Option Rat
  original_markup_percent : Option Rat
  base_cost : Option Rat
deriving DecidableEq, Repr

/-- Row of `quote_snapshots` together with its owned line-item states. -/
structure QSnap where
  id : Nat
  version : Nat
  action_type : String
  invoice_id : Option Nat
  items : List QLineSnap
deriving DecidableEq, Repr

/-- Row of `invoice_line_items`. -/
structure InvLine where
  quote_line_item_id : Nat
  item_type : String
  description : Option String
  unit_price : Option Rat
  qty_ordered : Int
  qty_fulfilled_this_invoice : Int
  qty_fulfilled_total : Int
  qty_pending_after : Int
  labor_id : Option Nat
  part_id : Option Nat
  misc_id : Option Nat
  discount_code_id : Option Nat
deriving DecidableEq, Repr

/-- Row of `invoices` together with its owned line items. -/
structure Invoice where
  id : Nat
  status : String
  voided_at : Option Nat
  voided_by_snapshot_id : Option Nat
  line_items : List InvLine
deriving DecidableEq, Repr

/-- State of one quote: the `quotes` row plus all rows owned by it.
Lists are kept in insertion order (ascending primary key), matching the
order in which unsorted queries return rows; the `next_*` counters model
the autoincrement id sequences. -/
structure QuoteState where
  current_version : Nat
  status : String
  client_po_number : Option String
  work_description : Option String
  markup_control_enabled : Bool
  global_markup_percent : Option Rat
  line_items : List QLine
  snapshots : List QSnap
  invoices : List Invoice
  next_line_id : Nat
  next_snap_id : Nat
  next_invoice_id : Nat
deriving DecidableEq, Repr

/-! ## Quote helpers (`routes/quotes.py`) -/

/-- Snapshot copy of one live line item, `is_deleted` as given
(`create_snapshot` always passes false; `delete_quote_line` marks the
deleted row). -/
def qLineToSnap (item : QLine) (deleted : Bool) : QLineSnap :=
  { original_line_item_id := item.id
    item_type := item.item_type
    labor_id := item.labor_id
    part_id := item.part_id
    misc_id := item.misc_id
    discount_code_id := item.discount_code_id
    description := item.description
    quantity := item.quantity
    unit_price := item.unit_price
    qty_pending := item.qty_pending
    qty_fulfilled := item.qty_fulfilled
    is_deleted := deleted
    is_pms := item.is_pms
    pms_percent := item.pms_percent
    original_markup_percent := item.original_markup_percent
    base_cost := item.base_cost }

/-- Function `create_snapshot`: increment the version, then record a
snapshot of every current line item.  Returns the new state and the
created snapshot. -/
def create_snapshot (q : QuoteState) (aty : String) (inv : Option Nat) :
    QuoteState × QSnap :=
  let new_version := q.current_version + 1
  let snap : QSnap :=
    { id := q.next_snap_id
      version := new_version
      action_type := aty
      invoice_id := inv
      items := q.line_items.map (fun it => qLineToSnap it false) }
  ({ q with
      current_version := new_version
      snapshots := q.snapshots ++ [snap]
      next_snap_id := q.next_snap_id + 1 }, snap)

/-- Function `calculate_base_cost`. -/
def calculate_base_cost (c : Catalog) (item : QLine) : Rat :=
  if item.is_pms then 0
  else if item.item_type = "part" ∧ truthyId item.part_id then
    match c.part (item.part_id.getD 0) with
    | some p => p.cost
    | none => 0
  else if item.item_type = "labor" ∧ truthyId item.labor_id then
    match c.labor (item.labor_id.getD 0) with
    | some l => l.rate * l.hours
    | none => 0
  else if item.item_type = "misc" then
    if truthyId item.misc_id then
      match c.misc (item.misc_id.getD 0) with
      | some m => m.unit_price
      | none => 0
    else item.unit_price.getD 0
  else 0

/-- Function `get_original_markup`. -/
def get_original_markup (c : Catalog) (item : QLine) : Rat :=
  if item.is_pms then 0
  else if item.item_type = "part" ∧ truthyId item.part_id then
    match c.part (item.part_id.getD 0) with
    | some p => p.markup_percent
    | none => 0
  else if item.item_type = "labor" ∧ truthyId item.labor_id then
    match c.labor (item.labor_id.getD 0) with
    | some l => l.markup_percent
    | none => 0
  else if item.item_type = "misc" ∧ truthyId item.misc_id then
    match c.misc (item.misc_id.getD 0) with
    | some m => m.markup_percent
    | none => 0
  else 0

/-- Function `check_quote_not_frozen`: a quote is frozen once any line
item has `qty_fulfilled > 0`. -/
def quoteFrozen (q : QuoteState) : Bool :=
  q.line_items.any (fun it => it.qty_fulfilled > 0)

/-- Validation of a discount code reference shared by the add / edit
paths: the code must exist and not be archived (the route queries with
`is_archived == False`, so an archived code reads as not found). -/
def discountOk (c : Catalog) (did : Nat) : Bool :=
  match c.discount did with
  | some d => !d.is_archived
  | none => false

/-! ## Quote operations (`routes/quotes.py`) -/

/-- Request body `QuoteCreate` (fields the route reads). -/
structure QuoteCreateData where
  status : String
  client_po_number : Option String
  work_description : Option String
deriving DecidableEq, Repr

/-- Route `create_quote`: a fresh quote row with DB defaults — version 0,
markup control off, no line items, and no snapshot is recorded. -/
def create_quote (d : QuoteCreateData) : QuoteState :=
  { current_version := 0
    status := d.status
    client_po_number := d.client_po_number
    work_description := d.work_description
    markup_control_enabled := false
    global_markup_percent := none
    line_items := []
    snapshots := []
    invoices := []
    next_line_id := 1
    next_snap_id := 1
    next_invoice_id := 1 }

/-- Request body `QuoteUpdate`. -/
structure QuoteUpdateData where
  status : Option String
  client_po_number : Option String
  work_description : Option String
deriving DecidableEq, Repr

/-- Route `update_quote`: metadata / status update, no snapshot and no
version change.  `client_po_number` is stored stripped, empty becoming
null. -/
def update_quote (q : QuoteState) (d : QuoteUpdateData) : Except Nat QuoteState :=
  if (match d.status with
      | some s => !(s == "Active" || s == "Invoiced")
      | none => false) then .error 400
  else
    let q := match d.status with
      | none => q
      | some s => { q with status := s }
    let q := match d.client_po_number with
      | none => q
      | some s => { q with client_po_number := if s.trim = "" then none else some s.trim }
    let q := match d.work_description with
      | none => q
      | some s => { q with work_description := if s.trim = "" then none else some s.trim }
    .ok q

/-- Request body `QuoteLineItemCreate` (after pydantic coercion; the
positive-quantity validator is checked by the operation itself as a 422
guard). -/
structure QLineCreateData where
  item_type : String
  labor_id : Option Nat
  part_id : Option Nat
  misc_id : Option Nat
  discount_code_id : Option Nat
  description : Option String
  quantity : Int
  unit_price : Option Rat
  is_pms : Bool
  pms_percent : Option Rat
deriving DecidableEq, Repr

/-- Shared tail of the add paths: when markup control is enabled and the
new item is not PMS, store its original markup and base cost and reprice
it from the global markup (`if db_line.base_cost and
quote.global_markup_percent is not None`). -/
def applyMarkupToNewLine (c : Catalog) (q : QuoteState) (line : QLine) : QLine :=
  if q.markup_control_enabled ∧ !line.is_pms then
    let omp := get_original_markup c line
    let bc := calculate_base_cost c line
    let line := { line with original_markup_percent := some omp, base_cost := some bc }
    if truthyRat bc ∧ q.global_markup_percent.isSome then
      { line with
          unit_price := some (bc * (1 + q.global_markup_percent.getD 0 / 100)) }
    else line
  else line

/-- Validation phase of `add_quote_line` and the reference checks it
shares with the quote batch-commit add (which drops the PMS price
requirement): the first error the route would raise, if any. -/
def addQLineRefError (c : Catalog) (q : QuoteState) (ld : QLineCreateData) :
    Option Nat :=
  if ¬ (ld.item_type = "labor" ∨ ld.item_type = "part" ∨ ld.item_type = "misc") then
    some 400
  else if ld.item_type = "labor" ∧ truthyId ld.labor_id ∧
      (c.labor (ld.labor_id.getD 0)).isNone then some 400
  else if ld.item_type = "part" ∧ ¬ truthyId ld.part_id then some 400
  else if ld.item_type = "part" ∧ (c.part (ld.part_id.getD 0)).isNone then some 400
  else if ld.item_type = "misc" ∧ truthyId ld.misc_id ∧
      (c.misc (ld.misc_id.getD 0)).isNone then some 400
  else if ld.item_type = "misc" ∧ ¬ truthyId ld.misc_id ∧
      ¬ truthyStr ld.description then some 400
  else if truthyId ld.discount_code_id ∧ q.markup_control_enabled then some 400
  else if truthyId ld.discount_code_id ∧
      ¬ discountOk c (ld.discount_code_id.getD 0) then some 400
  else none

/-- The line-item row inserted by `add_quote_line`. -/
def newQLine (q : QuoteState) (ld : QLineCreateData) : QLine :=
  { id := q.next_line_id
    item_type := ld.item_type
    labor_id := ld.labor_id
    part_id := ld.part_id
    misc_id := ld.misc_id
    discount_code_id := ld.discount_code_id
    description := ld.description
    quantity := ld.quantity
    unit_price := ld.unit_price
    qty_pending := ld.quantity
    qty_fulfilled := 0
    is_pms := ld.is_pms
    pms_percent := ld.pms_percent
    original_markup_percent := none
    base_cost := none }

/-- Route `add_quote_line`. -/
def add_quote_line (c : Catalog) (q : QuoteState) (ld : QLineCreateData) :
    Except Nat QuoteState :=
  if ld.quantity ≤ 0 then .error 422   -- pydantic positive-quantity validator
  else if quoteFrozen q then .error 400
  else if ld.item_type = "labor" ∧ ¬ truthyId ld.labor_id ∧
      (¬ ld.is_pms ∨ ¬ truthyStr ld.description) then .error 400
  else if ld.item_type = "labor" ∧ ¬ truthyId ld.labor_id ∧
      ld.unit_price = none ∧ ld.pms_percent = none then .error 400
  else
    match addQLineRefError c q ld with
    | some e => .error e
    | none =>
        let line := applyMarkupToNewLine c q (newQLine q ld)
        .ok (create_snapshot
          { q with
              line_items := q.line_items ++ [line]
              next_line_id := q.next_line_id + 1 }
          "create" none).1

/-- Request body `QuoteLineItemUpdate`. -/
structure QLineUpdateData where
  quantity : Option Int
  unit_price : Option Rat
  discount_code_id : Option Nat
deriving DecidableEq, Repr

/-- Replace the line with the given id in a list of lines. -/
def setLine (ls : List QLine) (line : QLine) : List QLine :=
  ls.map (fun l => if l.id = line.id then line else l)

/-- Mutation phase of `update_quote_line`: the updated line together with
the did-anything-change flag that decides whether a snapshot is recorded.
The quantity branch always rewrites `quantity` and `qty_pending`; the
others rewrite their field and flag a change only on a real difference. -/
def applyQLineUpdate (line0 : QLine) (d : QLineUpdateData) : QLine × Bool :=
  let a : QLine × Bool :=
    match d.quantity with
    | some qn =>
        ({ line0 with quantity := qn, qty_pending := qn - line0.qty_fulfilled },
         qn != line0.quantity)
    | none => (line0, false)
  let b : QLine × Bool :=
    match d.unit_price with
    | some p => ({ a.1 with unit_price := some p }, a.2 || (a.1.unit_price != some p))
    | none => a
  match d.discount_code_id with
  | some did =>
      if did = 0 then
        ({ b.1 with discount_code_id := none }, b.2 || truthyId b.1.discount_code_id)
      else
        ({ b.1 with discount_code_id := some did },
         b.2 || (b.1.discount_code_id != some did))
  | none => b

/-- Route `update_quote_line`.  A snapshot is recorded only when the
tracked change list is non-empty. -/
def update_quote_line (c : Catalog) (q : QuoteState) (line_id : Nat)
    (d : QLineUpdateData) : Except Nat QuoteState :=
  if d.quantity.any (fun n => n ≤ 0) then .error 422   -- pydantic validator
  else if quoteFrozen q then .error 400
  else
    match q.line_items.find? (fun l => l.id = line_id) with
    | none => .error 404
    | some line0 =>
        if d.quantity.any (fun qn => qn < line0.qty_fulfilled) then .error 400
        else if d.discount_code_id.any
            (fun did => did != 0 && q.markup_control_enabled) then .error 400
        else if d.discount_code_id.any
            (fun did => did != 0 && !discountOk c did) then .error 400
        else
          let lb := applyQLineUpdate line0 d
          let q := { q with line_items := setLine q.line_items lb.1 }
          if lb.2 then .ok (create_snapshot q "edit" none).1
          else .ok q

/-- Route `delete_quote_line`: the snapshot is built before the delete and
includes the deleted row with `is_deleted := true`. -/
def delete_quote_line (q : QuoteState) (line_id : Nat) : Except Nat QuoteState :=
  if quoteFrozen q then .error 400
  else
    match q.line_items.find? (fun l => l.id = line_id) with
    | none => .error 404
    | some _ =>
        let new_version := q.current_version + 1
        let snap : QSnap :=
          { id := q.next_snap_id
            version := new_version
            action_type := "delete"
            invoice_id := none
            items := q.line_items.map (fun it => qLineToSnap it (it.id = line_id)) }
        .ok { q with
            current_version := new_version
            snapshots := q.snapshots ++ [snap]
            next_snap_id := q.next_snap_id + 1
            line_items := q.line_items.filter (fun l => l.id ≠ line_id) }

/-- Request body `StagedLineItemChange` (quote edit-mode batch). -/
structure StagedQChange where
  action : String
  line_item_id : Option Nat
  item_type : Option String
  labor_id : Option Nat
  part_id : Option Nat
  misc_id : Option Nat
  discount_code_id : Option Nat
  description : Option String
  quantity : Option Int
  unit_price : Option Rat
  is_pms : Bool
  pms_percent : Option Rat
deriving DecidableEq, Repr

/-- Staged add viewed as a line-creation payload, with the
`quantity = change.quantity or 1.0` fallback applied. -/
def stagedToCreate (ch : StagedQChange) : QLineCreateData :=
  { item_type := ch.item_type.getD ""
    labor_id := ch.labor_id
    part_id := ch.part_id
    misc_id := ch.misc_id
    discount_code_id := ch.discount_code_id
    description := ch.description
    quantity :=
      match ch.quantity with
      | none => 1
      | some n => if n = 0 then 1 else n
    unit_price := ch.unit_price
    is_pms := ch.is_pms
    pms_percent := ch.pms_percent }

/-- Mutation phase of a staged quote edit: each supplied field is rewritten
when it differs from the current value (the quantity rewrite also
recomputes `qty_pending`). -/
def applyStagedQEdit (line0 : QLine) (ch : StagedQChange) : QLine :=
  let a : QLine :=
    match ch.quantity with
    | some qn =>
        if qn ≠ line0.quantity then
          { line0 with quantity := qn, qty_pending := qn - line0.qty_fulfilled }
        else line0
    | none => line0
  let b : QLine :=
    match ch.unit_price with
    | some p => if a.unit_price ≠ some p then { a with unit_price := some p } else a
    | none => a
  let e : QLine :=
    match ch.discount_code_id with
    | some did =>
        if did = 0 then { b with discount_code_id := none }
        else { b with discount_code_id := some did }
    | none => b
  match ch.description with
  | some dsc =>
      if e.description ≠ some dsc then { e with description := some dsc } else e
  | none => e

/-- One iteration of the `commit_edits` change loop. -/
def commitQChange (c : Catalog) (q : QuoteState) (ch : StagedQChange) :
    Except Nat QuoteState :=
  if ch.action = "add" then
    if ch.item_type.getD "" = "labor" ∧ ¬ truthyId ch.labor_id ∧ ¬ ch.is_pms then
      .error 400
    else
      match addQLineRefError c q (stagedToCreate ch) with
      | some e => .error e
      | none =>
          let line := applyMarkupToNewLine c q (newQLine q (stagedToCreate ch))
          .ok { q with
              line_items := q.line_items ++ [line]
              next_line_id := q.next_line_id + 1 }
  else if ch.action = "edit" then
    if ¬ truthyId ch.line_item_id then .error 400
    else
      match q.line_items.find? (fun l => l.id = ch.line_item_id.getD 0) with
      | none => .error 400
      | some line0 =>
          if ch.quantity.any
              (fun qn => qn != line0.quantity && qn < line0.qty_fulfilled) then .error 400
          else if ch.discount_code_id.any
              (fun did => did != 0 && q.markup_control_enabled) then .error 400
          else if ch.discount_code_id.any
              (fun did => did != 0 && !discountOk c did) then .error 400
          else
            .ok { q with line_items := setLine q.line_items (applyStagedQEdit line0 ch) }
  else if ch.action = "delete" then
    if ¬ truthyId ch.line_item_id then .error 400
    else
      match q.line_items.find? (fun l => l.id = ch.line_item_id.getD 0) with
      | none => .error 400
      | some _ =>
          .ok { q with
              line_items := q.line_items.filter (fun l => l.id ≠ ch.line_item_id.getD 0) }
  else .error 400

/-- Route `commit_edits`: the staged changes are applied in request order
inside one transaction, then a single snapshot is recorded. -/
def commit_edits (c : Catalog) (q : QuoteState) (changes : List StagedQChange) :
    Except Nat QuoteState :=
  -- pydantic positive-quantity validator on every staged change
  if changes.any (fun ch =>
      match ch.quantity with
      | some n => n ≤ 0
      | none => false) then .error 422
  else if quoteFrozen q then .error 400
  else if changes = [] then .error 400
  else
    match changes.foldlM (fun st ch => commitQChange c st ch) q with
    | .error e => .error e
    | .ok q => .ok (create_snapshot q "edit" none).1

/-- Request entry `LineItemFulfillment`. -/
structure FulfillEntry where
  line_item_id : Nat
  quantity : Int
deriving DecidableEq, Repr

/-- Blank nullable string: null, empty, or whitespace-only
(`not s or not s.strip()`). -/
def blankStr : Option String → Bool
  | none => true
  | some s => s.data.all (fun ch => ch.isWhitespace)

/-- Route `create_invoice`.  All fulfillments are validated against the
pre-batch line-item state, then applied in order; one invoice row, its
per-line records, and one snapshot are written together.
(The invoice line's display description fallback to the catalog text is
omitted: it is pure display.) -/
def invoiceApplyStep (acc : List QLine × List InvLine) (f : FulfillEntry) :
    List QLine × List InvLine :=
  match acc.1.find? (fun l => l.id = f.line_item_id) with
  | none => acc
  | some line =>
      let il : InvLine :=
        { quote_line_item_id := line.id
          item_type := line.item_type
          description := line.description
          unit_price := line.unit_price
          qty_ordered := line.quantity
          qty_fulfilled_this_invoice := f.quantity
          qty_fulfilled_total := line.qty_fulfilled + f.quantity
          qty_pending_after := line.qty_pending - f.quantity
          labor_id := line.labor_id
          part_id := line.part_id
          misc_id := line.misc_id
          discount_code_id := line.discount_code_id }
      (setLine acc.1
        { line with
            qty_fulfilled := line.qty_fulfilled + f.quantity
            qty_pending := line.qty_pending - f.quantity },
       acc.2 ++ [il])

def create_invoice (q : QuoteState) (fs : List FulfillEntry) :
    Except Nat QuoteState :=
  if fs.any (fun f => f.quantity ≤ 0) then .error 422   -- pydantic validator
  else if blankStr q.client_po_number then .error 400
  else if fs = [] then .error 400
  else if fs.any (fun f =>
      match q.line_items.find? (fun l => l.id = f.line_item_id) with
      | none => true
      | some line => f.quantity ≤ 0 ∨ f.quantity > line.qty_pending) then
    .error 400
  else
    let inv_id := q.next_invoice_id
    let applied := fs.foldl invoiceApplyStep (q.line_items, [])
    let invoice : Invoice :=
      { id := inv_id
        status := "Sent"
        voided_at := none
        voided_by_snapshot_id := none
        line_items := applied.2 }
    .ok (create_snapshot
      { q with
          line_items := applied.1
          invoices := q.invoices ++ [invoice]
          next_invoice_id := inv_id + 1 }
      "invoice" (some inv_id)).1

/-- Per-item repricing of the markup-control disable path: restore
`unit_price` from the stored overrides when both are present; the
per-item override columns themselves are left as they are. -/
def restoreQLinePrice (it : QLine) : QLine :=
  if it.is_pms then it
  else
    match it.base_cost, it.original_markup_percent with
    | some bc, some omp => { it with unit_price := some (bc * (1 + omp / 100)) }
    | _, _ => it

/-- Route `toggle_markup_control`. -/
def toggle_markup_control (c : Catalog) (q : QuoteState) (enabled : Bool)
    (gmp : Option Rat) : Except Nat QuoteState :=
  if quoteFrozen q then .error 400
  else if enabled ∧ gmp = none then .error 400
  else if enabled ∧ ¬ q.markup_control_enabled ∧
      q.line_items.any (fun it => it.discount_code_id ≠ none) then .error 400
  else if enabled then
    let g := gmp.getD 0
    if q.markup_control_enabled then
      -- update mode: reprice from the already-stored base_cost
      let items := q.line_items.map (fun it =>
        if it.is_pms then it
        else
          match it.base_cost with
          | some bc => { it with unit_price := some (bc * (1 + g / 100)) }
          | none => it)
      .ok (create_snapshot
        { q with global_markup_percent := some g, line_items := items }
        "edit" none).1
    else
      -- enable mode: store original markup / base cost, then reprice
      let items := q.line_items.map (fun it =>
        if it.is_pms then it
        else
          let omp := get_original_markup c it
          let bc := calculate_base_cost c it
          let it := { it with original_markup_percent := some omp, base_cost := some bc }
          if truthyRat bc then { it with unit_price := some (bc * (1 + g / 100)) }
          else it)
      .ok (create_snapshot
        { q with
            markup_control_enabled := true
            global_markup_percent := some g
            line_items := items }
        "edit" none).1
  else
    .ok (create_snapshot
      { q with
          markup_control_enabled := false
          global_markup_percent := none
          line_items := q.line_items.map restoreQLinePrice }
      "edit" none).1

/-- Route `get_quote_snapshot` (GET by version). -/
def get_quote_snapshot (q : QuoteState) (v : Nat) : Except Nat QSnap :=
  match q.snapshots.find? (fun s => s.version = v) with
  | some s => .ok s
  | none => .error 404

/-- Live line rebuilt from a snapshot row during quote revert. -/
def qSnapToLine (t : QLineSnap) (i : Nat) : QLine :=
  { id := i
    item_type := t.item_type
    labor_id := t.labor_id
    part_id := t.part_id
    misc_id := t.misc_id
    discount_code_id := t.discount_code_id
    description := t.description
    quantity := t.quantity
    unit_price := t.unit_price
    qty_pending := t.qty_pending
    qty_fulfilled := t.qty_fulfilled
    is_pms := t.is_pms
    pms_percent := t.pms_percent
    original_markup_percent := t.original_markup_percent
    base_cost := t.base_cost }

/-- Restored line items get fresh consecutive ids, in snapshot order. -/
def restoreQLines : List QLineSnap → Nat → List QLine
  | [], _ => []
  | t :: ts, nid => qSnapToLine t nid :: restoreQLines ts (nid + 1)

/-- Route `revert_to_snapshot`: void invoices linked to later snapshots,
delete every live line item, recreate the target snapshot's non-deleted
rows, and record a snapshot of the restored state.  (The final snapshot is
written inline in the route; its body coincides with `create_snapshot`.)
Note the voided invoices' `voided_by_snapshot_id` is never assigned. -/
def revert_to_snapshot (q : QuoteState) (v : Nat) (now : Nat) :
    Except Nat QuoteState :=
  match q.snapshots.find? (fun s => s.version = v) with
  | none => .error 404
  | some target =>
      if v ≥ q.current_version then .error 400
      else
        let invoices := q.invoices.map (fun inv =>
          if inv.status ≠ "Voided" ∧
              q.snapshots.any (fun s => s.invoice_id = some inv.id ∧ s.version > v) then
            { inv with status := "Voided", voided_at := some now }
          else inv)
        let restoredSrc := target.items.filter (fun t => !t.is_deleted)
        .ok (create_snapshot
          { q with
              invoices := invoices
              line_items := restoreQLines restoredSrc q.next_line_id
              next_line_id := q.next_line_id + restoredSrc.length }
          "revert" none).1

/-! ## Purchase-order data model (`models.py` plus migration
`20260206_1400_po_versioning_system.py`) -/

/-- Enum `postatus`. -/
inductive POStatus where
  | draft
  | sent
  | received
  | closed
deriving DecidableEq, Repr

/-- Row of `po_line_items`. -/
structure POLine where
  id : Nat
  item_type : String
  part_id : Option Nat
  description : Option String
  quantity : Int
  unit_price : Option Rat
  qty_pending : Int
  qty_received : Int
  actual_unit_price : Option Rat
deriving DecidableEq, Repr

/-- Row of `po_line_item_snapshots`. -/
structure POLineSnap where
  original_line_item_id : Nat
  item_type : String
  part_id : Option Nat
  description : Option String
  quantity : Int
  unit_price : Option Rat
  qty_pending : Int
  qty_received : Int
  actual_unit_price : Option Rat
  is_deleted : Bool
deriving DecidableEq, Repr

/-- Row of `po_snapshots` together with its owned line-item states. -/
structure POSnap where
  id : Nat
  version : Nat
  action_type : String
  receiving_id : Option Nat
  items : List POLineSnap
deriving DecidableEq, Repr

/-- Row of `po_receiving_line_items`. -/
structure RecvLine where
  po_line_item_id : Nat
  item_type : String
  description : Option String
  part_id : Option Nat
  unit_price : Option Rat
  actual_unit_price : Option Rat
  qty_ordered : Int
  qty_received_this_receiving : Int
  qty_received_total : Int
  qty_pending_after : Int
deriving DecidableEq, Repr

/-- Row of `po_receivings` together with its owned line items. -/
structure Recv where
  id : Nat
  voided_at : Option Nat
  voided_by_snapshot_id : Option Nat
  line_items : List RecvLine
deriving DecidableEq, Repr

/-- State of one purchase order: the `purchase_orders` row plus all rows
owned by or referencing it.  Same list-order and id-counter conventions as
`QuoteState`. -/
structure POState where
  current_version : Nat
  status : POStatus
  line_items : List POLine
  snapshots : List POSnap
  receivings : List Recv
  next_line_id : Nat
  next_snap_id : Nat
  next_recv_id : Nat
deriving DecidableEq, Repr

/-! ## Purchase-order helpers (`routes/purchase_orders.py`) -/

/-- Snapshot copy of one live PO line item. -/
def poLineToSnap (item : POLine) (deleted : Bool) : POLineSnap :=
  { original_line_item_id := item.id
    item_type := item.item_type
    part_id := item.part_id
    description := item.description
    quantity := item.quantity
    unit_price := item.unit_price
    qty_pending := item.qty_pending
    qty_received := item.qty_received
    actual_unit_price := item.actual_unit_price
    is_deleted := deleted }

/-- Function `create_po_snapshot`: `create` and `status_change` keep the
version unchanged; every other action increments it.  The optionally
supplied deleted line item is skipped in the main pass and appended with
`is_deleted := true`. -/
def create_po_snapshot (s : POState) (aty : String) (recv : Option Nat)
    (deleted : Option POLine) : POState × POSnap :=
  let new_version :=
    if aty = "create" ∨ aty = "status_change" then s.current_version
    else s.current_version + 1
  let keep := s.line_items.filter (fun it =>
    match deleted with
    | some d => it.id ≠ d.id
    | none => true)
  let items := keep.map (fun it => poLineToSnap it false) ++
    (match deleted with
     | some d => [poLineToSnap d true]
     | none => [])
  let snap : POSnap :=
    { id := s.next_snap_id
      version := new_version
      action_type := aty
      receiving_id := recv
      items := items }
  ({ s with
      current_version := new_version
      snapshots := s.snapshots ++ [snap]
      next_snap_id := s.next_snap_id + 1 }, snap)

/-- Receiving line items of all non-voided receivings that reference the
given PO line item (the join used by the aggregate recomputations). -/
def nonVoidedRecvLines (s : POState) (lineId : Nat) : List RecvLine :=
  ((s.receivings.filter (fun r => r.voided_at = none)).map
    (fun r => r.line_items.filter (fun li => li.po_line_item_id = lineId))).flatten

/-- Function `calculate_weighted_average_price`: quantity-weighted mean of
`actual_unit_price` over non-voided receiving lines, skipping lines with a
null price or falsy quantity; `None` when no receiving lines exist or no
line contributes. -/
def calculate_weighted_average_price (s : POState) (lineId : Nat) : Option Rat :=
  let items := nonVoidedRecvLines s lineId
  if items = [] then none
  else
    let contrib := items.filter (fun i =>
      i.actual_unit_price.isSome ∧ i.qty_received_this_receiving ≠ 0)
    let total_qty : Int := (contrib.map (fun i => i.qty_received_this_receiving)).sum
    let total_cost : Rat :=
      (contrib.map (fun i =>
        i.actual_unit_price.getD 0 * (i.qty_received_this_receiving : Rat))).sum
    if total_qty = 0 then none
    else some (total_cost / total_qty)

/-- Function `recompute_line_item_aggregates`: replay `qty_received`,
`qty_pending`, and the weighted-average price from the non-voided
receiving history. -/
def recompute_line_item_aggregates (s : POState) (line : POLine) : POLine :=
  let total_received : Int :=
    ((nonVoidedRecvLines s line.id).map (fun i => i.qty_received_this_receiving)).sum
  { line with
      qty_received := total_received
      qty_pending := max 0 (line.quantity - total_received)
      actual_unit_price := calculate_weighted_average_price s line.id }

/-- Function `check_po_editable`: only Draft POs may have their line items
changed. -/
def poEditable (s : POState) : Bool := s.status = POStatus.draft

/-! ## Purchase-order operations (`routes/purchase_orders.py`) -/

/-- Route `create_purchase_order`: fresh PO at version 0 with an initial
`create` snapshot (which leaves the version at 0).  The requested status
comes from `PurchaseOrderCreate` (default draft). -/
def create_purchase_order (st : POStatus) : POState :=
  let s : POState :=
    { current_version := 0
      status := st
      line_items := []
      snapshots := []
      receivings := []
      next_line_id := 1
      next_snap_id := 1
      next_recv_id := 1 }
  (create_po_snapshot s "create" none none).1

/-- Route `update_purchase_order` (the status part; other fields are pure
metadata): a changed status records a `status_change` snapshot, which does
not increment the version. -/
def update_purchase_order (s : POState) (st : Option POStatus) : POState :=
  match st with
  | some ns =>
      if ns ≠ s.status then
        (create_po_snapshot { s with status := ns } "status_change" none none).1
      else s
  | none => s

/-- Request body `POLineItemCreate`. -/
structure POLineCreateData where
  item_type : String
  part_id : Option Nat
  description : Option String
  quantity : Int
  unit_price : Option Rat
deriving DecidableEq, Repr

/-- Replace the PO line with the given id in a list of lines. -/
def setPOLine (ls : List POLine) (line : POLine) : List POLine :=
  ls.map (fun l => if l.id = line.id then line else l)

/-- Item-type and reference validation shared by the PO add / edit paths:
the first error the route would raise, if any. -/
def poLineRefError (c : Catalog) (ld : POLineCreateData) : Option Nat :=
  if ¬ (ld.item_type = "part" ∨ ld.item_type = "misc") then some 400
  else if ld.item_type = "part" ∧ ¬ truthyId ld.part_id then some 400
  else if ld.item_type = "part" ∧ (c.part (ld.part_id.getD 0)).isNone then some 400
  else if ld.item_type ≠ "part" ∧ ¬ truthyStr ld.description then some 400
  else none

/-- Route `add_po_line`. -/
def add_po_line (c : Catalog) (s : POState) (ld : POLineCreateData) :
    Except Nat POState :=
  if ld.quantity ≤ 0 then .error 422   -- pydantic positive-quantity validator
  else if ¬ poEditable s then .error 400
  else
    match poLineRefError c ld with
    | some e => .error e
    | none =>
        let line : POLine :=
          { id := s.next_line_id
            item_type := ld.item_type
            part_id := ld.part_id
            description := ld.description
            quantity := ld.quantity
            unit_price := ld.unit_price
            qty_pending := ld.quantity
            qty_received := 0
            actual_unit_price := none }
        .ok (create_po_snapshot
          { s with
              line_items := s.line_items ++ [line]
              next_line_id := s.next_line_id + 1 }
          "edit" none none).1

/-- Route `update_po_line`: replaces the fields and recomputes
`qty_pending := max 0 (quantity - qty_received)`. -/
def update_po_line (c : Catalog) (s : POState) (line_id : Nat)
    (ld : POLineCreateData) : Except Nat POState :=
  if ld.quantity ≤ 0 then .error 422   -- pydantic positive-quantity validator
  else if ¬ poEditable s then .error 400
  else
    match s.line_items.find? (fun l => l.id = line_id) with
    | none => .error 404
    | some line0 =>
        match poLineRefError c ld with
        | some e => .error e
        | none =>
            let line := { line0 with
                item_type := ld.item_type
                part_id := ld.part_id
                description := ld.description
                quantity := ld.quantity
                unit_price := ld.unit_price
                qty_pending := max 0 (ld.quantity - line0.qty_received) }
            .ok (create_po_snapshot
              { s with line_items := setPOLine s.line_items line }
              "edit" none none).1

/-- Route `delete_po_line`: snapshot first (with the deleted row marked),
then delete. -/
def delete_po_line (s : POState) (line_id : Nat) : Except Nat POState :=
  if ¬ poEditable s then .error 400
  else
    match s.line_items.find? (fun l => l.id = line_id) with
    | none => .error 404
    | some line =>
        let s1 := (create_po_snapshot s "delete" none (some line)).1
        .ok { s1 with line_items := s1.line_items.filter (fun l => l.id ≠ line_id) }

/-- Request body `StagedPOLineItemChange`. -/
structure StagedPOChange where
  action : String
  line_item_id : Option Nat
  item_type : Option String
  part_id : Option Nat
  description : Option String
  quantity : Option Int
  unit_price : Option Rat
deriving DecidableEq, Repr

/-- Route `commit_po_edits`: deletes, then edits, then adds, atomically
with a single snapshot; an empty change set returns without a snapshot.
(Accessing a missing `quantity` raises a `TypeError` in the route, modelled
as a 500.) -/
def commitPOEdit (c : Catalog) (st : POState) (e : StagedPOChange) :
    Except Nat POState :=
  match st.line_items.find? (fun l => some l.id = e.line_item_id) with
  | none => .error 400
  | some line0 =>
      match poLineRefError c
        { item_type := e.item_type.getD ""
          part_id := e.part_id
          description := e.description
          quantity := 0
          unit_price := e.unit_price } with
      | some err => .error err
      | none =>
          match e.quantity with
          | none => .error 500   -- `None < int` TypeError in the route
          | some qn =>
              if qn < line0.qty_received then .error 400
              else
                let line := { line0 with
                    item_type := e.item_type.getD ""
                    part_id := e.part_id
                    description := e.description
                    quantity := qn
                    unit_price := e.unit_price
                    qty_pending := max 0 (qn - line0.qty_received) }
                .ok { st with line_items := setPOLine st.line_items line }

def commitPOAdd (c : Catalog) (st : POState) (a : StagedPOChange) :
    Except Nat POState :=
  match poLineRefError c
    { item_type := a.item_type.getD ""
      part_id := a.part_id
      description := a.description
      quantity := 0
      unit_price := a.unit_price } with
  | some err => .error err
  | none =>
      match a.quantity with
      | none => .error 500   -- `None <= int` TypeError in the route
      | some qn =>
          if qn ≤ 0 then .error 400
          else
            let line : POLine :=
              { id := st.next_line_id
                item_type := a.item_type.getD ""
                part_id := a.part_id
                description := a.description
                quantity := qn
                unit_price := a.unit_price
                qty_pending := qn
                qty_received := 0
                actual_unit_price := none }
            .ok { st with
                line_items := st.line_items ++ [line]
                next_line_id := st.next_line_id + 1 }

/-- Route `commit_po_edits`: deletes, then edits, then adds, atomically
with a single snapshot; an empty change set returns without a snapshot.
(Accessing a missing `quantity` raises a `TypeError` in the route, modelled
as a 500.) -/
def commit_po_edits (c : Catalog) (s : POState) (changes : List StagedPOChange) :
    Except Nat POState :=
  if changes.any (fun ch => ch.quantity.any (fun n => n ≤ 0)) then
    .error 422   -- pydantic positive-quantity validator
  else if ¬ poEditable s then .error 400
  else
    let deletes := changes.filter (fun ch => ch.action = "delete")
    let edits := changes.filter (fun ch => ch.action = "edit")
    let adds := changes.filter (fun ch => ch.action = "add")
    if deletes = [] ∧ edits = [] ∧ adds = [] then .ok s
    else
      let delete_ids := deletes.map (fun d => d.line_item_id)
      let lines_to_delete :=
        s.line_items.filter (fun l => delete_ids.contains (some l.id))
      if lines_to_delete.length ≠ delete_ids.length then .error 400
      else
        let s := { s with
            line_items := s.line_items.filter
              (fun l => ¬ delete_ids.contains (some l.id)) }
        match edits.foldlM (fun st e => commitPOEdit c st e) s with
        | .error err => .error err
        | .ok s =>
            match adds.foldlM (fun st a => commitPOAdd c st a) s with
            | .error err => .error err
            | .ok s => .ok (create_po_snapshot s "edit" none none).1

/-- Request entry `POReceivingLineItemCreate`. -/
structure RecvEntry where
  po_line_item_id : Nat
  qty_received : Int
  actual_unit_price : Option Rat
deriving DecidableEq, Repr

/-- Append a receiving line to the receiving with the given id. -/
def appendRecvLine (rs : List Recv) (rid : Nat) (rl : RecvLine) : List Recv :=
  rs.map (fun r =>
    if r.id = rid then { r with line_items := r.line_items ++ [rl] } else r)

/-- One iteration of the receiving loop: validate the entry against the
running state, insert the event record, update the line aggregates, and
reprice the line.  The session has `autoflush=False` and nothing is
flushed between `db.add(receiving_line_item)` and the repricing query, so
the query behind `calculate_weighted_average_price` sees only `flushed` —
the receivings as of the start of the request (the fresh receiving row
itself was flushed, still empty) — never any event line of the current
request. -/
def recvApplyEntry (rid : Nat) (flushed : List Recv) (st : POState)
    (e : RecvEntry) : Except Nat POState :=
  match st.line_items.find? (fun l => l.id = e.po_line_item_id) with
  | none => .error 400
  | some line =>
      if e.qty_received ≤ 0 then .error 400
      else if e.qty_received > line.qty_pending then .error 400
      else
        let rl : RecvLine :=
          { po_line_item_id := line.id
            item_type := line.item_type
            description := line.description
            part_id := line.part_id
            unit_price := line.unit_price
            actual_unit_price :=
              match e.actual_unit_price with
              | some p => some p
              | none => line.unit_price
            qty_ordered := line.quantity
            qty_received_this_receiving := e.qty_received
            qty_received_total := line.qty_received + e.qty_received
            qty_pending_after := line.qty_pending - e.qty_received }
        let st := { st with receivings := appendRecvLine st.receivings rid rl }
        let line := { line with
            qty_received := line.qty_received + e.qty_received
            qty_pending := line.qty_pending - e.qty_received }
        let st := { st with line_items := setPOLine st.line_items line }
        let line := { line with
            actual_unit_price :=
              calculate_weighted_average_price
                { st with receivings := flushed } line.id }
        .ok { st with line_items := setPOLine st.line_items line }

/-- Automatic status transition after a receiving: when every line item
reaches `qty_pending = 0` and the PO is not yet Received, switch to
Received and record an extra `status_change` snapshot. -/
def recvAutoStatus (s1 : POState) : POState :=
  if s1.line_items.all (fun it => it.qty_pending = 0) ∧
      s1.status ≠ POStatus.received then
    (create_po_snapshot { s1 with status := POStatus.received }
      "status_change" none none).1
  else s1

/-- Tail of the receiving transaction: the `receive` snapshot and the
automatic status transition. -/
def recvFinish (s : POState) (rid : Nat) : POState :=
  recvAutoStatus (create_po_snapshot s "receive" (some rid) none).1

/-- Route `create_po_receiving`: per-entry validation against the running
line-item state, event-record insertion, aggregate update, weighted-average
reprice, a `receive` snapshot, and an automatic `status_change` snapshot to
Received when every line reaches `qty_pending = 0`. -/
def create_po_receiving (s : POState) (entries : List RecvEntry) :
    Except Nat POState :=
  if entries.any (fun e => e.qty_received ≤ 0) then
    .error 422   -- pydantic positive-quantity validator
  else if ¬ (s.status = POStatus.sent ∨ s.status = POStatus.received) then .error 400
  else
    let rid := s.next_recv_id
    let recv : Recv :=
      { id := rid, voided_at := none, voided_by_snapshot_id := none, line_items := [] }
    let s := { s with receivings := s.receivings ++ [recv], next_recv_id := rid + 1 }
    match entries.foldlM (fun st e => recvApplyEntry rid s.receivings st e) s with
    | .error err => .error err
    | .ok s => .ok (recvFinish s rid)

/-- Live line rebuilt from a snapshot row during PO revert: static fields
restored, aggregates reset before the recomputation pass. -/
def poSnapToLine (t : POLineSnap) (i : Nat) : POLine :=
  { id := i
    item_type := t.item_type
    part_id := t.part_id
    description := t.description
    quantity := t.quantity
    unit_price := t.unit_price
    qty_pending := t.quantity
    qty_received := 0
    actual_unit_price := none }

/-- New rows created for snapshot items with no surviving live row, with
fresh consecutive ids assigned in (sorted) snapshot order. -/
def restorePOLines (ts : List POLineSnap) (existingIds : List Nat) (nid : Nat) :
    List POLine :=
  match ts with
  | [] => []
  | t :: ts =>
      if existingIds.contains t.original_line_item_id then
        restorePOLines ts existingIds nid
      else
        poSnapToLine t nid :: restorePOLines ts existingIds (nid + 1)

/-- Identity remapping built during PO revert: snapshot identity to the
surviving (or newly created) row id, in snapshot order. -/
def buildPOMapping (ts : List POLineSnap) (existingIds : List Nat) (nid : Nat) :
    List (Nat × Nat) :=
  match ts with
  | [] => []
  | t :: ts =>
      if existingIds.contains t.original_line_item_id then
        (t.original_line_item_id, t.original_line_item_id) ::
          buildPOMapping ts existingIds nid
      else
        (t.original_line_item_id, nid) :: buildPOMapping ts existingIds (nid + 1)

/-- Repoint every receiving line referencing identity `o` to row id `n`. -/
def repointRecvLines (rs : List Recv) (o n : Nat) : List Recv :=
  rs.map (fun r =>
    { r with line_items := r.line_items.map (fun li =>
        if li.po_line_item_id = o then { li with po_line_item_id := n } else li) })

/-- Body of the PO revert transaction, for a resolved target snapshot:
void later receivings, reconcile live rows against the snapshot by stable
identity (both sides sorted by id), repoint receiving-line references
through the identity mapping, recompute every aggregate from the surviving
history, derive the status, record the revert snapshot, and link the
voided receivings to it. -/
def revertPOCore (s : POState) (target : POSnap) (v now : Nat) : POState :=
  let voidIds := (s.receivings.filter (fun r =>
      r.voided_at = none ∧
      s.snapshots.any (fun sn => sn.receiving_id = some r.id ∧ sn.version > v))).map
    (fun r => r.id)
  let s := { s with receivings := s.receivings.map (fun r : Recv =>
      if voidIds.contains r.id then
        { r with voided_at := some now, voided_by_snapshot_id := none }
      else r) }
  let existing := List.insertionSort (fun a b : POLine => a.id ≤ b.id) s.line_items
  let existingIds := existing.map (fun l => l.id)
  let snapItems := List.insertionSort
      (fun a b : POLineSnap => a.original_line_item_id ≤ b.original_line_item_id)
      (target.items.filter (fun t => !t.is_deleted))
  let matched := existing.filterMap (fun l =>
      (snapItems.find? (fun t => t.original_line_item_id = l.id)).map
        (fun t => poSnapToLine t l.id))
  let fresh := restorePOLines snapItems existingIds s.next_line_id
  let mapping := buildPOMapping snapItems existingIds s.next_line_id
  let s := { s with
      line_items := matched ++ fresh
      next_line_id := s.next_line_id + fresh.length
      receivings := mapping.foldl
        (fun acc (p : Nat × Nat) => repointRecvLines acc p.1 p.2) s.receivings }
  let s := { s with
      line_items := s.line_items.map (fun l => recompute_line_item_aggregates s l) }
  let s := { s with status :=
      if s.line_items.all (fun it => it.qty_pending = it.quantity) then POStatus.draft
      else if s.line_items.all (fun it => it.qty_pending = 0) then POStatus.received
      else POStatus.sent }
  let sv := create_po_snapshot s "revert" none none
  { sv.1 with receivings := sv.1.receivings.map (fun r =>
      if voidIds.contains r.id then { r with voided_by_snapshot_id := some sv.2.id }
      else r) }

/-- Route `revert_po_to_version`: void later receivings, reconcile live
rows against the target snapshot by stable identity (both sides sorted by
id), repoint receiving-line references through the identity mapping,
recompute every aggregate from the surviving history, derive the status,
record the revert snapshot, and link the voided receivings to it. -/
def revert_po_to_version (s : POState) (v : Nat) (now : Nat) :
    Except Nat POState :=
  match s.snapshots.find? (fun sn => sn.version = v) with
  | none => .error 404
  | some target =>
      if v = s.current_version then .error 400
      else if v > s.current_version then .error 400
      else .ok (revertPOCore s target v now)

/-! ## Committed operations and reachability -/

/-- One committed mutating request against a single quote.  Each
constructor is one route of `routes/quotes.py` succeeding (a thrown error
rolls the transaction back, leaving the state unchanged, so errors are not
steps). -/
inductive QStep : QuoteState → QuoteState → Prop
  | update {q q'} (d : QuoteUpdateData) :
      update_quote q d = .ok q' → QStep q q'
  | addLine {q q'} (c : Catalog) (ld : QLineCreateData) :
      add_quote_line c q ld = .ok q' → QStep q q'
  | updateLine {q q'} (c : Catalog) (lid : Nat) (d : QLineUpdateData) :
      update_quote_line c q lid d = .ok q' → QStep q q'
  | deleteLine {q q'} (lid : Nat) :
      delete_quote_line q lid = .ok q' → QStep q q'
  | commit {q q'} (c : Catalog) (chs : List StagedQChange) :
      commit_edits c q chs = .ok q' → QStep q q'
  | invoice {q q'} (fs : List FulfillEntry) :
      create_invoice q fs = .ok q' → QStep q q'
  | markup {q q'} (c : Catalog) (en : Bool) (gmp : Option Rat) :
      toggle_markup_control c q en gmp = .ok q' → QStep q q'
  | revert {q q'} (v now : Nat) :
      revert_to_snapshot q v now = .ok q' → QStep q q'

/-- Quote states reachable from creation through committed operations. -/
def QReachable (q : QuoteState) : Prop :=
  ∃ d, Relation.ReflTransGen QStep (create_quote d) q

/-- One committed mutating request against a single purchase order. -/
inductive POStep : POState → POState → Prop
  | update {s} (st : Option POStatus) :
      POStep s (update_purchase_order s st)
  | addLine {s s'} (c : Catalog) (ld : POLineCreateData) :
      add_po_line c s ld = .ok s' → POStep s s'
  | updateLine {s s'} (c : Catalog) (lid : Nat) (ld : POLineCreateData) :
      update_po_line c s lid ld = .ok s' → POStep s s'
  | deleteLine {s s'} (lid : Nat) :
      delete_po_line s lid = .ok s' → POStep s s'
  | commit {s s'} (c : Catalog) (chs : List StagedPOChange) :
      commit_po_edits c s chs = .ok s' → POStep s s'
  | receive {s s'} (es : List RecvEntry) :
      create_po_receiving s es = .ok s' → POStep s s'
  | revert {s s'} (v now : Nat) :
      revert_po_to_version s v now = .ok s' → POStep s s'

/-- Purchase-order states reachable from creation through committed
operations. -/
def POReachable (s : POState) : Prop :=
  ∃ st, Relation.ReflTransGen POStep (create_purchase_order st) s

/-! ## Characterization of successful operations -/

theorem update_quote_ok {q d q'} (h : update_quote q d = .ok q') :
    q' = { (match d.status with
            | none => q
            | some s => { q with status := s }) with
           client_po_number :=
             match d.client_po_number with
             | none => q.client_po_number
             | some s => if s.trim = "" then none else some s.trim
           work_description :=
             match d.work_description with
             | none => q.work_description
             | some s => if s.trim = "" then none else some s.trim } := by
  unfold update_quote at h
  split at h
  · exact absurd h (by simp)
  · rw [Except.ok.injEq] at h
    subst h
    cases d.status <;> cases d.client_po_number <;> cases d.work_description <;> rfl

theorem add_quote_line_ok {c q ld q'} (h : add_quote_line c q ld = .ok q') :
    q' = (create_snapshot
      { q with
          line_items := q.line_items ++ [applyMarkupToNewLine c q (newQLine q ld)]
          next_line_id := q.next_line_id + 1 }
      "create" none).1 ∧ quoteFrozen q = false := by
  unfold add_quote_line at h
  split at h
  · exact absurd h (by simp)
  · split at h
    · exact absurd h (by simp)
    · split at h
      · exact absurd h (by simp)
      · split at h
        · exact absurd h (by simp)
        · split at h
          · exact absurd h (by simp)
          · rw [Except.ok.injEq] at h
            refine ⟨h.symm, by simp_all⟩

theorem update_quote_line_ok {c q lid d q'} (h : update_quote_line c q lid d = .ok q') :
    ∃ line0, q.line_items.find? (fun l => l.id = lid) = some line0 ∧
      (q' = (create_snapshot
          { q with line_items := setLine q.line_items (applyQLineUpdate line0 d).1 }
          "edit" none).1 ∨
        q' = { q with line_items := setLine q.line_items (applyQLineUpdate line0 d).1 }) ∧
      quoteFrozen q = false := by
  unfold update_quote_line at h
  split at h
  · exact absurd h (by simp)
  · split at h
    · exact absurd h (by simp)
    · split at h
      · exact absurd h (by simp)
      · rename_i hfrozen line0 hfind
        refine ⟨line0, hfind, ?_, by simp_all⟩
        split at h
        · exact absurd h (by simp)
        · split at h
          · exact absurd h (by simp)
          · split at h
            · exact absurd h (by simp)
            · by_cases hlb : (applyQLineUpdate line0 d).2
              · simp only [hlb, if_true, Except.ok.injEq] at h
                exact Or.inl h.symm
              · simp only [hlb, if_false, Bool.false_eq_true, Except.ok.injEq] at h
                exact Or.inr h.symm

theorem delete_quote_line_ok {q lid q'} (h : delete_quote_line q lid = .ok q') :
    (∃ line0, q.line_items.find? (fun l => l.id = lid) = some line0) ∧
      q' = { q with
          current_version := q.current_version + 1
          snapshots := q.snapshots ++
            [{ id := q.next_snap_id
               version := q.current_version + 1
               action_type := "delete"
               invoice_id := none
               items := q.line_items.map (fun it => qLineToSnap it (it.id = lid)) }]
          next_snap_id := q.next_snap_id + 1
          line_items := q.line_items.filter (fun l => l.id ≠ lid) } ∧
      quoteFrozen q = false := by
  unfold delete_quote_line at h
  split at h
  · exact absurd h (by simp)
  · split at h
    · exact absurd h (by simp)
    · rename_i hfrozen line0 hfind
      rw [Except.ok.injEq] at h
      exact ⟨⟨line0, hfind⟩, h.symm, by simp_all⟩

theorem commit_edits_ok {c q chs q'} (h : commit_edits c q chs = .ok q') :
    ∃ q1, chs.foldlM (fun st ch => commitQChange c st ch) q = .ok q1 ∧
      q' = (create_snapshot q1 "edit" none).1 ∧ quoteFrozen q = false := by
  unfold commit_edits at h
  split at h
  · exact absurd h (by simp)
  · split at h
    · exact absurd h (by simp)
    · split at h
      · exact absurd h (by simp)
      · split at h
        · exact absurd h (by simp)
        · rename_i q1 hfold
          rw [Except.ok.injEq] at h
          exact ⟨q1, hfold, h.symm, by simp_all⟩

theorem create_invoice_ok {q fs q'} (h : create_invoice q fs = .ok q') :
    q' = (create_snapshot
      { q with
          line_items := (fs.foldl invoiceApplyStep (q.line_items, [])).1
          invoices := q.invoices ++
            [{ id := q.next_invoice_id
               status := "Sent"
               voided_at := none
               voided_by_snapshot_id := none
               line_items := (fs.foldl invoiceApplyStep (q.line_items, [])).2 }]
          next_invoice_id := q.next_invoice_id + 1 }
      "invoice" (some q.next_invoice_id)).1 ∧
    (fs.any (fun f =>
      match q.line_items.find? (fun l => l.id = f.line_item_id) with
      | none => true
      | some line => f.quantity ≤ 0 ∨ f.quantity > line.qty_pending)) = false := by
  unfold create_invoice at h
  split at h
  · exact absurd h (by simp)
  · split at h
    · exact absurd h (by simp)
    · split at h
      · exact absurd h (by simp)
      · split at h
        · exact absurd h (by simp)
        · rw [Except.ok.injEq] at h
          exact ⟨h.symm, by simp_all⟩

theorem toggle_markup_ok {c q en gmp q'} (h : toggle_markup_control c q en gmp = .ok q') :
    quoteFrozen q = false ∧
    (en = false → q' = (create_snapshot
      { q with
          markup_control_enabled := false
          global_markup_percent := none
          line_items := q.line_items.map restoreQLinePrice }
      "edit" none).1) := by
  unfold toggle_markup_control at h
  split at h
  · exact absurd h (by simp)
  · split at h
    · exact absurd h (by simp)
    · split at h
      · exact absurd h (by simp)
      · split at h
        · refine ⟨by simp_all, ?_⟩
          rename_i hfr _ _ hen
          intro hf
          rw [hf] at hen
          exact absurd hen (by simp)
        · rw [Except.ok.injEq] at h
          exact ⟨by simp_all, fun _ => h.symm⟩

theorem revert_to_snapshot_ok {q v now q'} (h : revert_to_snapshot q v now = .ok q') :
    ∃ target, q.snapshots.find? (fun s => s.version = v) = some target ∧
      v < q.current_version ∧
      q' = (create_snapshot
        { q with
            invoices := q.invoices.map (fun inv =>
              if inv.status ≠ "Voided" ∧
                  q.snapshots.any (fun s => s.invoice_id = some inv.id ∧ s.version > v) then
                { inv with status := "Voided", voided_at := some now }
              else inv)
            line_items := restoreQLines
              (target.items.filter (fun t => !t.is_deleted)) q.next_line_id
            next_line_id := q.next_line_id +
              (target.items.filter (fun t => !t.is_deleted)).length }
        "revert" none).1 := by
  unfold revert_to_snapshot at h
  split at h
  · exact absurd h (by simp)
  · rename_i target hfind
    split at h
    · exact absurd h (by simp)
    · rw [Except.ok.injEq] at h
      exact ⟨target, hfind, by omega, h.symm⟩

theorem add_po_line_ok {c s ld s'} (h : add_po_line c s ld = .ok s') :
    s' = (create_po_snapshot
      { s with
          line_items := s.line_items ++
            [{ id := s.next_line_id
               item_type := ld.item_type
               part_id := ld.part_id
               description := ld.description
               quantity := ld.quantity
               unit_price := ld.unit_price
               qty_pending := ld.quantity
               qty_received := 0
               actual_unit_price := none }]
          next_line_id := s.next_line_id + 1 }
      "edit" none none).1 ∧ 0 < ld.quantity := by
  unfold add_po_line at h
  split at h
  · exact absurd h (by simp)
  · split at h
    · exact absurd h (by simp)
    · split at h
      · exact absurd h (by simp)
      · rw [Except.ok.injEq] at h
        exact ⟨h.symm, by omega⟩

theorem update_po_line_ok {c s lid ld s'} (h : update_po_line c s lid ld = .ok s') :
    ∃ line0, s.line_items.find? (fun l => l.id = lid) = some line0 ∧
      s' = (create_po_snapshot
        { s with
            line_items := setPOLine s.line_items
              { line0 with
                  item_type := ld.item_type
                  part_id := ld.part_id
                  description := ld.description
                  quantity := ld.quantity
                  unit_price := ld.unit_price
                  qty_pending := max 0 (ld.quantity - line0.qty_received) } }
        "edit" none none).1 := by
  unfold update_po_line at h
  split at h
  · exact absurd h (by simp)
  · split at h
    · exact absurd h (by simp)
    · split at h
      · exact absurd h (by simp)
      · rename_i line0 hfind
        split at h
        · exact absurd h (by simp)
        · rw [Except.ok.injEq] at h
          exact ⟨line0, hfind, h.symm⟩

theorem delete_po_line_ok {s lid s'} (h : delete_po_line s lid = .ok s') :
    ∃ line0, s.line_items.find? (fun l => l.id = lid) = some line0 ∧
      s' = { (create_po_snapshot s "delete" none (some line0)).1 with
             line_items := ((create_po_snapshot s "delete" none
               (some line0)).1).line_items.filter (fun l => l.id ≠ lid) } := by
  unfold delete_po_line at h
  split at h
  · exact absurd h (by simp)
  · split at h
    · exact absurd h (by simp)
    · rename_i line0 hfind
      rw [Except.ok.injEq] at h
      exact ⟨line0, hfind, h.symm⟩

theorem commit_po_edits_ok {c s chs s'} (h : commit_po_edits c s chs = .ok s') :
    s' = s ∨
      ∃ s1 s2,
        ((chs.filter (fun ch => ch.action = "edit")).foldlM
          (fun st e => commitPOEdit c st e)
          { s with line_items := s.line_items.filter (fun l =>
              ¬ ((chs.filter (fun ch => ch.action = "delete")).map
                (fun d => d.line_item_id)).contains (some l.id)) } = .ok s1) ∧
        ((chs.filter (fun ch => ch.action = "add")).foldlM
          (fun st a => commitPOAdd c st a) s1 = .ok s2) ∧
        s' = (create_po_snapshot s2 "edit" none none).1 := by
  unfold commit_po_edits at h
  split at h
  · exact absurd h (by simp)
  · split at h
    · exact absurd h (by simp)
    · simp only [] at h
      split at h
      · rw [Except.ok.injEq] at h
        exact Or.inl h.symm
      · split at h
        · exact absurd h (by simp)
        · split at h
          · exact absurd h (by simp)
          · rename_i s1 hfold1
            split at h
            · exact absurd h (by simp)
            · rename_i s2 hfold2
              rw [Except.ok.injEq] at h
              exact Or.inr ⟨s1, s2, hfold1, hfold2, h.symm⟩

theorem create_po_receiving_ok {s es s'} (h : create_po_receiving s es = .ok s') :
    ∃ s2, (es.foldlM (fun st e => recvApplyEntry s.next_recv_id
          (s.receivings ++
            [{ id := s.next_recv_id
               voided_at := none
               voided_by_snapshot_id := none
               line_items := [] }]) st e)
        { s with
            receivings := s.receivings ++
              [{ id := s.next_recv_id
                 voided_at := none
                 voided_by_snapshot_id := none
                 line_items := [] }]
            next_recv_id := s.next_recv_id + 1 } = .ok s2) ∧
      s' = recvFinish s2 s.next_recv_id := by
  unfold create_po_receiving at h
  split at h
  · exact absurd h (by simp)
  · split at h
    · exact absurd h (by simp)
    · simp only [] at h
      split at h
      · exact absurd h (by simp)
      · rename_i s2 hfold
        rw [Except.ok.injEq] at h
        exact ⟨s2, hfold, h.symm⟩

theorem revert_po_to_version_ok {s v now s'} (h : revert_po_to_version s v now = .ok s') :
    ∃ target, s.snapshots.find? (fun sn => sn.version = v) = some target ∧
      v < s.current_version ∧ s' = revertPOCore s target v now := by
  unfold revert_po_to_version at h
  split at h
  · exact absurd h (by simp)
  · rename_i target hfind
    split at h
    · exact absurd h (by simp)
    · split at h
      · exact absurd h (by simp)
      · rw [Except.ok.injEq] at h
        exact ⟨target, hfind, by omega, h.symm⟩

/-! ## Version bookkeeping lemmas -/

theorem foldlM_inv {α σ : Type _} {P : σ → Prop} {f : σ → α → Except Nat σ}
    (hf : ∀ st a st', P st → f st a = .ok st' → P st') :
    ∀ {l : List α} {st st'}, P st → l.foldlM f st = .ok st' → P st' := by
  intro l
  induction l with
  | nil =>
      intro st st' hp h
      simp only [List.foldlM_nil, pure, Except.pure, Except.ok.injEq] at h
      exact h ▸ hp
  | cons a l ih =>
      intro st st' hp h
      rw [List.foldlM_cons] at h
      cases hfa : f st a with
      | error e =>
          rw [hfa] at h
          exact absurd h (by simp [Bind.bind, Except.bind])
      | ok st1 =>
          rw [hfa] at h
          simp only [Bind.bind, Except.bind] at h
          exact ih (hf st a st1 hp hfa) h

theorem create_snapshot_current_version (q : QuoteState) (aty : String)
    (inv : Option Nat) :
    ((create_snapshot q aty inv).1).current_version = q.current_version + 1 := rfl

theorem create_po_snapshot_current_version (s : POState) (aty : String)
    (recv : Option Nat) (del : Option POLine) :
    ((create_po_snapshot s aty recv del).1).current_version =
      (if aty = "create" ∨ aty = "status_change" then s.current_version
       else s.current_version + 1) := rfl

theorem commitQChange_current_version {c st ch st'}
    (h : commitQChange c st ch = .ok st') :
    st'.current_version = st.current_version := by
  unfold commitQChange at h
  split at h
  · split at h
    · exact absurd h (by simp)
    · split at h
      · exact absurd h (by simp)
      · rw [Except.ok.injEq] at h; exact h ▸ rfl
  · split at h
    · split at h
      · exact absurd h (by simp)
      · split at h
        · exact absurd h (by simp)
        · split at h
          · exact absurd h (by simp)
          · split at h
            · exact absurd h (by simp)
            · split at h
              · exact absurd h (by simp)
              · rw [Except.ok.injEq] at h; exact h ▸ rfl
    · split at h
      · split at h
        · exact absurd h (by simp)
        · split at h
          · exact absurd h (by simp)
          · rw [Except.ok.injEq] at h; exact h ▸ rfl
      · exact absurd h (by simp)

theorem update_quote_current_version {q d q'} (h : update_quote q d = .ok q') :
    q'.current_version = q.current_version := by
  rw [update_quote_ok h]
  cases d.status <;> rfl

theorem commitPOEdit_current_version {c st e st'}
    (h : commitPOEdit c st e = .ok st') :
    st'.current_version = st.current_version := by
  unfold commitPOEdit at h
  split at h
  · exact absurd h (by simp)
  · split at h
    · exact absurd h (by simp)
    · split at h
      · exact absurd h (by simp)
      · split at h
        · exact absurd h (by simp)
        · rw [Except.ok.injEq] at h; exact h ▸ rfl

theorem commitPOAdd_current_version {c st a st'}
    (h : commitPOAdd c st a = .ok st') :
    st'.current_version = st.current_version := by
  unfold commitPOAdd at h
  split at h
  · exact absurd h (by simp)
  · split at h
    · exact absurd h (by simp)
    · split at h
      · exact absurd h (by simp)
      · rw [Except.ok.injEq] at h; exact h ▸ rfl

theorem recvApplyEntry_current_version {rid fl st e st'}
    (h : recvApplyEntry rid fl st e = .ok st') :
    st'.current_version = st.current_version := by
  unfold recvApplyEntry at h
  split at h
  · exact absurd h (by simp)
  · split at h
    · exact absurd h (by simp)
    · split at h
      · exact absurd h (by simp)
      · rw [Except.ok.injEq] at h; exact h ▸ rfl

theorem qstep_version_mono {q q'} (h : QStep q q') :
    q.current_version ≤ q'.current_version := by
  cases h with
  | update d h => rw [update_quote_current_version h]
  | addLine c ld h =>
      rw [(add_quote_line_ok h).1, create_snapshot_current_version]
      exact Nat.le_succ _
  | updateLine c lid d h =>
      obtain ⟨line0, -, hq, -⟩ := update_quote_line_ok h
      rcases hq with hq | hq
      · rw [hq, create_snapshot_current_version]
        exact Nat.le_succ _
      · rw [hq]
  | deleteLine lid h =>
      obtain ⟨-, hq, -⟩ := delete_quote_line_ok h
      rw [hq]
      exact Nat.le_succ _
  | commit c chs h =>
      obtain ⟨q1, hfold, hq, -⟩ := commit_edits_ok h
      have h1 : q1.current_version = q.current_version :=
        foldlM_inv (P := fun st => st.current_version = q.current_version)
          (fun st ch st' hp hok => (commitQChange_current_version hok).trans hp)
          rfl hfold
      rw [hq, create_snapshot_current_version, h1]
      exact Nat.le_succ _
  | invoice fs h =>
      rw [(create_invoice_ok h).1, create_snapshot_current_version]
      exact Nat.le_succ _
  | markup c en gmp h =>
      unfold toggle_markup_control at h
      split at h
      · exact absurd h (by simp)
      · split at h
        · exact absurd h (by simp)
        · split at h
          · exact absurd h (by simp)
          · split at h
            · split at h <;>
                (rw [Except.ok.injEq] at h; rw [← h, create_snapshot_current_version];
                  exact Nat.le_succ _)
            · rw [Except.ok.injEq] at h
              rw [← h, create_snapshot_current_version]
              exact Nat.le_succ _
  | revert v now h =>
      obtain ⟨target, -, -, hq⟩ := revert_to_snapshot_ok h
      rw [hq, create_snapshot_current_version]
      exact Nat.le_succ _

theorem revert_to_snapshot_version_strict {q v now q'}
    (h : revert_to_snapshot q v now = .ok q') :
    q.current_version < q'.current_version := by
  obtain ⟨target, -, -, hq⟩ := revert_to_snapshot_ok h
  rw [hq, create_snapshot_current_version]
  exact Nat.lt_succ_self _

theorem recvAutoStatus_current_version (s1 : POState) :
    (recvAutoStatus s1).current_version = s1.current_version := by
  unfold recvAutoStatus
  split <;> rfl

theorem recvFinish_current_version (s : POState) (rid : Nat) :
    (recvFinish s rid).current_version = s.current_version + 1 := by
  unfold recvFinish
  rw [recvAutoStatus_current_version]
  rfl

theorem revertPOCore_current_version (s : POState) (target : POSnap) (v now : Nat) :
    (revertPOCore s target v now).current_version = s.current_version + 1 := rfl

theorem postep_version_mono {s s'} (h : POStep s s') :
    s.current_version ≤ s'.current_version := by
  cases h with
  | update st =>
      unfold update_purchase_order
      cases st with
      | none => exact Nat.le_refl _
      | some ns =>
          dsimp only
          split
          · rw [create_po_snapshot_current_version]
            split <;> first | exact Nat.le_refl _ | exact Nat.le_succ _
          · exact Nat.le_refl _
  | addLine c ld h =>
      rw [(add_po_line_ok h).1, create_po_snapshot_current_version]
      split <;> first | exact Nat.le_refl _ | exact Nat.le_succ _
  | updateLine c lid ld h =>
      obtain ⟨line0, -, hq⟩ := update_po_line_ok h
      rw [hq, create_po_snapshot_current_version]
      split <;> first | exact Nat.le_refl _ | exact Nat.le_succ _
  | deleteLine lid h =>
      obtain ⟨line0, -, hq⟩ := delete_po_line_ok h
      rw [hq]
      show s.current_version ≤
        ((create_po_snapshot s "delete" none (some line0)).1).current_version
      rw [create_po_snapshot_current_version]
      split <;> first | exact Nat.le_refl _ | exact Nat.le_succ _
  | commit c chs h =>
      rcases commit_po_edits_ok h with hq | ⟨s1, s2, hf1, hf2, hq⟩
      · rw [hq]
      · have h1 : s1.current_version = s.current_version :=
          foldlM_inv (P := fun st => st.current_version = s.current_version)
            (fun st e st' hp hok => (commitPOEdit_current_version hok).trans hp)
            rfl hf1
        have h2 : s2.current_version = s.current_version :=
          foldlM_inv (P := fun st => st.current_version = s.current_version)
            (fun st a st' hp hok => (commitPOAdd_current_version hok).trans hp)
            h1 hf2
        rw [hq, create_po_snapshot_current_version, h2]
        split <;> first | exact Nat.le_refl _ | exact Nat.le_succ _
  | receive es h =>
      obtain ⟨s2, hfold, hq⟩ := create_po_receiving_ok h
      have h2 : s2.current_version = s.current_version :=
        foldlM_inv (P := fun st => st.current_version = s.current_version)
          (fun st e st' hp hok => (recvApplyEntry_current_version hok).trans hp)
          rfl hfold
      rw [hq, recvFinish_current_version, h2]; omega
  | revert v now h =>
      obtain ⟨target, -, -, hq⟩ := revert_po_to_version_ok h
      rw [hq, revertPOCore_current_version]; omega

theorem revert_po_version_strict {s v now s'}
    (h : revert_po_to_version s v now = .ok s') :
    s.current_version < s'.current_version := by
  obtain ⟨target, -, -, hq⟩ := revert_po_to_version_ok h
  rw [hq, revertPOCore_current_version]; omega

/-! ## Concrete executions

Small concrete documents used to witness the theorems and to exhibit
counterexamples.  Prices are left null so every state is evaluable by
kernel reduction. -/

/-- Empty catalog: every line item in the traces is a free-text misc item. -/
def catalog0 : Catalog :=
  { labor := fun _ => none, part := fun _ => none,
    misc := fun _ => none, discount := fun _ => none }

def poA0 : POState := create_purchase_order POStatus.draft

def poAdd1 : POLineCreateData :=
  { item_type := "misc", part_id := none, description := some "widget",
    quantity := 10, unit_price := none }

def poA1 : POState := (add_po_line catalog0 poA0 poAdd1).toOption.getD poA0

def poA2 : POState := update_purchase_order poA1 (some POStatus.sent)

def poRecv1 : List RecvEntry :=
  [{ po_line_item_id := 1, qty_received := 6, actual_unit_price := none }]

def poA3 : POState := (create_po_receiving poA2 poRecv1).toOption.getD poA0

def poA4 : POState := (revert_po_to_version poA3 1 100).toOption.getD poA0

def poA5 : POState := (revert_po_to_version poA4 2 200).toOption.getD poA0

def qA0 : QuoteState := create_quote
  { status := "Active", client_po_number := some "CPO-1", work_description := none }

def qAdd1 : QLineCreateData :=
  { item_type := "misc", labor_id := none, part_id := none, misc_id := none,
    discount_code_id := none, description := some "widget", quantity := 2,
    unit_price := none, is_pms := false, pms_percent := none }

def qA1 : QuoteState := (add_quote_line catalog0 qA0 qAdd1).toOption.getD qA0

def qA2 : QuoteState :=
  (create_invoice qA1 [{ line_item_id := 1, quantity := 1 }]).toOption.getD qA0

def qA3 : QuoteState := (revert_to_snapshot qA2 1 50).toOption.getD qA0

/-! ## Claim C5 -/

/-- C5: for every document, `current_version` never decreases across any
committed operation (each `QStep` / `POStep` is one successful mutating
route), and every successful revert strictly increases `current_version`,
so a revert never sets `current_version` back to the target version. -/
theorem C5_version_monotonic :
    (∀ q q' : QuoteState, QStep q q' → q.current_version ≤ q'.current_version) ∧
    (∀ s s' : POState, POStep s s' → s.current_version ≤ s'.current_version) ∧
    (∀ (q q' : QuoteState) (v now : Nat), revert_to_snapshot q v now = .ok q' →
      q.current_version < q'.current_version) ∧
    (∀ (s s' : POState) (v now : Nat), revert_po_to_version s v now = .ok s' →
      s.current_version < s'.current_version) :=
  ⟨fun _ _ => qstep_version_mono, fun _ _ => postep_version_mono,
   fun _ _ _ _ => revert_to_snapshot_version_strict,
   fun _ _ _ _ => revert_po_version_strict⟩

/-- Witness for C5 on the concrete traces. -/
theorem C5_version_monotonic_witness :
    qA0.current_version ≤ qA1.current_version ∧
    poA0.current_version ≤ poA1.current_version ∧
    qA2.current_version < qA3.current_version ∧
    poA3.current_version < poA4.current_version :=
  ⟨C5_version_monotonic.1 qA0 qA1 (QStep.addLine catalog0 qAdd1 rfl),
   C5_version_monotonic.2.1 poA0 poA1 (POStep.addLine catalog0 poAdd1 rfl),
   C5_version_monotonic.2.2.1 qA2 qA3 1 50 (by rfl),
   C5_version_monotonic.2.2.2 poA3 poA4 1 100 (by rfl)⟩

/-! ## Claim C6 -/

/-- C6: `revert(document, target_version)` fails with an error when no
snapshot with that version exists for the document, or when
`target_version ≥ current_version`.  In the embedding an error is a rolled
back transaction, so the document, its line items and its fulfillment
events are unchanged by construction. -/
theorem C6_revert_preconditions :
    (∀ (q : QuoteState) (v now : Nat),
      ((∀ sn ∈ q.snapshots, sn.version ≠ v) ∨ q.current_version ≤ v) →
      ∃ e, revert_to_snapshot q v now = .error e) ∧
    (∀ (s : POState) (v now : Nat),
      ((∀ sn ∈ s.snapshots, sn.version ≠ v) ∨ s.current_version ≤ v) →
      ∃ e, revert_po_to_version s v now = .error e) := by
  constructor
  · intro q v now h
    unfold revert_to_snapshot
    cases hf : q.snapshots.find? (fun sn => sn.version = v) with
    | none => exact ⟨404, rfl⟩
    | some target =>
        have hv : q.current_version ≤ v := by
          rcases h with h | h
          · have h1 := List.find?_some hf
            have h2 := List.mem_of_find?_eq_some hf
            simp only [decide_eq_true_eq] at h1
            exact absurd h1 (h target h2)
          · exact h
        refine ⟨400, ?_⟩
        dsimp only
        rw [if_pos (show v ≥ q.current_version from hv)]
  · intro s v now h
    unfold revert_po_to_version
    cases hf : s.snapshots.find? (fun sn => sn.version = v) with
    | none => exact ⟨404, rfl⟩
    | some target =>
        have hv : s.current_version ≤ v := by
          rcases h with h | h
          · have h1 := List.find?_some hf
            have h2 := List.mem_of_find?_eq_some hf
            simp only [decide_eq_true_eq] at h1
            exact absurd h1 (h target h2)
          · exact h
        refine ⟨400, ?_⟩
        dsimp only
        rcases Nat.eq_or_lt_of_le hv with he | hlt
        · rw [if_pos he.symm]
        · rw [if_neg (by omega), if_pos hlt]

/-- Witness for C6: reverting a quote to the never-recorded version 0 and
reverting a PO to its current version both fail. -/
theorem C6_revert_preconditions_witness :
    (∃ e, revert_to_snapshot qA1 0 7 = .error e) ∧
    (∃ e, revert_po_to_version poA1 1 7 = .error e) :=
  ⟨C6_revert_preconditions.1 qA1 0 7 (Or.inl (by decide)),
   C6_revert_preconditions.2 poA1 1 7 (Or.inr (by decide))⟩

/-! ## Claim C7 (counterexample part) -/

def poB1 : POState := update_purchase_order poA0 (some POStatus.sent)

/-- C7 is false as stated: a freshly created purchase order already has
its `create` snapshot at version 0, and a pure status change records a
second snapshot at the same version 0, so a reachable state has two
snapshots sharing `(document_id, version)`. -/
theorem C7_counterexample :
    POStep poA0 poB1 ∧
    poB1.snapshots.map (fun sn => sn.version) = [0, 0] ∧
    ¬ poB1.snapshots.Pairwise (fun a b => a.version ≠ b.version) :=
  ⟨POStep.update (some POStatus.sent), by decide, by decide⟩

/-! ## Quote well-formedness

The invariants maintained by every committed quote operation.  They are
stated over a single state so that concrete witnesses can discharge them by
evaluation. -/

structure QWF (q : QuoteState) : Prop where
  lines_split : ∀ it ∈ q.line_items, it.quantity = it.qty_pending + it.qty_fulfilled
  snaps_split : ∀ sn ∈ q.snapshots, ∀ t ∈ sn.items,
    t.quantity = t.qty_pending + t.qty_fulfilled
  snap_version_pos : ∀ sn ∈ q.snapshots, 1 ≤ sn.version
  snap_version_le : ∀ sn ∈ q.snapshots, sn.version ≤ q.current_version
  snap_sorted : q.snapshots.Pairwise (fun a b => a.version < b.version)
  lines_sorted : q.line_items.Pairwise (fun a b => a.id < b.id)
  lines_lt : ∀ it ∈ q.line_items, it.id < q.next_line_id
  inv_vbsi : ∀ inv ∈ q.invoices, inv.voided_by_snapshot_id = none

theorem setLine_id_map (ls : List QLine) (line : QLine) :
    (setLine ls line).map (fun l => l.id) = ls.map (fun l => l.id) := by
  unfold setLine
  rw [List.map_map]
  apply List.map_congr_left
  intro l _
  dsimp only [Function.comp]
  split
  · rename_i he; exact he.symm
  · rfl

theorem mem_setLine {ls : List QLine} {line it : QLine}
    (h : it ∈ setLine ls line) :
    ∃ l ∈ ls, it = line ∧ l.id = line.id ∨ it = l := by
  unfold setLine at h
  obtain ⟨l, hl, he⟩ := List.mem_map.mp h
  refine ⟨l, hl, ?_⟩
  by_cases hc : l.id = line.id
  · rw [if_pos hc] at he; exact Or.inl ⟨he.symm, hc⟩
  · rw [if_neg hc] at he; exact Or.inr he.symm

theorem pairwise_id_of_map_eq {ls ls' : List QLine}
    (h : ls'.map (fun l => l.id) = ls.map (fun l => l.id))
    (hp : ls.Pairwise (fun a b => a.id < b.id)) :
    ls'.Pairwise (fun a b => a.id < b.id) := by
  have h1 : (ls.map (fun l => l.id)).Pairwise (· < ·) := List.pairwise_map.mpr hp
  rw [← h] at h1
  exact List.pairwise_map.mp h1

theorem lt_of_map_eq {ls ls' : List QLine} {N : Nat}
    (h : ls'.map (fun l => l.id) = ls.map (fun l => l.id))
    (hl : ∀ it ∈ ls, it.id < N) :
    ∀ it ∈ ls', it.id < N := by
  intro it hit
  have : it.id ∈ ls'.map (fun l => l.id) := List.mem_map_of_mem _ hit
  rw [h] at this
  obtain ⟨l, hl', he⟩ := List.mem_map.mp this
  exact he ▸ hl l hl'

/-- Pairwise bound: a sorted-by-id list whose elements are all below `N`
stays sorted after appending an element with id `N`. -/
theorem pairwise_append_lt {ls : List QLine} {line : QLine}
    (hs : ls.Pairwise (fun a b => a.id < b.id))
    (hl : ∀ it ∈ ls, it.id < line.id) :
    (ls ++ [line]).Pairwise (fun a b => a.id < b.id) := by
  rw [List.pairwise_append]
  exact ⟨hs, List.pairwise_singleton _ _, fun a ha b hb => by
    rw [List.mem_singleton] at hb
    exact hb ▸ hl a ha⟩

theorem QWF.create_snapshot {q : QuoteState} (h : QWF q) (aty : String)
    (inv : Option Nat) : QWF (create_snapshot q aty inv).1 := by
  unfold UcVelocity.create_snapshot
  constructor
  · exact h.lines_split
  · intro sn hsn t ht
    rw [List.mem_append] at hsn
    rcases hsn with hsn | hsn
    · exact h.snaps_split sn hsn t ht
    · rw [List.mem_singleton] at hsn
      subst hsn
      simp only [List.mem_map] at ht
      obtain ⟨it, hit, he⟩ := ht
      rw [← he]
      exact h.lines_split it hit
  · intro sn hsn
    rw [List.mem_append] at hsn
    rcases hsn with hsn | hsn
    · exact h.snap_version_pos sn hsn
    · rw [List.mem_singleton] at hsn
      subst hsn
      exact Nat.le_add_left 1 _
  · intro sn hsn
    rw [List.mem_append] at hsn
    rcases hsn with hsn | hsn
    · exact Nat.le_succ_of_le (h.snap_version_le sn hsn)
    · rw [List.mem_singleton] at hsn
      subst hsn
      exact Nat.le_refl _
  · rw [List.pairwise_append]
    refine ⟨h.snap_sorted, List.pairwise_singleton _ _, fun a ha b hb => ?_⟩
    rw [List.mem_singleton] at hb
    subst hb
    exact Nat.lt_succ_of_le (h.snap_version_le a ha)
  · exact h.lines_sorted
  · exact h.lines_lt
  · exact h.inv_vbsi

theorem foldl_inv {α σ : Type _} {P : σ → Prop} {f : σ → α → σ}
    (hf : ∀ st a, P st → P (f st a)) :
    ∀ (l : List α) (st : σ), P st → P (l.foldl f st) := by
  intro l
  induction l with
  | nil => intro st hp; exact hp
  | cons a l ih => intro st hp; exact ih (f st a) (hf st a hp)

theorem applyMarkupToNewLine_fields (c : Catalog) (q : QuoteState) (l : QLine) :
    (applyMarkupToNewLine c q l).id = l.id ∧
    (applyMarkupToNewLine c q l).quantity = l.quantity ∧
    (applyMarkupToNewLine c q l).qty_pending = l.qty_pending ∧
    (applyMarkupToNewLine c q l).qty_fulfilled = l.qty_fulfilled := by
  unfold applyMarkupToNewLine
  split
  · dsimp only
    split <;> exact ⟨rfl, rfl, rfl, rfl⟩
  · exact ⟨rfl, rfl, rfl, rfl⟩

theorem applyQLineUpdate_fields (line0 : QLine) (d : QLineUpdateData) :
    (applyQLineUpdate line0 d).1.id = line0.id ∧
    (applyQLineUpdate line0 d).1.qty_fulfilled = line0.qty_fulfilled ∧
    (line0.quantity = line0.qty_pending + line0.qty_fulfilled →
      (applyQLineUpdate line0 d).1.quantity =
        (applyQLineUpdate line0 d).1.qty_pending +
          (applyQLineUpdate line0 d).1.qty_fulfilled) := by
  unfold applyQLineUpdate
  cases d.quantity <;> cases d.unit_price <;> cases d.discount_code_id <;>
      (try dsimp only) <;> (try split) <;>
    exact ⟨rfl, rfl, fun hs => by first | omega | (dsimp only; omega)⟩

theorem applyStagedQEdit_fields (line0 : QLine) (ch : StagedQChange) :
    (applyStagedQEdit line0 ch).id = line0.id ∧
    (applyStagedQEdit line0 ch).qty_fulfilled = line0.qty_fulfilled ∧
    (line0.quantity = line0.qty_pending + line0.qty_fulfilled →
      (applyStagedQEdit line0 ch).quantity =
        (applyStagedQEdit line0 ch).qty_pending +
          (applyStagedQEdit line0 ch).qty_fulfilled) := by
  unfold applyStagedQEdit
  cases ch.quantity <;> cases ch.unit_price <;> cases ch.discount_code_id <;>
      cases ch.description <;> dsimp only <;>
    repeat' split
  all_goals exact ⟨rfl, rfl, fun hs => by first | omega | (dsimp only; omega)⟩

theorem commitQChange_ok {c st ch st'} (h : commitQChange c st ch = .ok st') :
    st' = { st with
        line_items := st.line_items ++
          [applyMarkupToNewLine c st (newQLine st (stagedToCreate ch))]
        next_line_id := st.next_line_id + 1 } ∨
    (∃ line0, st.line_items.find? (fun l => l.id = ch.line_item_id.getD 0) = some line0 ∧
      st' = { st with line_items := setLine st.line_items (applyStagedQEdit line0 ch) }) ∨
    st' = { st with
        line_items := st.line_items.filter (fun l => l.id ≠ ch.line_item_id.getD 0) } := by
  unfold commitQChange at h
  split at h
  · split at h
    · exact absurd h (by simp)
    · split at h
      · exact absurd h (by simp)
      · rw [Except.ok.injEq] at h
        exact Or.inl h.symm
  · split at h
    · split at h
      · exact absurd h (by simp)
      · split at h
        · exact absurd h (by simp)
        · rename_i line0 hfind
          split at h
          · exact absurd h (by simp)
          · split at h
            · exact absurd h (by simp)
            · split at h
              · exact absurd h (by simp)
              · rw [Except.ok.injEq] at h
                exact Or.inr (Or.inl ⟨line0, hfind, h.symm⟩)
    · split at h
      · split at h
        · exact absurd h (by simp)
        · split at h
          · exact absurd h (by simp)
          · rw [Except.ok.injEq] at h
            exact Or.inr (Or.inr h.symm)
      · exact absurd h (by simp)

theorem restoreQLines_mem {ts : List QLineSnap} {n : Nat} {it : QLine}
    (h : it ∈ restoreQLines ts n) :
    ∃ t ∈ ts, ∃ i, it = qSnapToLine t i ∧ n ≤ i ∧ i < n + ts.length := by
  induction ts generalizing n with
  | nil => cases h
  | cons t ts ih =>
      rw [restoreQLines, List.mem_cons] at h
      rcases h with h | h
      · exact ⟨t, List.mem_cons_self t ts, n, h, Nat.le_refl n, by simp⟩
      · obtain ⟨t', ht', i, he, hge, hlt⟩ := ih h
        exact ⟨t', List.mem_cons_of_mem t ht', i, he, Nat.le_of_succ_le hge,
          by simp at hlt ⊢; omega⟩

theorem restoreQLines_sorted (ts : List QLineSnap) (n : Nat) :
    (restoreQLines ts n).Pairwise (fun a b => a.id < b.id) := by
  induction ts generalizing n with
  | nil => exact List.Pairwise.nil
  | cons t ts ih =>
      rw [restoreQLines]
      refine List.pairwise_cons.mpr ⟨fun b hb => ?_, ih (n + 1)⟩
      obtain ⟨t', ht', i, he, hge, hlt⟩ := restoreQLines_mem hb
      rw [he]
      exact Nat.lt_of_succ_le hge

/-- Quantity-split shorthand for quote lines. -/
def qSplit (it : QLine) : Prop := it.quantity = it.qty_pending + it.qty_fulfilled

theorem QWF.set_lines {q : QuoteState} (h : QWF q) {ls : List QLine} {N : Nat}
    (h1 : ∀ it ∈ ls, qSplit it)
    (h2 : ls.Pairwise (fun a b => a.id < b.id))
    (h3 : ∀ it ∈ ls, it.id < N) :
    QWF { q with line_items := ls, next_line_id := N } :=
  ⟨h1, h.snaps_split, h.snap_version_pos, h.snap_version_le, h.snap_sorted,
   h2, h3, h.inv_vbsi⟩

theorem lines_facts_setLine {ls : List QLine} {b : QLine} {N : Nat}
    (h1 : ∀ it ∈ ls, qSplit it)
    (h2 : ls.Pairwise (fun a b => a.id < b.id))
    (h3 : ∀ it ∈ ls, it.id < N)
    (hnew : qSplit b) :
    (∀ it ∈ setLine ls b, qSplit it) ∧
    (setLine ls b).Pairwise (fun a b => a.id < b.id) ∧
    (∀ it ∈ setLine ls b, it.id < N) := by
  refine ⟨?_, pairwise_id_of_map_eq (setLine_id_map ls b) h2,
    lt_of_map_eq (setLine_id_map ls b) h3⟩
  intro it hit
  obtain ⟨l, hl, hcase⟩ := mem_setLine hit
  rcases hcase with ⟨he, -⟩ | he
  · exact he ▸ hnew
  · exact he ▸ h1 l hl

theorem lines_facts_append {ls : List QLine} {b : QLine}
    (h1 : ∀ it ∈ ls, qSplit it)
    (h2 : ls.Pairwise (fun a b => a.id < b.id))
    (h3 : ∀ it ∈ ls, it.id < b.id)
    (hnew : qSplit b) :
    (∀ it ∈ ls ++ [b], qSplit it) ∧
    (ls ++ [b]).Pairwise (fun a b => a.id < b.id) ∧
    (∀ it ∈ ls ++ [b], it.id < b.id + 1) := by
  refine ⟨?_, pairwise_append_lt h2 h3, ?_⟩
  · intro it hit
    rw [List.mem_append, List.mem_singleton] at hit
    rcases hit with hit | hit
    · exact h1 it hit
    · exact hit ▸ hnew
  · intro it hit
    rw [List.mem_append, List.mem_singleton] at hit
    rcases hit with hit | hit
    · exact Nat.lt_succ_of_lt (h3 it hit)
    · exact hit ▸ Nat.lt_succ_self _

theorem lines_facts_filter {ls : List QLine} {p : QLine → Bool} {N : Nat}
    (h1 : ∀ it ∈ ls, qSplit it)
    (h2 : ls.Pairwise (fun a b => a.id < b.id))
    (h3 : ∀ it ∈ ls, it.id < N) :
    (∀ it ∈ ls.filter p, qSplit it) ∧
    (ls.filter p).Pairwise (fun a b => a.id < b.id) ∧
    (∀ it ∈ ls.filter p, it.id < N) :=
  ⟨fun it hit => h1 it (List.mem_of_mem_filter hit), h2.filter p,
   fun it hit => h3 it (List.mem_of_mem_filter hit)⟩

theorem lines_facts_map {ls : List QLine} {f : QLine → QLine} {N : Nat}
    (hf : ∀ l, (f l).id = l.id ∧ (f l).quantity = l.quantity ∧
      (f l).qty_pending = l.qty_pending ∧ (f l).qty_fulfilled = l.qty_fulfilled)
    (h1 : ∀ it ∈ ls, qSplit it)
    (h2 : ls.Pairwise (fun a b => a.id < b.id))
    (h3 : ∀ it ∈ ls, it.id < N) :
    (∀ it ∈ ls.map f, qSplit it) ∧
    (ls.map f).Pairwise (fun a b => a.id < b.id) ∧
    (∀ it ∈ ls.map f, it.id < N) := by
  have hmap : (ls.map f).map (fun l => l.id) = ls.map (fun l => l.id) := by
    rw [List.map_map]
    exact List.map_congr_left (fun l _ => (hf l).1)
  refine ⟨?_, pairwise_id_of_map_eq hmap h2, lt_of_map_eq hmap h3⟩
  intro it hit
  obtain ⟨l, hl, he⟩ := List.mem_map.mp hit
  obtain ⟨-, hq, hp, hful⟩ := hf l
  subst he
  unfold qSplit
  rw [hq, hp, hful]
  exact h1 l hl

theorem QWF.add_quote_line {c q ld q'} (h : QWF q)
    (hok : add_quote_line c q ld = .ok q') : QWF q' := by
  rw [(add_quote_line_ok hok).1]
  refine QWF.create_snapshot ?_ _ _
  have hfields := applyMarkupToNewLine_fields c q (newQLine q ld)
  have hid : (applyMarkupToNewLine c q (newQLine q ld)).id = q.next_line_id :=
    hfields.1
  obtain ⟨hx1, hx2, hx3⟩ := lines_facts_append (b := applyMarkupToNewLine c q (newQLine q ld))
    h.lines_split h.lines_sorted (fun it hit => by rw [hid]; exact h.lines_lt it hit)
    (by unfold qSplit
        rw [hfields.2.1, hfields.2.2.1, hfields.2.2.2]
        simp [newQLine])
  refine QWF.set_lines h hx1 hx2 ?_
  rw [← hid]
  exact hx3

theorem QWF.update_quote_line {c q lid d q'} (h : QWF q)
    (hok : update_quote_line c q lid d = .ok q') : QWF q' := by
  obtain ⟨line0, hfind, hq, -⟩ := update_quote_line_ok hok
  have hmem := List.mem_of_find?_eq_some hfind
  have hfields := applyQLineUpdate_fields line0 d
  obtain ⟨hx1, hx2, hx3⟩ := lines_facts_setLine (b := (applyQLineUpdate line0 d).1)
    h.lines_split h.lines_sorted h.lines_lt
    (hfields.2.2 (h.lines_split line0 hmem))
  have hbase : QWF { q with line_items := setLine q.line_items (applyQLineUpdate line0 d).1 } :=
    QWF.set_lines h hx1 hx2 hx3
  rcases hq with hq | hq
  · rw [hq]; exact QWF.create_snapshot hbase _ _
  · rw [hq]; exact hbase

theorem QWF.delete_quote_line {q lid q'} (h : QWF q)
    (hok : delete_quote_line q lid = .ok q') : QWF q' := by
  obtain ⟨-, hq, -⟩ := delete_quote_line_ok hok
  obtain ⟨hx1, hx2, hx3⟩ := lines_facts_filter (p := fun l => l.id ≠ lid)
    (N := q.next_line_id) h.lines_split h.lines_sorted h.lines_lt
  rw [hq]
  constructor
  · exact hx1
  · intro sn hsn t ht
    rw [List.mem_append] at hsn
    rcases hsn with hsn | hsn
    · exact h.snaps_split sn hsn t ht
    · rw [List.mem_singleton] at hsn
      subst hsn
      obtain ⟨it, hit, he⟩ := List.mem_map.mp ht
      rw [← he]
      exact h.lines_split it hit
  · intro sn hsn
    rw [List.mem_append] at hsn
    rcases hsn with hsn | hsn
    · exact h.snap_version_pos sn hsn
    · rw [List.mem_singleton] at hsn
      subst hsn
      exact Nat.le_add_left 1 _
  · intro sn hsn
    rw [List.mem_append] at hsn
    rcases hsn with hsn | hsn
    · exact Nat.le_succ_of_le (h.snap_version_le sn hsn)
    · rw [List.mem_singleton] at hsn
      subst hsn
      exact Nat.le_refl _
  · rw [List.pairwise_append]
    refine ⟨h.snap_sorted, List.pairwise_singleton _ _, fun a ha b hb => ?_⟩
    rw [List.mem_singleton] at hb
    subst hb
    exact Nat.lt_succ_of_le (h.snap_version_le a ha)
  · exact hx2
  · exact hx3
  · exact h.inv_vbsi

theorem QWF.commitQChange {c st ch st'} (h : QWF st)
    (hok : commitQChange c st ch = .ok st') : QWF st' := by
  rcases commitQChange_ok hok with hq | ⟨line0, hfind, hq⟩ | hq
  · rw [hq]
    have hfields := applyMarkupToNewLine_fields c st (newQLine st (stagedToCreate ch))
    have hid : (applyMarkupToNewLine c st (newQLine st (stagedToCreate ch))).id =
        st.next_line_id := hfields.1
    obtain ⟨hx1, hx2, hx3⟩ := lines_facts_append
      (b := applyMarkupToNewLine c st (newQLine st (stagedToCreate ch)))
      h.lines_split h.lines_sorted
      (fun it hit => by rw [hid]; exact h.lines_lt it hit)
      (by unfold qSplit
          rw [hfields.2.1, hfields.2.2.1, hfields.2.2.2]
          simp [newQLine])
    refine QWF.set_lines h hx1 hx2 ?_
    rw [← hid]
    exact hx3
  · rw [hq]
    have hmem := List.mem_of_find?_eq_some hfind
    have hfields := applyStagedQEdit_fields line0 ch
    obtain ⟨hx1, hx2, hx3⟩ := lines_facts_setLine (b := applyStagedQEdit line0 ch)
      h.lines_split h.lines_sorted h.lines_lt
      (hfields.2.2 (h.lines_split line0 hmem))
    exact QWF.set_lines h hx1 hx2 hx3
  · rw [hq]
    obtain ⟨hx1, hx2, hx3⟩ := lines_facts_filter
      (p := fun l => l.id ≠ ch.line_item_id.getD 0) (N := st.next_line_id)
      h.lines_split h.lines_sorted h.lines_lt
    exact QWF.set_lines h hx1 hx2 hx3

theorem QWF.commit_edits {c q chs q'} (h : QWF q)
    (hok : commit_edits c q chs = .ok q') : QWF q' := by
  obtain ⟨q1, hfold, hq, -⟩ := commit_edits_ok hok
  have h1 : QWF q1 :=
    foldlM_inv (P := QWF) (fun st ch st' hp hokk => QWF.commitQChange hp hokk) h hfold
  rw [hq]
  exact QWF.create_snapshot h1 _ _

theorem invoiceApplyStep_facts {base : List QLine} :
    ∀ (acc : List QLine × List InvLine) (f : FulfillEntry),
      ((∀ it ∈ acc.1, qSplit it) ∧
        acc.1.map (fun l => l.id) = base.map (fun l => l.id)) →
      ((∀ it ∈ (invoiceApplyStep acc f).1, qSplit it) ∧
        (invoiceApplyStep acc f).1.map (fun l => l.id) = base.map (fun l => l.id)) := by
  intro acc f ⟨h1, h2⟩
  unfold invoiceApplyStep
  cases hfind : acc.1.find? (fun l => l.id = f.line_item_id) with
  | none => exact ⟨h1, h2⟩
  | some line =>
      dsimp only
      have hmem := List.mem_of_find?_eq_some hfind
      constructor
      · intro it hit
        obtain ⟨l, hl, hcase⟩ := mem_setLine hit
        rcases hcase with ⟨he, -⟩ | he
        · subst he
          have := h1 line hmem
          unfold qSplit at this ⊢
          dsimp only
          omega
        · exact he ▸ h1 l hl
      · rw [setLine_id_map]
        exact h2


theorem QWF.update_quote {q d q'} (h : QWF q)
    (hok : update_quote q d = .ok q') : QWF q' := by
  rw [update_quote_ok hok]
  cases d.status <;>
    exact ⟨h.lines_split, h.snaps_split, h.snap_version_pos, h.snap_version_le,
      h.snap_sorted, h.lines_sorted, h.lines_lt, h.inv_vbsi⟩

theorem QWF.create_invoice {q fs q'} (h : QWF q)
    (hok : create_invoice q fs = .ok q') : QWF q' := by
  rw [(create_invoice_ok hok).1]
  have hfold : (∀ it ∈ (fs.foldl invoiceApplyStep (q.line_items, [])).1, qSplit it) ∧
      (fs.foldl invoiceApplyStep (q.line_items, [])).1.map (fun l => l.id) =
        q.line_items.map (fun l => l.id) :=
    foldl_inv (P := fun acc => (∀ it ∈ acc.1, qSplit it) ∧
        acc.1.map (fun l => l.id) = q.line_items.map (fun l => l.id))
      invoiceApplyStep_facts fs (q.line_items, []) ⟨h.lines_split, rfl⟩
  refine QWF.create_snapshot ?_ _ _
  refine ⟨hfold.1, h.snaps_split, h.snap_version_pos, h.snap_version_le,
    h.snap_sorted, pairwise_id_of_map_eq hfold.2 h.lines_sorted,
    lt_of_map_eq hfold.2 h.lines_lt, ?_⟩
  intro inv hinv
  rw [List.mem_append, List.mem_singleton] at hinv
  rcases hinv with hinv | hinv
  · exact h.inv_vbsi inv hinv
  · rw [hinv]

theorem QWF.revert_to_snapshot {q v now q'} (h : QWF q)
    (hok : revert_to_snapshot q v now = .ok q') : QWF q' := by
  obtain ⟨target, hfind, hv, hq⟩ := revert_to_snapshot_ok hok
  have htmem := List.mem_of_find?_eq_some hfind
  rw [hq]
  refine QWF.create_snapshot ?_ _ _
  refine ⟨?_, h.snaps_split, h.snap_version_pos, h.snap_version_le, h.snap_sorted,
    restoreQLines_sorted _ _, ?_, ?_⟩
  · intro it hit
    obtain ⟨t, ht, i, he, -, -⟩ := restoreQLines_mem hit
    rw [he]
    exact h.snaps_split target htmem t (List.mem_of_mem_filter ht)
  · intro it hit
    obtain ⟨t, ht, i, he, -, hlt⟩ := restoreQLines_mem hit
    rw [he]
    exact hlt
  · intro inv hinv
    obtain ⟨inv0, hinv0, he⟩ := List.mem_map.mp hinv
    rw [← he]
    split
    · exact h.inv_vbsi inv0 hinv0
    · exact h.inv_vbsi inv0 hinv0

theorem QWF.toggle_markup {c q en gmp q'} (h : QWF q)
    (hok : toggle_markup_control c q en gmp = .ok q') : QWF q' := by
  unfold toggle_markup_control at hok
  split at hok
  · exact absurd hok (by simp)
  · split at hok
    · exact absurd hok (by simp)
    · split at hok
      · exact absurd hok (by simp)
      · split at hok
        · simp only [] at hok
          split at hok
          · rw [Except.ok.injEq] at hok
            rw [← hok]
            refine QWF.create_snapshot ?_ _ _
            obtain ⟨hx1, hx2, hx3⟩ := lines_facts_map
              (f := fun it =>
                if it.is_pms then it
                else
                  match it.base_cost with
                  | some bc => { it with unit_price := some (bc * (1 + gmp.getD 0 / 100)) }
                  | none => it)
              (N := q.next_line_id)
              (fun l => by
                try dsimp only
                split
                · exact ⟨rfl, rfl, rfl, rfl⟩
                · split <;> exact ⟨rfl, rfl, rfl, rfl⟩)
              h.lines_split h.lines_sorted h.lines_lt
            exact ⟨hx1, h.snaps_split, h.snap_version_pos, h.snap_version_le,
              h.snap_sorted, hx2, hx3, h.inv_vbsi⟩
          · rw [Except.ok.injEq] at hok
            rw [← hok]
            refine QWF.create_snapshot ?_ _ _
            obtain ⟨hx1, hx2, hx3⟩ := lines_facts_map
              (f := fun it =>
                if it.is_pms then it
                else
                  let omp := get_original_markup c it
                  let bc := calculate_base_cost c it
                  let it := { it with original_markup_percent := some omp, base_cost := some bc }
                  if truthyRat bc then
                    { it with unit_price := some (bc * (1 + gmp.getD 0 / 100)) }
                  else it)
              (N := q.next_line_id)
              (fun l => by
                try dsimp only
                split
                · exact ⟨rfl, rfl, rfl, rfl⟩
                · split <;> exact ⟨rfl, rfl, rfl, rfl⟩)
              h.lines_split h.lines_sorted h.lines_lt
            exact ⟨hx1, h.snaps_split, h.snap_version_pos, h.snap_version_le,
              h.snap_sorted, hx2, hx3, h.inv_vbsi⟩
        · rw [Except.ok.injEq] at hok
          rw [← hok]
          refine QWF.create_snapshot ?_ _ _
          obtain ⟨hx1, hx2, hx3⟩ := lines_facts_map
            (f := restoreQLinePrice)
            (N := q.next_line_id)
            (fun l => by
              unfold restoreQLinePrice
              split
              · exact ⟨rfl, rfl, rfl, rfl⟩
              · split <;> exact ⟨rfl, rfl, rfl, rfl⟩)
            h.lines_split h.lines_sorted h.lines_lt
          exact ⟨hx1, h.snaps_split, h.snap_version_pos, h.snap_version_le,
            h.snap_sorted, hx2, hx3, h.inv_vbsi⟩

theorem QWF.create_quote (d : QuoteCreateData) : QWF (create_quote d) :=
  ⟨fun _ hit => (nomatch hit), fun _ hsn => (nomatch hsn),
   fun _ hsn => (nomatch hsn), fun _ hsn => (nomatch hsn),
   List.Pairwise.nil, List.Pairwise.nil,
   fun _ hit => (nomatch hit), fun _ hinv => (nomatch hinv)⟩

theorem qstep_QWF {q q'} (h : QWF q) (hs : QStep q q') : QWF q' := by
  cases hs with
  | update d hok => exact QWF.update_quote h hok
  | addLine c ld hok => exact QWF.add_quote_line h hok
  | updateLine c lid dd hok => exact QWF.update_quote_line h hok
  | deleteLine lid hok => exact QWF.delete_quote_line h hok
  | commit c chs hok => exact QWF.commit_edits h hok
  | invoice fs hok => exact QWF.create_invoice h hok
  | markup c en gmp hok => exact QWF.toggle_markup h hok
  | revert v now hok => exact QWF.revert_to_snapshot h hok

theorem qreach_QWF {q} (h : QReachable q) : QWF q := by
  obtain ⟨d, hr⟩ := h
  induction hr with
  | refl => exact QWF.create_quote d
  | tail hstep hlast ih => exact qstep_QWF ih hlast


/-! ## Purchase-order well-formedness -/

/-- Aggregate-split shorthand for PO lines. -/
def poSplit (it : POLine) : Prop :=
  it.qty_pending = max 0 (it.quantity - it.qty_received)

theorem setPOLine_id_map (ls : List POLine) (b : POLine) :
    (setPOLine ls b).map (fun l => l.id) = ls.map (fun l => l.id) := by
  unfold setPOLine
  rw [List.map_map]
  apply List.map_congr_left
  intro l _
  dsimp only [Function.comp]
  split
  · rename_i he; exact he.symm
  · rfl

theorem mem_setPOLine {ls : List POLine} {b it : POLine}
    (h : it ∈ setPOLine ls b) :
    ∃ l ∈ ls, it = b ∧ l.id = b.id ∨ it = l := by
  unfold setPOLine at h
  obtain ⟨l, hl, he⟩ := List.mem_map.mp h
  refine ⟨l, hl, ?_⟩
  by_cases hc : l.id = b.id
  · rw [if_pos hc] at he; exact Or.inl ⟨he.symm, hc⟩
  · rw [if_neg hc] at he; exact Or.inr he.symm

theorem po_pairwise_id_of_map_eq {ls ls' : List POLine}
    (h : ls'.map (fun l => l.id) = ls.map (fun l => l.id))
    (hp : ls.Pairwise (fun a b => a.id < b.id)) :
    ls'.Pairwise (fun a b => a.id < b.id) := by
  have h1 : (ls.map (fun l => l.id)).Pairwise (· < ·) := List.pairwise_map.mpr hp
  rw [← h] at h1
  exact List.pairwise_map.mp h1

theorem po_lt_of_map_eq {ls ls' : List POLine} {N : Nat}
    (h : ls'.map (fun l => l.id) = ls.map (fun l => l.id))
    (hl : ∀ it ∈ ls, it.id < N) :
    ∀ it ∈ ls', it.id < N := by
  intro it hit
  have : it.id ∈ ls'.map (fun l => l.id) := List.mem_map_of_mem _ hit
  rw [h] at this
  obtain ⟨l, hl', he⟩ := List.mem_map.mp this
  exact he ▸ hl l hl'

theorem po_pairwise_append_lt {ls : List POLine} {b : POLine}
    (hs : ls.Pairwise (fun a b => a.id < b.id))
    (hl : ∀ it ∈ ls, it.id < b.id) :
    (ls ++ [b]).Pairwise (fun a b => a.id < b.id) := by
  rw [List.pairwise_append]
  exact ⟨hs, List.pairwise_singleton _ _, fun a ha x hx => by
    rw [List.mem_singleton] at hx
    exact hx ▸ hl a ha⟩

/-- The weighted-average computation only reads the receivings. -/
theorem wap_receivings_eq (x y : POState) (h : x.receivings = y.receivings)
    (i : Nat) :
    calculate_weighted_average_price x i = calculate_weighted_average_price y i := by
  unfold calculate_weighted_average_price nonVoidedRecvLines
  rw [h]

/-- Mapping the receivings with a function that preserves the voided flag
and the lines referencing `i` preserves the joined event history for `i`. -/
theorem nvAux_map {rs : List Recv} {g : Recv → Recv} {i : Nat}
    (hg : ∀ r, (g r).voided_at = r.voided_at ∧
      (g r).line_items.filter (fun li => li.po_line_item_id = i) =
        r.line_items.filter (fun li => li.po_line_item_id = i)) :
    (((rs.map g).filter (fun r => r.voided_at = none)).map
        (fun r => r.line_items.filter (fun li => li.po_line_item_id = i))).flatten =
      ((rs.filter (fun r => r.voided_at = none)).map
        (fun r => r.line_items.filter (fun li => li.po_line_item_id = i))).flatten := by
  induction rs with
  | nil => rfl
  | cons r rs ih =>
      rw [List.map_cons]
      by_cases hn : r.voided_at = none
      · rw [List.filter_cons_of_pos (by simp [(hg r).1, hn]),
          List.filter_cons_of_pos (by simp [hn]),
          List.map_cons, List.map_cons, List.flatten_cons, List.flatten_cons,
          (hg r).2, ih]
      · rw [List.filter_cons_of_neg (by simp [(hg r).1, hn]),
          List.filter_cons_of_neg (by simp [hn]), ih]

theorem wap_map_ext {s s' : POState} {g : Recv → Recv} {i : Nat}
    (hr : s'.receivings = s.receivings.map g)
    (hg : ∀ r, (g r).voided_at = r.voided_at ∧
      (g r).line_items.filter (fun li => li.po_line_item_id = i) =
        r.line_items.filter (fun li => li.po_line_item_id = i)) :
    calculate_weighted_average_price s' i = calculate_weighted_average_price s i := by
  unfold calculate_weighted_average_price nonVoidedRecvLines
  rw [hr, nvAux_map hg]

/-- A line id referenced by no receiving line has an empty joined event
history. -/
theorem nvAux_nil_of_refs_ne {rs : List Recv} {i : Nat}
    (h : ∀ r ∈ rs, ∀ li ∈ r.line_items, li.po_line_item_id ≠ i) :
    ((rs.filter (fun r => r.voided_at = none)).map
      (fun r => r.line_items.filter (fun li => li.po_line_item_id = i))).flatten = [] := by
  induction rs with
  | nil => rfl
  | cons r rs ih =>
      have hr : r.line_items.filter (fun li => li.po_line_item_id = i) = [] := by
        rw [List.filter_eq_nil_iff]
        intro li hli
        simp only [decide_eq_true_eq]
        exact h r (List.mem_cons_self r rs) li hli
      have htl := ih (fun r' hr' li hli => h r' (List.mem_cons_of_mem r hr') li hli)
      rw [List.filter_cons]
      split
      · rw [List.map_cons, List.flatten_cons, hr, List.nil_append]
        exact htl
      · exact htl

theorem wap_none_of_refs_ne {s : POState} {i : Nat}
    (h : ∀ r ∈ s.receivings, ∀ li ∈ r.line_items, li.po_line_item_id ≠ i) :
    calculate_weighted_average_price s i = none := by
  unfold calculate_weighted_average_price nonVoidedRecvLines
  rw [nvAux_nil_of_refs_ne h]
  rfl

/-- Invariants maintained by every committed purchase-order operation. -/
structure POWF (s : POState) : Prop where
  lines_split : ∀ it ∈ s.line_items,
    it.qty_pending = max 0 (it.quantity - it.qty_received)
  lines_sorted : s.line_items.Pairwise (fun a b => a.id < b.id)
  lines_lt : ∀ it ∈ s.line_items, it.id < s.next_line_id
  recv_refs_lt : ∀ r ∈ s.receivings, ∀ li ∈ r.line_items,
    li.po_line_item_id < s.next_line_id
  snap_vle : ∀ sn ∈ s.snapshots, sn.version ≤ s.current_version
  snap_strict : s.snapshots.Pairwise (fun a b =>
    (b.action_type ≠ "create" ∧ b.action_type ≠ "status_change") →
      a.version < b.version)
  snap_nodup : ∀ sn ∈ s.snapshots,
    (sn.items.map (fun t => t.original_line_item_id)).Nodup

theorem POWF.create_po_snapshot {s : POState} (h : POWF s) (aty : String)
    (recv : Option Nat) (deleted : Option POLine) :
    POWF (create_po_snapshot s aty recv deleted).1 := by
  unfold UcVelocity.create_po_snapshot
  constructor
  · exact h.lines_split
  · exact h.lines_sorted
  · exact h.lines_lt
  · exact h.recv_refs_lt
  · intro sn hsn
    rw [List.mem_append] at hsn
    rcases hsn with hsn | hsn
    · refine Nat.le_trans (h.snap_vle sn hsn) ?_
      split
      · exact Nat.le_refl _
      · exact Nat.le_succ _
    · rw [List.mem_singleton] at hsn
      subst hsn
      exact Nat.le_refl _
  · rw [List.pairwise_append]
    refine ⟨h.snap_strict, List.pairwise_singleton _ _, fun a ha x hx => ?_⟩
    rw [List.mem_singleton] at hx
    subst hx
    intro hne
    have hle := h.snap_vle a ha
    split
    · rename_i hm
      rcases hm with hm | hm
      · exact absurd hm hne.1
      · exact absurd hm hne.2
    · dsimp only
      omega
  · intro sn hsn
    rw [List.mem_append] at hsn
    rcases hsn with hsn | hsn
    · exact h.snap_nodup sn hsn
    · rw [List.mem_singleton] at hsn
      subst hsn
      match deleted with
      | none =>
          dsimp only
          try simp only [List.map_nil, List.append_nil]
          refine List.pairwise_map.mpr (List.pairwise_map.mpr ?_)
          exact (h.lines_sorted.filter _).imp (fun hab => Nat.ne_of_lt hab)
      | some d =>
          dsimp only
          rw [List.map_append]
          try simp only [List.map_cons, List.map_nil]
          rw [List.nodup_append]
          refine ⟨?_, List.nodup_singleton _, ?_⟩
          · refine List.pairwise_map.mpr (List.pairwise_map.mpr ?_)
            exact (h.lines_sorted.filter _).imp (fun hab => Nat.ne_of_lt hab)
          · intro a ha hx
            obtain ⟨t, ht, he⟩ := List.mem_map.mp ha
            obtain ⟨l, hl, hf⟩ := List.mem_map.mp ht
            have hne := List.of_mem_filter hl
            simp only [decide_eq_true_eq] at hne
            rw [List.mem_singleton] at hx
            have hx2 : (poLineToSnap l false).original_line_item_id = a := by
              rw [hf]; exact he
            exact hne (hx2.trans hx)

theorem POWF.with_status {s : POState} (h : POWF s) (st : POStatus) :
    POWF { s with status := st } := by
  constructor
  · exact h.lines_split
  · exact h.lines_sorted
  · exact h.lines_lt
  · exact h.recv_refs_lt
  · exact h.snap_vle
  · exact h.snap_strict
  · exact h.snap_nodup

theorem POWF.set_po_lines {s : POState} (h : POWF s) {ls : List POLine} {N : Nat}
    (h1 : ∀ it ∈ ls, poSplit it)
    (h3 : ls.Pairwise (fun a b => a.id < b.id))
    (h4 : ∀ it ∈ ls, it.id < N)
    (h5 : s.next_line_id ≤ N) :
    POWF { s with line_items := ls, next_line_id := N } := by
  constructor
  · exact h1
  · exact h3
  · exact h4
  · intro r hr li hli
    exact Nat.lt_of_lt_of_le (h.recv_refs_lt r hr li hli) h5
  · exact h.snap_vle
  · exact h.snap_strict
  · exact h.snap_nodup

theorem POWF.create_purchase_order (st : POStatus) :
    POWF (create_purchase_order st) := by
  unfold UcVelocity.create_purchase_order
  refine POWF.create_po_snapshot ?_ _ _ _
  exact ⟨fun _ hx => (nomatch hx), List.Pairwise.nil,
    fun _ hx => (nomatch hx), fun _ hx => (nomatch hx), fun _ hx => (nomatch hx),
    List.Pairwise.nil, fun _ hx => (nomatch hx)⟩

theorem POWF.update_purchase_order {s : POState} (h : POWF s)
    (st : Option POStatus) : POWF (update_purchase_order s st) := by
  unfold UcVelocity.update_purchase_order
  match st with
  | none => exact h
  | some ns =>
      dsimp only
      split
      · exact POWF.create_po_snapshot (h.with_status ns) _ _ _
      · exact h

/-- Replacing one line with a version that keeps its id and realized price
and satisfies the aggregate split preserves well-formedness. -/
theorem POWF.set_one {s : POState} (h : POWF s) {b : POLine}
    (hsplit : poSplit b) :
    POWF { s with line_items := setPOLine s.line_items b } := by
  constructor
  · intro it hit
    obtain ⟨l, hl, hc⟩ := mem_setPOLine hit
    rcases hc with ⟨he, -⟩ | he
    · exact he ▸ hsplit
    · exact he ▸ h.lines_split l hl
  · exact po_pairwise_id_of_map_eq (setPOLine_id_map _ _) h.lines_sorted
  · exact po_lt_of_map_eq (setPOLine_id_map _ _) h.lines_lt
  · exact h.recv_refs_lt
  · exact h.snap_vle
  · exact h.snap_strict
  · exact h.snap_nodup

/-- Appending a fresh line with the next id, no realized price and a valid
split preserves well-formedness. -/
theorem POWF.append_line {s : POState} (h : POWF s) {b : POLine}
    (hid : b.id = s.next_line_id)
    (hsplit : poSplit b) :
    POWF { s with
        line_items := s.line_items ++ [b]
        next_line_id := s.next_line_id + 1 } := by
  refine POWF.set_po_lines h ?_ ?_ ?_ (Nat.le_succ _)
  · intro it hit
    rw [List.mem_append, List.mem_singleton] at hit
    rcases hit with hit | hit
    · exact h.lines_split it hit
    · exact hit ▸ hsplit
  · refine po_pairwise_append_lt h.lines_sorted ?_
    intro it hit
    rw [hid]
    exact h.lines_lt it hit
  · intro it hit
    rw [List.mem_append, List.mem_singleton] at hit
    rcases hit with hit | hit
    · exact Nat.lt_succ_of_lt (h.lines_lt it hit)
    · rw [hit, hid]
      exact Nat.lt_succ_self _

theorem POWF.filter_lines {s : POState} (h : POWF s) (p : POLine → Bool) :
    POWF { s with line_items := s.line_items.filter p } := by
  constructor
  · intro it hit
    exact h.lines_split it (List.mem_of_mem_filter hit)
  · exact h.lines_sorted.filter p
  · intro it hit
    exact h.lines_lt it (List.mem_of_mem_filter hit)
  · exact h.recv_refs_lt
  · exact h.snap_vle
  · exact h.snap_strict
  · exact h.snap_nodup

theorem POWF.add_po_line {c s ld s'} (h : POWF s)
    (hok : add_po_line c s ld = .ok s') : POWF s' := by
  obtain ⟨hq, hqty⟩ := add_po_line_ok hok
  rw [hq]
  refine POWF.create_po_snapshot ?_ _ _ _
  refine POWF.append_line h rfl ?_
  unfold poSplit
  dsimp only
  omega

theorem POWF.update_po_line {c s lid ld s'} (h : POWF s)
    (hok : update_po_line c s lid ld = .ok s') : POWF s' := by
  obtain ⟨line0, hfind, hq⟩ := update_po_line_ok hok
  rw [hq]
  refine POWF.create_po_snapshot ?_ _ _ _
  exact POWF.set_one h rfl

theorem POWF.delete_po_line {s lid s'} (h : POWF s)
    (hok : delete_po_line s lid = .ok s') : POWF s' := by
  obtain ⟨line0, hfind, hq⟩ := delete_po_line_ok hok
  rw [hq]
  exact POWF.filter_lines (POWF.create_po_snapshot h _ _ _) _

theorem POWF.commitPOEdit {c st e st'} (h : POWF st)
    (hok : commitPOEdit c st e = .ok st') : POWF st' := by
  unfold UcVelocity.commitPOEdit at hok
  split at hok
  · exact absurd hok (by simp)
  · rename_i line0 hfind
    split at hok
    · exact absurd hok (by simp)
    · split at hok
      · exact absurd hok (by simp)
      · split at hok
        · exact absurd hok (by simp)
        · rw [Except.ok.injEq] at hok
          rw [← hok]
          exact POWF.set_one h rfl

theorem POWF.commitPOAdd {c st a st'} (h : POWF st)
    (hok : commitPOAdd c st a = .ok st') : POWF st' := by
  unfold UcVelocity.commitPOAdd at hok
  split at hok
  · exact absurd hok (by simp)
  · split at hok
    · exact absurd hok (by simp)
    · rename_i qn
      split at hok
      · exact absurd hok (by simp)
      · rename_i hqn
        rw [Except.ok.injEq] at hok
        rw [← hok]
        refine POWF.append_line h rfl ?_
        unfold poSplit
        dsimp only
        omega

theorem POWF.commit_po_edits {c s chs s'} (h : POWF s)
    (hok : commit_po_edits c s chs = .ok s') : POWF s' := by
  rcases commit_po_edits_ok hok with hq | ⟨s1, s2, hf1, hf2, hq⟩
  · exact hq ▸ h
  · have h1 : POWF s1 :=
      foldlM_inv (fun st e st' hp hokk => POWF.commitPOEdit hp hokk)
        (POWF.filter_lines h _) hf1
    have h2 : POWF s2 :=
      foldlM_inv (fun st a st' hp hokk => POWF.commitPOAdd hp hokk) h1 hf2
    rw [hq]
    exact POWF.create_po_snapshot h2 _ _ _

theorem mem_setPOLine2 {ls : List POLine} {b it : POLine}
    (h : it ∈ setPOLine ls b) :
    ∃ l ∈ ls, (it = b ∧ l.id = b.id) ∨ (it = l ∧ l.id ≠ b.id) := by
  unfold setPOLine at h
  obtain ⟨l, hl, he⟩ := List.mem_map.mp h
  refine ⟨l, hl, ?_⟩
  by_cases hc : l.id = b.id
  · rw [if_pos hc] at he; exact Or.inl ⟨he.symm, hc⟩
  · rw [if_neg hc] at he; exact Or.inr ⟨he.symm, hc⟩

/-- Appending an event line referencing a different line item does not
change the weighted-average input for `i`. -/
theorem wap_appendRecvLine {s x : POState} {rid : Nat} {rl : RecvLine} {i : Nat}
    (hr : x.receivings = appendRecvLine s.receivings rid rl)
    (hne : rl.po_line_item_id ≠ i) :
    calculate_weighted_average_price x i = calculate_weighted_average_price s i := by
  refine wap_map_ext
    (g := fun r =>
      if r.id = rid then { r with line_items := r.line_items ++ [rl] } else r)
    hr ?_
  intro r
  dsimp only
  by_cases hc : r.id = rid
  · rw [if_pos hc]
    refine ⟨rfl, ?_⟩
    dsimp only
    rw [List.filter_append]
    have hz : [rl].filter (fun li => li.po_line_item_id = i) = [] := by
      simp [hne]
    rw [hz, List.append_nil]
  · rw [if_neg hc]
    exact ⟨rfl, rfl⟩

theorem nvAux_append_empty {rs : List Recv} {r0 : Recv} {i : Nat}
    (h0 : r0.line_items = []) :
    (((rs ++ [r0]).filter (fun r => r.voided_at = none)).map
        (fun r => r.line_items.filter (fun li => li.po_line_item_id = i))).flatten =
      ((rs.filter (fun r => r.voided_at = none)).map
        (fun r => r.line_items.filter (fun li => li.po_line_item_id = i))).flatten := by
  rw [List.filter_append, List.map_append, List.flatten_append]
  have hz : ((([r0] : List Recv).filter (fun r => r.voided_at = none)).map
      (fun r => r.line_items.filter (fun li => li.po_line_item_id = i))).flatten = [] := by
    rw [List.filter_cons]
    split
    · rw [List.filter_nil, List.map_cons, List.map_nil, List.flatten_cons,
        List.flatten_nil, List.append_nil, h0, List.filter_nil]
    · rw [List.filter_nil, List.map_nil, List.flatten_nil]
  rw [hz, List.append_nil]

theorem wap_append_empty {s x : POState} {r0 : Recv} {i : Nat}
    (hr : x.receivings = s.receivings ++ [r0]) (h0 : r0.line_items = []) :
    calculate_weighted_average_price x i = calculate_weighted_average_price s i := by
  unfold calculate_weighted_average_price nonVoidedRecvLines
  rw [hr, nvAux_append_empty h0]

/-- Opening a receiving transaction: the fresh empty receiving row leaves
every invariant intact. -/
theorem POWF.append_empty_recv {s : POState} (h : POWF s) (rid : Nat) :
    POWF { s with
        receivings := s.receivings ++
          [{ id := rid, voided_at := none, voided_by_snapshot_id := none,
             line_items := [] }]
        next_recv_id := rid + 1 } := by
  constructor
  · exact h.lines_split
  · exact h.lines_sorted
  · exact h.lines_lt
  · intro r hr li hli
    rw [List.mem_append, List.mem_singleton] at hr
    rcases hr with hr | hr
    · exact h.recv_refs_lt r hr li hli
    · subst hr
      exact absurd hli (by exact fun hx => (nomatch hx))
  · exact h.snap_vle
  · exact h.snap_strict
  · exact h.snap_nodup

theorem POWF.recvApplyEntry {rid fl st e st'} (h : POWF st)
    (hok : recvApplyEntry rid fl st e = .ok st') : POWF st' := by
  unfold UcVelocity.recvApplyEntry at hok
  split at hok
  · exact absurd hok (by simp)
  · rename_i line hfind
    have hmem := List.mem_of_find?_eq_some hfind
    have hsplit0 := h.lines_split line hmem
    split at hok
    · exact absurd hok (by simp)
    · rename_i hq1
      split at hok
      · exact absurd hok (by simp)
      · rename_i hq2
        simp only [] at hok
        rw [Except.ok.injEq] at hok
        rw [← hok]
        constructor
        · intro it hit
          obtain ⟨l2, hl2, hc2⟩ := mem_setPOLine2 hit
          rcases hc2 with ⟨he2, -⟩ | ⟨he2, hne2⟩
          · rw [he2]
            dsimp only
            omega
          · obtain ⟨l1, hl1, hc1⟩ := mem_setPOLine2 hl2
            rcases hc1 with ⟨he1, -⟩ | ⟨he1, -⟩
            · rw [he1] at hne2
              exact absurd rfl hne2
            · rw [he2, he1]
              exact h.lines_split l1 hl1
        · exact po_pairwise_id_of_map_eq
            ((setPOLine_id_map _ _).trans (setPOLine_id_map _ _)) h.lines_sorted
        · exact po_lt_of_map_eq
            ((setPOLine_id_map _ _).trans (setPOLine_id_map _ _)) h.lines_lt
        · intro r hr li hli
          obtain ⟨r0, hr0, hg⟩ := List.mem_map.mp hr
          by_cases hc : r0.id = rid
          · rw [if_pos hc] at hg
            rw [← hg] at hli
            dsimp only at hli
            rw [List.mem_append, List.mem_singleton] at hli
            rcases hli with hli | hli
            · exact h.recv_refs_lt r0 hr0 li hli
            · rw [hli]
              exact h.lines_lt line hmem
          · rw [if_neg hc] at hg
            rw [← hg] at hli
            exact h.recv_refs_lt r0 hr0 li hli
        · exact h.snap_vle
        · exact h.snap_strict
        · exact h.snap_nodup

theorem POWF.recvAutoStatus {s1 : POState} (h : POWF s1) :
    POWF (recvAutoStatus s1) := by
  unfold UcVelocity.recvAutoStatus
  split
  · exact POWF.create_po_snapshot (h.with_status _) _ _ _
  · exact h

theorem POWF.recvFinish {s : POState} (h : POWF s) (rid : Nat) :
    POWF (recvFinish s rid) :=
  POWF.recvAutoStatus (POWF.create_po_snapshot h _ _ _)

theorem POWF.create_po_receiving {s es s'} (h : POWF s)
    (hok : create_po_receiving s es = .ok s') : POWF s' := by
  obtain ⟨s2, hfold, hq⟩ := create_po_receiving_ok hok
  have h2 : POWF s2 :=
    foldlM_inv (fun st e st' hp hokk => POWF.recvApplyEntry hp hokk)
      (POWF.append_empty_recv h s.next_recv_id) hfold
  rw [hq]
  exact POWF.recvFinish h2 _

theorem wap_map_pair {s x : POState} {g : Recv → Recv}
    (hr : x.receivings = s.receivings.map g)
    (hg : ∀ r, (g r).voided_at = r.voided_at ∧ (g r).line_items = r.line_items)
    (i : Nat) :
    calculate_weighted_average_price x i = calculate_weighted_average_price s i :=
  wap_map_ext hr (fun r => ⟨(hg r).1, by rw [(hg r).2]⟩)

theorem po_map_id_of_pres {ls : List POLine} {f : POLine → POLine}
    (hf : ∀ l, (f l).id = l.id) :
    (ls.map f).map (fun l => l.id) = ls.map (fun l => l.id) := by
  rw [List.map_map]
  exact List.map_congr_left (fun l _ => hf l)

theorem option_map_some {o : Option POLineSnap} {g : POLineSnap → POLine}
    {x : POLine} (h : o.map g = some x) : ∃ t, o = some t ∧ g t = x := by
  cases o with
  | none => cases h
  | some t =>
      refine ⟨t, rfl, ?_⟩
      have h2 : some (g t) = some x := h
      exact Option.some.inj h2

theorem po_filterMap_facts {ls : List POLine} {f : POLine → Option POLine}
    (hf : ∀ l x, f l = some x → x.id = l.id) :
    ls.Pairwise (fun a b => a.id < b.id) →
    (ls.filterMap f).Pairwise (fun a b => a.id < b.id) ∧
    (∀ x ∈ ls.filterMap f, ∃ l ∈ ls, x.id = l.id) := by
  induction ls with
  | nil =>
      intro hs
      exact ⟨List.Pairwise.nil, fun x hx => absurd hx (List.not_mem_nil x)⟩
  | cons l ls ih =>
      intro hs
      obtain ⟨hhead, htail⟩ := List.pairwise_cons.mp hs
      obtain ⟨h1, h2⟩ := ih htail
      rw [List.filterMap_cons]
      cases hfl : f l with
      | none =>
          refine ⟨h1, fun x hx => ?_⟩
          obtain ⟨l2, hl2, he⟩ := h2 x hx
          exact ⟨l2, List.mem_cons_of_mem l hl2, he⟩
      | some y =>
          refine ⟨List.pairwise_cons.mpr ⟨?_, h1⟩, ?_⟩
          · intro b hb
            obtain ⟨l2, hl2, he⟩ := h2 b hb
            rw [hf l y hfl, he]
            exact hhead l2 hl2
          · intro x hx
            rw [List.mem_cons] at hx
            rcases hx with hx | hx
            · exact ⟨l, List.mem_cons_self l ls, by rw [hx]; exact hf l y hfl⟩
            · obtain ⟨l2, hl2, he⟩ := h2 x hx
              exact ⟨l2, List.mem_cons_of_mem l hl2, he⟩

theorem restorePOLines_ids (ts : List POLineSnap) (ex : List Nat) (n : Nat) :
    ∀ it ∈ restorePOLines ts ex n,
      n ≤ it.id ∧ it.id < n + (restorePOLines ts ex n).length := by
  induction ts generalizing n with
  | nil => intro it hit; exact absurd hit (List.not_mem_nil it)
  | cons t ts ih =>
      intro it hit
      simp only [restorePOLines] at hit ⊢
      by_cases hc : ex.contains t.original_line_item_id
      · rw [if_pos hc] at hit ⊢
        exact ih n it hit
      · rw [if_neg hc] at hit ⊢
        rw [List.mem_cons] at hit
        rcases hit with hit | hit
        · rw [hit]
          refine ⟨Nat.le_refl _, ?_⟩
          simp only [List.length_cons]
          have hid : (poSnapToLine t n).id = n := rfl
          omega
        · obtain ⟨h1, h2⟩ := ih (n + 1) it hit
          refine ⟨Nat.le_of_succ_le h1, ?_⟩
          simp only [List.length_cons]
          omega

theorem restorePOLines_sorted (ts : List POLineSnap) (ex : List Nat) (n : Nat) :
    (restorePOLines ts ex n).Pairwise (fun a b => a.id < b.id) := by
  induction ts generalizing n with
  | nil => exact List.Pairwise.nil
  | cons t ts ih =>
      simp only [restorePOLines]
      by_cases hc : ex.contains t.original_line_item_id
      · rw [if_pos hc]
        exact ih n
      · rw [if_neg hc]
        refine List.pairwise_cons.mpr ⟨fun b hb => ?_, ih (n + 1)⟩
        have h1 := (restorePOLines_ids ts ex (n + 1) b hb).1
        have hid : (poSnapToLine t n).id = n := rfl
        omega

/-- Every restored row comes from a snapshot item with no surviving live
row. -/
theorem restorePOLines_src (ts : List POLineSnap) (ex : List Nat) (n : Nat) :
    ∀ it ∈ restorePOLines ts ex n, ∃ t ∈ ts,
      ex.contains t.original_line_item_id = false ∧ it = poSnapToLine t it.id := by
  induction ts generalizing n with
  | nil => intro it hit; exact absurd hit (List.not_mem_nil it)
  | cons t ts ih =>
      intro it hit
      simp only [restorePOLines] at hit
      by_cases hc : ex.contains t.original_line_item_id
      · rw [if_pos hc] at hit
        obtain ⟨u, hu, h2, h3⟩ := ih n it hit
        exact ⟨u, List.mem_cons_of_mem t hu, h2, h3⟩
      · rw [if_neg hc] at hit
        rw [List.mem_cons] at hit
        rcases hit with hit | hit
        · refine ⟨t, List.mem_cons_self t ts, Bool.not_eq_true _ ▸ hc, ?_⟩
          rw [hit]
          rfl
        · obtain ⟨u, hu, h2, h3⟩ := ih (n + 1) it hit
          exact ⟨u, List.mem_cons_of_mem t hu, h2, h3⟩

theorem buildPOMapping_targets (ts : List POLineSnap) (ex : List Nat) (n : Nat) :
    ∀ p ∈ buildPOMapping ts ex n, ex.contains p.2 = true ∨
      (n ≤ p.2 ∧ p.2 < n + (restorePOLines ts ex n).length) := by
  induction ts generalizing n with
  | nil => intro p hp; exact absurd hp (List.not_mem_nil p)
  | cons t ts ih =>
      intro p hp
      simp only [buildPOMapping] at hp
      simp only [restorePOLines]
      by_cases hc : ex.contains t.original_line_item_id
      · rw [if_pos hc] at hp ⊢
        rw [List.mem_cons] at hp
        rcases hp with hp | hp
        · rw [hp]
          exact Or.inl hc
        · exact ih n p hp
      · rw [if_neg hc] at hp ⊢
        rw [List.mem_cons] at hp
        rcases hp with hp | hp
        · rw [hp]
          refine Or.inr ⟨Nat.le_refl _, ?_⟩
          simp only [List.length_cons]
          omega
        · rcases ih (n + 1) p hp with hx | hx
          · exact Or.inl hx
          · refine Or.inr ⟨Nat.le_of_succ_le hx.1, ?_⟩
            simp only [List.length_cons]
            omega

theorem repointRecvLines_refs {rs : List Recv} {o n N : Nat}
    (h : ∀ r ∈ rs, ∀ li ∈ r.line_items, li.po_line_item_id < N) (hn : n < N) :
    ∀ r ∈ repointRecvLines rs o n, ∀ li ∈ r.line_items,
      li.po_line_item_id < N := by
  intro r hr li hli
  obtain ⟨r0, hr0, hg⟩ := List.mem_map.mp hr
  rw [← hg] at hli
  dsimp only at hli
  obtain ⟨li0, hli0, hgl⟩ := List.mem_map.mp hli
  rw [← hgl]
  by_cases hc : li0.po_line_item_id = o
  · rw [if_pos hc]
    exact hn
  · rw [if_neg hc]
    exact h r0 hr0 li0 hli0

theorem repoint_fold_refs {m : List (Nat × Nat)} {rs : List Recv} {N : Nat}
    (hm : ∀ p ∈ m, p.2 < N)
    (h : ∀ r ∈ rs, ∀ li ∈ r.line_items, li.po_line_item_id < N) :
    ∀ r ∈ m.foldl (fun acc p => repointRecvLines acc p.1 p.2) rs,
      ∀ li ∈ r.line_items, li.po_line_item_id < N := by
  induction m generalizing rs with
  | nil => exact h
  | cons p m ih =>
      rw [List.foldl_cons]
      exact ih (fun q hq => hm q (List.mem_cons_of_mem p hq))
        (repointRecvLines_refs h (hm p (List.mem_cons_self p m)))

/-- Setting `voided_by_snapshot_id` on some receivings touches no
invariant. -/
theorem POWF.void_link {x : POState} (hx : POWF x) {ids : List Nat} {k : Nat}
    {y : POState}
    (hy : y = { x with receivings := x.receivings.map (fun r =>
        if ids.contains r.id then { r with voided_by_snapshot_id := some k }
        else r) }) :
    POWF y := by
  subst hy
  constructor
  · exact hx.lines_split
  · exact hx.lines_sorted
  · exact hx.lines_lt
  · intro r hr li hli
    obtain ⟨r0, hr0, hg⟩ := List.mem_map.mp hr
    rw [← hg] at hli
    try dsimp only at hli
    by_cases hc : ids.contains r0.id
    · rw [if_pos hc] at hli
      exact hx.recv_refs_lt r0 hr0 li hli
    · rw [if_neg hc] at hli
      exact hx.recv_refs_lt r0 hr0 li hli
  · exact hx.snap_vle
  · exact hx.snap_strict
  · exact hx.snap_nodup

theorem mem_ite_line_items {C : Prop} [Decidable C] {r0 a b : Recv}
    {li : RecvLine}
    (h : li ∈ (if C then a else b).line_items)
    (ha : a.line_items = r0.line_items) (hb : b.line_items = r0.line_items) :
    li ∈ r0.line_items := by
  split at h
  · exact ha ▸ h
  · exact hb ▸ h

theorem POWF.revertPOCore {s : POState} (h : POWF s) (target : POSnap)
    (v now : Nat) : POWF (revertPOCore s target v now) := by
  have hex : List.insertionSort (fun a b : POLine => a.id ≤ b.id) s.line_items
      = s.line_items :=
    List.Sorted.insertionSort_eq (h.lines_sorted.imp (fun hab => Nat.le_of_lt hab))
  have hfm : ∀ (l x : POLine),
      ((List.insertionSort
        (fun a b : POLineSnap => a.original_line_item_id ≤ b.original_line_item_id)
        (target.items.filter (fun t => !t.is_deleted))).find?
          (fun t => t.original_line_item_id = l.id)).map
        (fun t => poSnapToLine t l.id) = some x → x.id = l.id := by
    intro l x hx
    obtain ⟨t, ht, he⟩ := option_map_some hx
    rw [← he]
    rfl
  obtain ⟨hms, hmex⟩ := po_filterMap_facts hfm h.lines_sorted
  have happ : ((s.line_items.filterMap (fun l =>
      ((List.insertionSort
        (fun a b : POLineSnap => a.original_line_item_id ≤ b.original_line_item_id)
        (target.items.filter (fun t => !t.is_deleted))).find?
          (fun t => t.original_line_item_id = l.id)).map
        (fun t => poSnapToLine t l.id))) ++ (restorePOLines (List.insertionSort
        (fun a b : POLineSnap => a.original_line_item_id ≤ b.original_line_item_id)
        (target.items.filter (fun t => !t.is_deleted))) (s.line_items.map (fun l => l.id)) s.next_line_id)).Pairwise (fun a b => a.id < b.id) := by
    rw [List.pairwise_append]
    refine ⟨hms, restorePOLines_sorted _ _ _, ?_⟩
    intro a ha b hb
    obtain ⟨l, hl, hid⟩ := hmex a ha
    have h1 := (restorePOLines_ids _ _ _ b hb).1
    have h2 := h.lines_lt l hl
    omega
  have happlt : ∀ it ∈ (s.line_items.filterMap (fun l =>
      ((List.insertionSort
        (fun a b : POLineSnap => a.original_line_item_id ≤ b.original_line_item_id)
        (target.items.filter (fun t => !t.is_deleted))).find?
          (fun t => t.original_line_item_id = l.id)).map
        (fun t => poSnapToLine t l.id))) ++ (restorePOLines (List.insertionSort
        (fun a b : POLineSnap => a.original_line_item_id ≤ b.original_line_item_id)
        (target.items.filter (fun t => !t.is_deleted))) (s.line_items.map (fun l => l.id)) s.next_line_id),
      it.id < s.next_line_id + (restorePOLines (List.insertionSort
        (fun a b : POLineSnap => a.original_line_item_id ≤ b.original_line_item_id)
        (target.items.filter (fun t => !t.is_deleted))) (s.line_items.map (fun l => l.id)) s.next_line_id).length := by
    intro it hit
    rw [List.mem_append] at hit
    rcases hit with hit | hit
    · obtain ⟨l, hl, hid⟩ := hmex it hit
      have h2 := h.lines_lt l hl
      omega
    · exact (restorePOLines_ids _ _ _ it hit).2
  have hrefs : ∀ r ∈ ((buildPOMapping (List.insertionSort
        (fun a b : POLineSnap => a.original_line_item_id ≤ b.original_line_item_id)
        (target.items.filter (fun t => !t.is_deleted))) (s.line_items.map (fun l => l.id)) s.next_line_id).foldl
      (fun acc p => repointRecvLines acc p.1 p.2)
      (s.receivings.map (fun r => if ((s.receivings.filter (fun r => r.voided_at = none ∧
          s.snapshots.any (fun sn => sn.receiving_id = some r.id ∧ sn.version > v))).map
        (fun r => r.id)).contains r.id then
      { r with voided_at := some now, voided_by_snapshot_id := none } else r))), ∀ li ∈ r.line_items,
      li.po_line_item_id < s.next_line_id + (restorePOLines (List.insertionSort
        (fun a b : POLineSnap => a.original_line_item_id ≤ b.original_line_item_id)
        (target.items.filter (fun t => !t.is_deleted))) (s.line_items.map (fun l => l.id)) s.next_line_id).length := by
    refine repoint_fold_refs ?_ ?_
    · intro p hp
      rcases buildPOMapping_targets _ _ _ p hp with hc | hc
      · obtain ⟨l, hl, he⟩ := List.mem_map.mp (List.mem_of_elem_eq_true hc)
        have h2 := h.lines_lt l hl
        omega
      · exact hc.2
    · intro r hr li hli
      obtain ⟨r0, hr0, hg⟩ := List.mem_map.mp hr
      rw [← hg] at hli
      try dsimp only at hli
      have hli0 := mem_ite_line_items hli rfl rfl
      exact Nat.lt_of_lt_of_le (h.recv_refs_lt r0 hr0 li hli0)
        (Nat.le_add_right _ _)
  unfold UcVelocity.revertPOCore
  try dsimp only
  rw [hex]
  refine POWF.void_link (POWF.create_po_snapshot ?_ _ _ _) rfl
  constructor
  · intro it hit
    obtain ⟨l, hl, he⟩ := List.mem_map.mp hit
    rw [← he]
    rfl
  · refine po_pairwise_id_of_map_eq (po_map_id_of_pres (fun l => rfl)) ?_
    exact happ
  · refine po_lt_of_map_eq (po_map_id_of_pres (fun l => rfl)) ?_
    exact happlt
  · exact hrefs
  · exact h.snap_vle
  · exact h.snap_strict
  · exact h.snap_nodup

theorem POWF.revert_po_to_version {s v now s'} (h : POWF s)
    (hok : revert_po_to_version s v now = .ok s') : POWF s' := by
  obtain ⟨target, hfind, hv, hq⟩ := revert_po_to_version_ok hok
  rw [hq]
  exact POWF.revertPOCore h target v now

theorem postep_POWF {s s'} (h : POWF s) (hs : POStep s s') : POWF s' := by
  cases hs with
  | update st => exact POWF.update_purchase_order h st
  | addLine c ld hok => exact POWF.add_po_line h hok
  | updateLine c lid ld hok => exact POWF.update_po_line h hok
  | deleteLine lid hok => exact POWF.delete_po_line h hok
  | commit c chs hok => exact POWF.commit_po_edits h hok
  | receive es hok => exact POWF.create_po_receiving h hok
  | revert v now hok => exact POWF.revert_po_to_version h hok

theorem poreach_POWF {s} (h : POReachable s) : POWF s := by
  obtain ⟨st, hr⟩ := h
  induction hr with
  | refl => exact POWF.create_purchase_order st
  | tail hstep hlast ih => exact postep_POWF ih hlast

/-! ## Reachability of the concrete traces -/

theorem qA1_reach : QReachable qA1 :=
  ⟨{ status := "Active", client_po_number := some "CPO-1", work_description := none },
   Relation.ReflTransGen.tail Relation.ReflTransGen.refl
     (QStep.addLine catalog0 qAdd1 rfl)⟩

theorem qA2_reach : QReachable qA2 :=
  ⟨{ status := "Active", client_po_number := some "CPO-1", work_description := none },
   Relation.ReflTransGen.tail
     (Relation.ReflTransGen.tail Relation.ReflTransGen.refl
       (QStep.addLine catalog0 qAdd1 rfl))
     (QStep.invoice [{ line_item_id := 1, quantity := 1 }] rfl)⟩

theorem qA3_reach : QReachable qA3 :=
  ⟨{ status := "Active", client_po_number := some "CPO-1", work_description := none },
   Relation.ReflTransGen.tail
     (Relation.ReflTransGen.tail
       (Relation.ReflTransGen.tail Relation.ReflTransGen.refl
         (QStep.addLine catalog0 qAdd1 rfl))
       (QStep.invoice [{ line_item_id := 1, quantity := 1 }] rfl))
     (QStep.revert 1 50 rfl)⟩

theorem poA1_reach : POReachable poA1 :=
  ⟨POStatus.draft,
   Relation.ReflTransGen.tail Relation.ReflTransGen.refl
     (POStep.addLine catalog0 poAdd1 rfl)⟩

theorem poA2_reach : POReachable poA2 :=
  ⟨POStatus.draft,
   Relation.ReflTransGen.tail
     (Relation.ReflTransGen.tail Relation.ReflTransGen.refl
       (POStep.addLine catalog0 poAdd1 rfl))
     (POStep.update (some POStatus.sent))⟩

theorem poA3_reach : POReachable poA3 :=
  ⟨POStatus.draft,
   Relation.ReflTransGen.tail
     (Relation.ReflTransGen.tail
       (Relation.ReflTransGen.tail Relation.ReflTransGen.refl
         (POStep.addLine catalog0 poAdd1 rfl))
       (POStep.update (some POStatus.sent)))
     (POStep.receive poRecv1 rfl)⟩

theorem poA4_reach : POReachable poA4 :=
  ⟨POStatus.draft,
   Relation.ReflTransGen.tail
     (Relation.ReflTransGen.tail
       (Relation.ReflTransGen.tail
         (Relation.ReflTransGen.tail Relation.ReflTransGen.refl
           (POStep.addLine catalog0 poAdd1 rfl))
         (POStep.update (some POStatus.sent)))
       (POStep.receive poRecv1 rfl))
     (POStep.revert 1 100 rfl)⟩

theorem poA5_reach : POReachable poA5 :=
  ⟨POStatus.draft,
   Relation.ReflTransGen.tail
     (Relation.ReflTransGen.tail
       (Relation.ReflTransGen.tail
         (Relation.ReflTransGen.tail
           (Relation.ReflTransGen.tail Relation.ReflTransGen.refl
             (POStep.addLine catalog0 poAdd1 rfl))
           (POStep.update (some POStatus.sent)))
         (POStep.receive poRecv1 rfl))
       (POStep.revert 1 100 rfl))
     (POStep.revert 2 200 rfl)⟩

/-! ## Claim C2 -/

/-- C2: after every committed operation, every quote line item satisfies
`quantity = qty_pending + qty_fulfilled`, and every purchase-order line
item satisfies `qty_pending = max 0 (quantity - qty_received)`. -/
theorem C2_quantity_split :
    (∀ q : QuoteState, QReachable q → ∀ it ∈ q.line_items,
      it.quantity = it.qty_pending + it.qty_fulfilled) ∧
    (∀ s : POState, POReachable s → ∀ it ∈ s.line_items,
      it.qty_pending = max 0 (it.quantity - it.qty_received)) :=
  ⟨fun _ hq => (qreach_QWF hq).lines_split,
   fun _ hs => (poreach_POWF hs).lines_split⟩

/-- Witness for C2 on the concrete traces. -/
theorem C2_quantity_split_witness :
    (∀ it ∈ qA2.line_items, it.quantity = it.qty_pending + it.qty_fulfilled) ∧
    (∀ it ∈ poA3.line_items, it.qty_pending = max 0 (it.quantity - it.qty_received)) :=
  ⟨C2_quantity_split.1 qA2 qA2_reach, C2_quantity_split.2 poA3 poA3_reach⟩

/-! ## Claim C10 -/

/-- C10: quote creation records no snapshot and starts at version 0; a pure
quote update records no snapshot and keeps the version; hence no reachable
quote has a version-0 snapshot and both revert-to-0 and get-snapshot-0
always fail with 404. -/
theorem C10_no_version_zero :
    (∀ d, (create_quote d).snapshots = [] ∧ (create_quote d).current_version = 0) ∧
    (∀ q d q', update_quote q d = .ok q' →
      q'.snapshots = q.snapshots ∧ q'.current_version = q.current_version) ∧
    (∀ q : QuoteState, QReachable q → ∀ now : Nat,
      revert_to_snapshot q 0 now = .error 404 ∧
      get_quote_snapshot q 0 = .error 404) := by
  refine ⟨fun d => ⟨rfl, rfl⟩, ?_, ?_⟩
  · intro q d q' hok
    rw [update_quote_ok hok]
    cases d.status <;> exact ⟨rfl, rfl⟩
  · intro q hq now
    have hwf := qreach_QWF hq
    have hfind : q.snapshots.find? (fun sn => sn.version = 0) = none := by
      rw [List.find?_eq_none]
      intro sn hsn
      simp only [decide_eq_true_eq]
      have := hwf.snap_version_pos sn hsn
      omega
    constructor
    · unfold revert_to_snapshot
      rw [hfind]
    · unfold get_quote_snapshot
      rw [hfind]

/-- Witness for C10: a status-only update leaves snapshots and version
alone, and version 0 of a live quote is unreachable. -/
theorem C10_no_version_zero_witness :
    (qA0.snapshots = qA0.snapshots ∧ qA0.current_version = qA0.current_version) ∧
    revert_to_snapshot qA1 0 9 = .error 404 ∧
    get_quote_snapshot qA1 0 = .error 404 :=
  ⟨C10_no_version_zero.2.1 qA0
     { status := none, client_po_number := none, work_description := none } qA0 rfl,
   (C10_no_version_zero.2.2 qA1 qA1_reach 9).1,
   (C10_no_version_zero.2.2 qA1 qA1_reach 9).2⟩

/-! ## Claim C7 (amended part) -/

/-- C7 (amended): quote snapshots all carry pairwise-distinct versions; for
purchase orders, distinctness holds for every snapshot outside the
metadata-only actions (`create`, `status_change`), which deliberately reuse
the current version. -/
theorem C7_snapshot_versions_amended :
    (∀ q : QuoteState, QReachable q →
      q.snapshots.Pairwise (fun a b => a.version ≠ b.version)) ∧
    (∀ s : POState, POReachable s →
      (s.snapshots.filter (fun sn => sn.action_type ≠ "create" ∧
        sn.action_type ≠ "status_change")).Pairwise
        (fun a b => a.version ≠ b.version)) := by
  constructor
  · intro q hq
    exact (qreach_QWF hq).snap_sorted.imp (fun hab => Nat.ne_of_lt hab)
  · intro s hs
    have h := (poreach_POWF hs).snap_strict
    rw [List.pairwise_filter]
    refine h.imp ?_
    intro a b hab ha hb
    exact Nat.ne_of_lt (hab hb)

/-- Witness for the amended C7 on the concrete traces. -/
theorem C7_snapshot_versions_amended_witness :
    qA1.snapshots.Pairwise (fun a b => a.version ≠ b.version) ∧
    (poA3.snapshots.filter (fun sn => sn.action_type ≠ "create" ∧
      sn.action_type ≠ "status_change")).Pairwise
      (fun a b => a.version ≠ b.version) :=
  ⟨C7_snapshot_versions_amended.1 qA1 qA1_reach,
   C7_snapshot_versions_amended.2 poA3 poA3_reach⟩

/-! ## Claim C8 -/

/-- Repointing receiving-line references never touches a receiving's id,
voided timestamp or snapshot link. -/
theorem repoint_fold_mem {m : List (Nat × Nat)} {rs : List Recv} :
    ∀ r ∈ rs, ∃ r' ∈ m.foldl (fun acc p => repointRecvLines acc p.1 p.2) rs,
      r'.id = r.id ∧ r'.voided_at = r.voided_at ∧
      r'.voided_by_snapshot_id = r.voided_by_snapshot_id := by
  induction m generalizing rs with
  | nil => intro r hr; exact ⟨r, hr, rfl, rfl, rfl⟩
  | cons p m ih =>
      intro r hr
      rw [List.foldl_cons]
      obtain ⟨r2, hr2, h1, h2, h3⟩ := ih _ (List.mem_map_of_mem (fun r : Recv =>
        { r with line_items := r.line_items.map (fun li =>
            if li.po_line_item_id = p.1 then { li with po_line_item_id := p.2 }
            else li) }) hr)
      exact ⟨r2, hr2, h1, h2, h3⟩

/-- The PO revert records exactly one new snapshot, with the next free
snapshot id. -/
theorem revertPOCore_snapshot_ids (s : POState) (target : POSnap) (v now : Nat) :
    (revertPOCore s target v now).snapshots.map (fun sn => sn.id) =
      s.snapshots.map (fun sn => sn.id) ++ [s.next_snap_id] := by
  unfold UcVelocity.revertPOCore UcVelocity.create_po_snapshot
  try dsimp only
  rw [List.map_append]
  rfl

/-- Every receiving voided by a PO revert ends with `voided_at` set and
`voided_by_snapshot_id` pointing at the revert snapshot. -/
theorem revertPOCore_receivings_mem (s : POState) (target : POSnap) (v now : Nat) :
    ∀ r ∈ s.receivings, r.voided_at = none →
      s.snapshots.any (fun sn => sn.receiving_id = some r.id ∧ sn.version > v) = true →
      ∃ r' ∈ (revertPOCore s target v now).receivings, r'.id = r.id ∧
        r'.voided_at = some now ∧
        r'.voided_by_snapshot_id = some s.next_snap_id := by
  intro r hr hva hany
  have hcont : (((s.receivings.filter (fun r => r.voided_at = none ∧
      s.snapshots.any (fun sn => sn.receiving_id = some r.id ∧ sn.version > v))).map
        (fun r => r.id)).contains r.id) = true :=
    List.elem_eq_true_of_mem (List.mem_map_of_mem _
      (List.mem_filter.mpr ⟨hr, decide_eq_true ⟨hva, hany⟩⟩))
  have hr1 : ({ r with voided_at := some now, voided_by_snapshot_id := none } : Recv) ∈
      s.receivings.map (fun r =>
        if ((s.receivings.filter (fun r => r.voided_at = none ∧
            s.snapshots.any (fun sn => sn.receiving_id = some r.id ∧ sn.version > v))).map
          (fun r => r.id)).contains r.id then
          { r with voided_at := some now, voided_by_snapshot_id := none } else r) := by
    have hx := List.mem_map_of_mem (fun r : Recv =>
      if ((s.receivings.filter (fun r => r.voided_at = none ∧
          s.snapshots.any (fun sn => sn.receiving_id = some r.id ∧ sn.version > v))).map
        (fun r => r.id)).contains r.id then
        { r with voided_at := some now, voided_by_snapshot_id := none } else r) hr
    rw [show (fun r : Recv =>
        if ((s.receivings.filter (fun r => r.voided_at = none ∧
            s.snapshots.any (fun sn => sn.receiving_id = some r.id ∧ sn.version > v))).map
          (fun r => r.id)).contains r.id then
          { r with voided_at := some now, voided_by_snapshot_id := none } else r) r =
        { r with voided_at := some now, voided_by_snapshot_id := none } from by
      dsimp only
      rw [if_pos hcont]] at hx
    exact hx
  obtain ⟨r2, hr2, h1, h2, h3⟩ := repoint_fold_mem
    (m := buildPOMapping
      (List.insertionSort
        (fun a b : POLineSnap => a.original_line_item_id ≤ b.original_line_item_id)
        (target.items.filter (fun t => !t.is_deleted)))
      ((List.insertionSort (fun a b : POLine => a.id ≤ b.id) s.line_items).map
        (fun l => l.id))
      s.next_line_id)
    _ hr1
  have hcont2 : (((s.receivings.filter (fun r => r.voided_at = none ∧
      s.snapshots.any (fun sn => sn.receiving_id = some r.id ∧ sn.version > v))).map
        (fun r => r.id)).contains r2.id) = true := by
    rw [h1]
    exact hcont
  have hx2 := List.mem_map_of_mem (fun q : Recv =>
    if ((s.receivings.filter (fun r => r.voided_at = none ∧
        s.snapshots.any (fun sn => sn.receiving_id = some r.id ∧ sn.version > v))).map
      (fun r => r.id)).contains q.id then
      { q with voided_by_snapshot_id := some s.next_snap_id } else q) hr2
  rw [show (fun q : Recv =>
      if ((s.receivings.filter (fun r => r.voided_at = none ∧
          s.snapshots.any (fun sn => sn.receiving_id = some r.id ∧ sn.version > v))).map
        (fun r => r.id)).contains q.id then
        { q with voided_by_snapshot_id := some s.next_snap_id } else q) r2 =
      { r2 with voided_by_snapshot_id := some s.next_snap_id } from by
    dsimp only
    rw [if_pos hcont2]] at hx2
  exact ⟨{ r2 with voided_by_snapshot_id := some s.next_snap_id }, hx2, h1, h2, rfl⟩

/-- C8 is false as stated on the quote side: reverting the invoiced quote
voids its invoice and stamps `voided_at`, but `voided_by_snapshot_id` stays
null instead of pointing at the revert snapshot (id 3). -/
theorem C8_counterexample :
    QReachable qA3 ∧
    qA3.invoices.map (fun inv =>
      (inv.status, inv.voided_at, inv.voided_by_snapshot_id)) =
      [("Voided", some 50, none)] ∧
    (qA3.snapshots.map (fun sn => sn.id)).getLast? = some 3 :=
  ⟨qA3_reach, by decide, by decide⟩

/-- C8 (amended): a quote invoice's `voided_by_snapshot_id` is never
assigned — it is null in every reachable state, and a quote revert only
sets `status` and `voided_at` on the invoices it voids.  On the purchase
order side the claim holds: the revert records one snapshot (id
`next_snap_id`) and every receiving it voids ends with `voided_at = now`
and `voided_by_snapshot_id` equal to that snapshot's id. -/
theorem C8_revert_void_links_amended :
    (∀ q : QuoteState, QReachable q →
      ∀ inv ∈ q.invoices, inv.voided_by_snapshot_id = none) ∧
    (∀ (q : QuoteState) (v now : Nat) (q' : QuoteState),
      revert_to_snapshot q v now = .ok q' →
      ∀ inv ∈ q.invoices, inv.status ≠ "Voided" →
        q.snapshots.any (fun sn => sn.invoice_id = some inv.id ∧ sn.version > v) = true →
        ∃ inv' ∈ q'.invoices, inv'.id = inv.id ∧ inv'.status = "Voided" ∧
          inv'.voided_at = some now ∧
          inv'.voided_by_snapshot_id = inv.voided_by_snapshot_id) ∧
    (∀ (s : POState) (v now : Nat) (s' : POState),
      revert_po_to_version s v now = .ok s' →
      s'.snapshots.map (fun sn => sn.id) =
        s.snapshots.map (fun sn => sn.id) ++ [s.next_snap_id] ∧
      ∀ r ∈ s.receivings, r.voided_at = none →
        s.snapshots.any (fun sn => sn.receiving_id = some r.id ∧ sn.version > v) = true →
        ∃ r' ∈ s'.receivings, r'.id = r.id ∧ r'.voided_at = some now ∧
          r'.voided_by_snapshot_id = some s.next_snap_id) := by
  refine ⟨fun _ hq => (qreach_QWF hq).inv_vbsi, ?_, ?_⟩
  · intro q v now q' hok inv hinv hst hany
    obtain ⟨target, hfind, hv, hq⟩ := revert_to_snapshot_ok hok
    subst hq
    refine ⟨{ inv with status := "Voided", voided_at := some now }, ?_, rfl, rfl, rfl, rfl⟩
    have hx := List.mem_map_of_mem (fun inv : Invoice =>
      if inv.status ≠ "Voided" ∧
          q.snapshots.any (fun s => s.invoice_id = some inv.id ∧ s.version > v) then
        { inv with status := "Voided", voided_at := some now }
      else inv) hinv
    rw [show (fun inv : Invoice =>
        if inv.status ≠ "Voided" ∧
            q.snapshots.any (fun s => s.invoice_id = some inv.id ∧ s.version > v) then
          { inv with status := "Voided", voided_at := some now }
        else inv) inv = { inv with status := "Voided", voided_at := some now } from by
      dsimp only
      rw [if_pos ⟨hst, hany⟩]] at hx
    exact hx
  · intro s v now s' hok
    obtain ⟨target, hfind, hv, hq⟩ := revert_po_to_version_ok hok
    subst hq
    exact ⟨revertPOCore_snapshot_ids s target v now,
      revertPOCore_receivings_mem s target v now⟩

/-- Witness for the amended C8 on the concrete traces. -/
theorem C8_revert_void_links_amended_witness :
    (∀ inv ∈ qA2.invoices, inv.voided_by_snapshot_id = none) ∧
    (∃ inv' ∈ qA3.invoices, inv'.id = 1 ∧ inv'.status = "Voided" ∧
      inv'.voided_at = some 50 ∧ inv'.voided_by_snapshot_id = none) ∧
    poA4.snapshots.map (fun sn => sn.id) =
      poA3.snapshots.map (fun sn => sn.id) ++ [poA3.next_snap_id] ∧
    (∃ r' ∈ poA4.receivings, r'.id = 1 ∧ r'.voided_at = some 100 ∧
      r'.voided_by_snapshot_id = some poA3.next_snap_id) :=
  ⟨C8_revert_void_links_amended.1 qA2 qA2_reach,
   C8_revert_void_links_amended.2.1 qA2 1 50 qA3 rfl
     { id := 1, status := "Sent", voided_at := none, voided_by_snapshot_id := none,
       line_items :=
         [{ quote_line_item_id := 1, item_type := "misc",
            description := some "widget", unit_price := none, qty_ordered := 2,
            qty_fulfilled_this_invoice := 1, qty_fulfilled_total := 1,
            qty_pending_after := 1, labor_id := none, part_id := none,
            misc_id := none, discount_code_id := none }] }
     (by decide) (by decide) (by decide),
   (C8_revert_void_links_amended.2.2 poA3 1 100 poA4 rfl).1,
   (C8_revert_void_links_amended.2.2 poA3 1 100 poA4 rfl).2
     { id := 1, voided_at := none, voided_by_snapshot_id := none,
       line_items :=
         [{ po_line_item_id := 1, item_type := "misc",
            description := some "widget", part_id := none, unit_price := none,
            actual_unit_price := none, qty_ordered := 10,
            qty_received_this_receiving := 6, qty_received_total := 6,
            qty_pending_after := 4 }] }
     (by decide) (by decide) (by decide)⟩

/-! ## Claim C9 -/

def qB1 : QuoteState :=
  (toggle_markup_control catalog0 qA1 true (some 20)).toOption.getD qA0

def qB2 : QuoteState :=
  (toggle_markup_control catalog0 qB1 false none).toOption.getD qA0

theorem qB2_reach : QReachable qB2 :=
  ⟨{ status := "Active", client_po_number := some "CPO-1", work_description := none },
   Relation.ReflTransGen.tail
     (Relation.ReflTransGen.tail
       (Relation.ReflTransGen.tail Relation.ReflTransGen.refl
         (QStep.addLine catalog0 qAdd1 rfl))
       (QStep.markup catalog0 true (some 20) rfl))
     (QStep.markup catalog0 false none rfl)⟩

/-- C9 is false as stated: enabling markup control stores the per-item
override columns, and disabling restores `unit_price` from them but leaves
`base_cost` and `original_markup_percent` populated instead of clearing
them. -/
theorem C9_counterexample :
    QReachable qB2 ∧
    qB2.markup_control_enabled = false ∧
    qB2.line_items.map (fun l => (l.base_cost, l.original_markup_percent)) =
      [(some 0, some 0)] :=
  ⟨qB2_reach, rfl, rfl⟩

/-- C9 (amended): disabling markup control clears the quote-level fields
(`markup_control_enabled`, `global_markup_percent`) and, for every
non-PMS-exempt line item with both overrides stored, restores
`unit_price = base_cost * (1 + original_markup_percent / 100)` — but the
per-item override columns themselves are left untouched. -/
theorem C9_markup_disable_amended :
    ∀ (c : Catalog) (q : QuoteState) (gmp : Option Rat) (q' : QuoteState),
      toggle_markup_control c q false gmp = .ok q' →
      q'.markup_control_enabled = false ∧
      q'.global_markup_percent = none ∧
      q'.line_items.map (fun l => l.base_cost) =
        q.line_items.map (fun l => l.base_cost) ∧
      q'.line_items.map (fun l => l.original_markup_percent) =
        q.line_items.map (fun l => l.original_markup_percent) ∧
      ∀ l ∈ q.line_items, l.is_pms = false →
        ∀ bc omp, l.base_cost = some bc → l.original_markup_percent = some omp →
          ∃ l' ∈ q'.line_items, l'.id = l.id ∧
            l'.unit_price = some (bc * (1 + omp / 100)) ∧
            l'.base_cost = some bc ∧ l'.original_markup_percent = some omp := by
  intro c q gmp q' hok
  obtain ⟨-, hq⟩ := toggle_markup_ok hok
  rw [hq rfl]
  refine ⟨rfl, rfl, ?_, ?_, ?_⟩
  · show (q.line_items.map restoreQLinePrice).map (fun l => l.base_cost) =
      q.line_items.map (fun l => l.base_cost)
    rw [List.map_map]
    refine List.map_congr_left ?_
    intro l hl
    show (restoreQLinePrice l).base_cost = l.base_cost
    unfold restoreQLinePrice
    split
    · rfl
    · split <;> rfl
  · show (q.line_items.map restoreQLinePrice).map
        (fun l => l.original_markup_percent) =
      q.line_items.map (fun l => l.original_markup_percent)
    rw [List.map_map]
    refine List.map_congr_left ?_
    intro l hl
    show (restoreQLinePrice l).original_markup_percent = l.original_markup_percent
    unfold restoreQLinePrice
    split
    · rfl
    · split <;> rfl
  · intro l hl hpms bc omp hbc homp
    refine ⟨restoreQLinePrice l, List.mem_map_of_mem _ hl, ?_, ?_, ?_, ?_⟩
    · unfold restoreQLinePrice
      rw [if_neg (by simp [hpms]), hbc, homp]
    · unfold restoreQLinePrice
      rw [if_neg (by simp [hpms]), hbc, homp]
    · unfold restoreQLinePrice
      rw [if_neg (by simp [hpms]), hbc, homp]
    · unfold restoreQLinePrice
      rw [if_neg (by simp [hpms]), hbc, homp]

/-- Witness for the amended C9 on the concrete markup trace. -/
theorem C9_markup_disable_amended_witness :
    qB2.markup_control_enabled = false ∧
    qB2.global_markup_percent = none ∧
    qB2.line_items.map (fun l => l.base_cost) =
      qB1.line_items.map (fun l => l.base_cost) ∧
    qB2.line_items.map (fun l => l.original_markup_percent) =
      qB1.line_items.map (fun l => l.original_markup_percent) ∧
    ∀ l ∈ qB1.line_items, l.is_pms = false →
      ∀ bc omp, l.base_cost = some bc → l.original_markup_percent = some omp →
        ∃ l' ∈ qB2.line_items, l'.id = l.id ∧
          l'.unit_price = some (bc * (1 + omp / 100)) ∧
          l'.base_cost = some bc ∧ l'.original_markup_percent = some omp :=
  C9_markup_disable_amended catalog0 qB1 none qB2 rfl

/-! ## Claim C4 -/

theorem qfind_of_nodup {ls : List QLine} {l : QLine} {i : Nat}
    (hnd : (ls.map (fun x => x.id)).Nodup) (hl : l ∈ ls) (hi : l.id = i) :
    ls.find? (fun x => x.id = i) = some l := by
  induction ls with
  | nil => cases hl
  | cons a ls ih =>
      rw [List.map_cons, List.nodup_cons] at hnd
      rw [List.mem_cons] at hl
      rcases hl with hl | hl
      · subst hl
        exact List.find?_cons_of_pos _ (by simp [hi])
      · have hcond : ¬ ((fun x : QLine => decide (x.id = i)) a = true) := by
          simp only [decide_eq_true_eq]
          intro he
          apply hnd.1
          have hx : l.id ∈ ls.map (fun x => x.id) := List.mem_map_of_mem _ hl
          rw [he, ← hi]
          exact hx
        rw [List.find?_cons_of_neg (p := fun x : QLine => decide (x.id = i)) ls hcond]
        exact ih hnd.2 hl

theorem pofind_of_nodup {ls : List POLine} {l : POLine} {i : Nat}
    (hnd : (ls.map (fun x => x.id)).Nodup) (hl : l ∈ ls) (hi : l.id = i) :
    ls.find? (fun x => x.id = i) = some l := by
  induction ls with
  | nil => cases hl
  | cons a ls ih =>
      rw [List.map_cons, List.nodup_cons] at hnd
      rw [List.mem_cons] at hl
      rcases hl with hl | hl
      · subst hl
        exact List.find?_cons_of_pos _ (by simp [hi])
      · have hcond : ¬ ((fun x : POLine => decide (x.id = i)) a = true) := by
          simp only [decide_eq_true_eq]
          intro he
          apply hnd.1
          have hx : l.id ∈ ls.map (fun x => x.id) := List.mem_map_of_mem _ hl
          rw [he, ← hi]
          exact hx
        rw [List.find?_cons_of_neg (p := fun x : POLine => decide (x.id = i)) ls hcond]
        exact ih hnd.2 hl

theorem mem_setLine_of_eq {ls : List QLine} {x b : QLine}
    (hx : x ∈ ls) (he : x.id = b.id) : b ∈ setLine ls b := by
  have hm : (if x.id = b.id then b else x) ∈
      ls.map (fun y => if y.id = b.id then b else y) :=
    List.mem_map_of_mem _ hx
  rw [if_pos he] at hm
  exact hm

theorem mem_setLine_of_ne {ls : List QLine} {x b : QLine}
    (hx : x ∈ ls) (he : ¬ (x.id = b.id)) : x ∈ setLine ls b := by
  have hm : (if x.id = b.id then b else x) ∈
      ls.map (fun y => if y.id = b.id then b else y) :=
    List.mem_map_of_mem _ hx
  rw [if_neg he] at hm
  exact hm

theorem mem_setPOLine_of_eq {ls : List POLine} {x b : POLine}
    (hx : x ∈ ls) (he : x.id = b.id) : b ∈ setPOLine ls b := by
  have hm : (if x.id = b.id then b else x) ∈
      ls.map (fun y => if y.id = b.id then b else y) :=
    List.mem_map_of_mem _ hx
  rw [if_pos he] at hm
  exact hm

theorem mem_setPOLine_of_ne {ls : List POLine} {x b : POLine}
    (hx : x ∈ ls) (he : ¬ (x.id = b.id)) : x ∈ setPOLine ls b := by
  have hm : (if x.id = b.id then b else x) ∈
      ls.map (fun y => if y.id = b.id then b else y) :=
    List.mem_map_of_mem _ hx
  rw [if_neg he] at hm
  exact hm

/-- Per-line effect of the quote invoice loop: each line's fulfilled /
pending totals move by the sum of the batch entries that name it (the
validation happened against the pre-batch state, so nothing here bounds
that sum). -/
theorem invoice_fold_effect :
    ∀ (fs : List FulfillEntry) (ls : List QLine) (a2 : List InvLine),
      (ls.map (fun x => x.id)).Nodup →
      ∀ l ∈ ls, ∃ l2 ∈ (fs.foldl invoiceApplyStep (ls, a2)).1,
        l2.id = l.id ∧ l2.quantity = l.quantity ∧
        l2.qty_fulfilled = l.qty_fulfilled +
          ((fs.filter (fun g => g.line_item_id = l.id)).map
            (fun g => g.quantity)).sum ∧
        l2.qty_pending = l.qty_pending -
          ((fs.filter (fun g => g.line_item_id = l.id)).map
            (fun g => g.quantity)).sum := by
  intro fs
  induction fs with
  | nil =>
      intro ls a2 hnd l hl
      exact ⟨l, hl, rfl, rfl, by simp, by simp⟩
  | cons f fs ih =>
      intro ls a2 hnd l hl
      rw [List.foldl_cons]
      cases hfind : ls.find? (fun x => x.id = f.line_item_id) with
      | none =>
          have hstep : invoiceApplyStep (ls, a2) f = (ls, a2) := by
            unfold invoiceApplyStep
            simp only [hfind]
          rw [hstep]
          have hne : f.line_item_id ≠ l.id := by
            intro he
            have hq := qfind_of_nodup hnd hl he.symm
            rw [hfind] at hq
            cases hq
          obtain ⟨l2, h0, h1, h2, h3, h4⟩ := ih ls a2 hnd l hl
          refine ⟨l2, h0, h1, h2, ?_, ?_⟩
          · rw [List.filter_cons_of_neg (by simp [hne])]
            exact h3
          · rw [List.filter_cons_of_neg (by simp [hne])]
            exact h4
      | some line =>
          have hstep : invoiceApplyStep (ls, a2) f =
              (setLine ls { line with
                  qty_fulfilled := line.qty_fulfilled + f.quantity
                  qty_pending := line.qty_pending - f.quantity },
               a2 ++
                [{ quote_line_item_id := line.id
                   item_type := line.item_type
                   description := line.description
                   unit_price := line.unit_price
                   qty_ordered := line.quantity
                   qty_fulfilled_this_invoice := f.quantity
                   qty_fulfilled_total := line.qty_fulfilled + f.quantity
                   qty_pending_after := line.qty_pending - f.quantity
                   labor_id := line.labor_id
                   part_id := line.part_id
                   misc_id := line.misc_id
                   discount_code_id := line.discount_code_id }]) := by
            unfold invoiceApplyStep
            simp only [hfind]
          rw [hstep]
          have hlid := List.find?_some hfind
          simp only [decide_eq_true_eq] at hlid
          have hnd2 : ((setLine ls { line with
              qty_fulfilled := line.qty_fulfilled + f.quantity
              qty_pending := line.qty_pending - f.quantity }).map
                (fun x => x.id)).Nodup := by
            rw [setLine_id_map]
            exact hnd
          by_cases hfl : f.line_item_id = l.id
          · have hline : line = l := by
              have hq := qfind_of_nodup hnd hl hfl.symm
              rw [hfind] at hq
              exact Option.some.inj hq
            subst hline
            obtain ⟨l2, h0, h1, h2, h3, h4⟩ :=
              ih _ _ hnd2 _ (mem_setLine_of_eq hl rfl)
            have h3a : l2.qty_fulfilled = line.qty_fulfilled + f.quantity +
                ((fs.filter (fun g => g.line_item_id = line.id)).map
                  (fun g => g.quantity)).sum := h3
            have h4a : l2.qty_pending = line.qty_pending - f.quantity -
                ((fs.filter (fun g => g.line_item_id = line.id)).map
                  (fun g => g.quantity)).sum := h4
            refine ⟨l2, h0, h1, h2, ?_, ?_⟩
            · rw [List.filter_cons_of_pos (by simp [hfl]), List.map_cons,
                List.sum_cons]
              omega
            · rw [List.filter_cons_of_pos (by simp [hfl]), List.map_cons,
                List.sum_cons]
              omega
          · obtain ⟨l2, h0, h1, h2, h3, h4⟩ :=
              ih _ _ hnd2 l (mem_setLine_of_ne hl (fun he => hfl (by
                rw [← hlid]
                exact (show l.id = line.id from he).symm)))
            refine ⟨l2, h0, h1, h2, ?_, ?_⟩
            · rw [List.filter_cons_of_neg (by simp [hfl])]
              exact h3
            · rw [List.filter_cons_of_neg (by simp [hfl])]
              exact h4

/-- Per-line effect of one receiving entry: the targeted line was checked
against the *running* pending quantity and moved by exactly the entry's
amount; every other line keeps its aggregates, and ids are preserved. -/
theorem recvApplyEntry_effect {rid : Nat} {fl : List Recv} {st : POState}
    {e : RecvEntry} {st' : POState}
    (hnd : (st.line_items.map (fun x => x.id)).Nodup)
    (hok : recvApplyEntry rid fl st e = .ok st') :
    st'.line_items.map (fun x => x.id) = st.line_items.map (fun x => x.id) ∧
    ∀ l ∈ st.line_items, ∃ l2 ∈ st'.line_items, l2.id = l.id ∧
      l2.quantity = l.quantity ∧
      (e.po_line_item_id = l.id →
        e.qty_received ≤ l.qty_pending ∧
        l2.qty_received = l.qty_received + e.qty_received ∧
        l2.qty_pending = l.qty_pending - e.qty_received ∧
        ∀ x : POState, x.receivings = fl →
          l2.actual_unit_price = calculate_weighted_average_price x l.id) ∧
      (¬ (e.po_line_item_id = l.id) →
        l2.qty_received = l.qty_received ∧ l2.qty_pending = l.qty_pending ∧
        l2.actual_unit_price = l.actual_unit_price) := by
  unfold UcVelocity.recvApplyEntry at hok
  split at hok
  · exact absurd hok (by simp)
  · rename_i line hfind
    have hlid := List.find?_some hfind
    simp only [decide_eq_true_eq] at hlid
    have hmemline := List.mem_of_find?_eq_some hfind
    split at hok
    · exact absurd hok (by simp)
    · split at hok
      · exact absurd hok (by simp)
      · rename_i hgt
        simp only [] at hok
        rw [Except.ok.injEq] at hok
        subst hok
        constructor
        · exact (setPOLine_id_map _ _).trans (setPOLine_id_map _ _)
        · intro l hl
          by_cases hel : e.po_line_item_id = l.id
          · have hline : line = l := by
              have hq := pofind_of_nodup hnd hl hel.symm
              rw [hfind] at hq
              exact Option.some.inj hq
            subst hline
            exact ⟨_, mem_setPOLine_of_eq (mem_setPOLine_of_eq hmemline rfl) rfl,
              rfl, rfl,
              fun _ => ⟨by omega, rfl, rfl,
                fun x hx => wap_receivings_eq _ _ hx.symm _⟩,
              fun hne => absurd hel hne⟩
          · refine ⟨l, mem_setPOLine_of_ne (mem_setPOLine_of_ne hl ?_) ?_,
              rfl, rfl, fun heq => absurd heq hel, fun _ => ⟨rfl, rfl, rfl⟩⟩
            · exact fun he => hel (by
                rw [← hlid]
                exact (show l.id = line.id from he).symm)
            · exact fun he => hel (by
                rw [← hlid]
                exact (show l.id = line.id from he).symm)

/-- Per-line effect of the whole receiving loop: aggregates move by the sum
of the entries that name the line, and a line actually named by the batch
can never end with negative pending — each entry is validated against the
running state, unlike the quote invoice loop. -/
theorem recv_fold_effect :
    ∀ (es : List RecvEntry) (rid : Nat) (fl : List Recv) (st st' : POState),
      (st.line_items.map (fun x => x.id)).Nodup →
      es.foldlM (fun a e => recvApplyEntry rid fl a e) st = .ok st' →
      ∀ l ∈ st.line_items, ∃ l2 ∈ st'.line_items, l2.id = l.id ∧
        l2.quantity = l.quantity ∧
        l2.qty_received = l.qty_received +
          ((es.filter (fun g => g.po_line_item_id = l.id)).map
            (fun g => g.qty_received)).sum ∧
        l2.qty_pending = l.qty_pending -
          ((es.filter (fun g => g.po_line_item_id = l.id)).map
            (fun g => g.qty_received)).sum ∧
        ((∃ g ∈ es, g.po_line_item_id = l.id) → 0 ≤ l2.qty_pending) ∧
        ((∃ g ∈ es, g.po_line_item_id = l.id) →
          ∀ x : POState, x.receivings = fl →
            l2.actual_unit_price = calculate_weighted_average_price x l.id) ∧
        ((¬ ∃ g ∈ es, g.po_line_item_id = l.id) →
          l2.actual_unit_price = l.actual_unit_price) := by
  intro es
  induction es with
  | nil =>
      intro rid fl st st' hnd hok l hl
      simp only [List.foldlM_nil, pure, Except.pure, Except.ok.injEq] at hok
      subst hok
      refine ⟨l, hl, rfl, rfl, by simp, by simp, ?_, ?_, fun _ => rfl⟩
      · rintro ⟨g, hg, -⟩
        cases hg
      · rintro ⟨g, hg, -⟩
        cases hg
  | cons e es ih =>
      intro rid fl st st' hnd hok l hl
      rw [List.foldlM_cons] at hok
      cases hstep : recvApplyEntry rid fl st e with
      | error err =>
          rw [hstep] at hok
          exact absurd hok (by simp [Bind.bind, Except.bind])
      | ok st1 =>
          rw [hstep] at hok
          simp only [Bind.bind, Except.bind] at hok
          obtain ⟨hids, heff⟩ := recvApplyEntry_effect hnd hstep
          have hnd1 : (st1.line_items.map (fun x => x.id)).Nodup := by
            rw [hids]
            exact hnd
          obtain ⟨lm, hlm, hid1, hq1, hposf, hnegf⟩ := heff l hl
          obtain ⟨l2, h0, h1, h2, h3, h4, h5, h6, h7⟩ := ih rid fl st1 st' hnd1 hok lm hlm
          rw [hid1] at h3 h4 h5 h6 h7
          by_cases hel : e.po_line_item_id = l.id
          · obtain ⟨hb, hr1, hp1, haup⟩ := hposf hel
            refine ⟨l2, h0, h1.trans hid1, h2.trans hq1, ?_, ?_, ?_, ?_, ?_⟩
            · rw [List.filter_cons_of_pos (by simp [hel]), List.map_cons,
                List.sum_cons]
              omega
            · rw [List.filter_cons_of_pos (by simp [hel]), List.map_cons,
                List.sum_cons]
              omega
            · intro _
              by_cases hS : es.filter (fun g => g.po_line_item_id = l.id) = []
              · rw [hS, List.map_nil, List.sum_nil] at h4
                omega
              · obtain ⟨g, hg⟩ := List.exists_mem_of_ne_nil _ hS
                obtain ⟨hg1, hg2⟩ := List.mem_filter.mp hg
                simp only [decide_eq_true_eq] at hg2
                exact h5 ⟨g, hg1, hg2⟩
            · intro _ x hx
              by_cases htail : ∃ g ∈ es, g.po_line_item_id = l.id
              · exact h6 htail x hx
              · rw [h7 htail]
                exact haup x hx
            · intro hne
              exact absurd ⟨e, List.mem_cons_self e es, hel⟩ hne
          · obtain ⟨hr1, hp1, haup⟩ := hnegf hel
            refine ⟨l2, h0, h1.trans hid1, h2.trans hq1, ?_, ?_, ?_, ?_, ?_⟩
            · rw [List.filter_cons_of_neg (by simp [hel])]
              omega
            · rw [List.filter_cons_of_neg (by simp [hel])]
              omega
            · rintro ⟨g, hg, hgid⟩
              rcases List.mem_cons.mp hg with hge | hge
              · exact absurd (hge ▸ hgid) hel
              · exact h5 ⟨g, hge, hgid⟩
            · rintro ⟨g, hg, hgid⟩ x hx
              rcases List.mem_cons.mp hg with hge | hge
              · exact absurd (hge ▸ hgid) hel
              · exact h6 ⟨g, hge, hgid⟩ x hx
            · intro hne
              have htail : ¬ ∃ g ∈ es, g.po_line_item_id = l.id :=
                fun hx => hne ⟨hx.choose, List.mem_cons_of_mem e hx.choose_spec.1,
                  hx.choose_spec.2⟩
              rw [h7 htail]
              exact haup

/-- The receiving epilogue (snapshot plus automatic status change) never
touches the line items. -/
theorem recvFinish_line_items (s : POState) (rid : Nat) :
    (recvFinish s rid).line_items = s.line_items := by
  unfold recvFinish recvAutoStatus
  split <;> rfl

/-! ## Claim C3 -/

/-- The PO revert recomputes every line's stored realized average from the
non-voided receiving history of the resulting state (here every relevant
write was flushed before the recomputation queries run). -/
theorem revertPOCore_wap (s : POState) (target : POSnap) (v now : Nat) :
    ∀ it ∈ (revertPOCore s target v now).line_items,
      it.actual_unit_price =
        calculate_weighted_average_price (revertPOCore s target v now) it.id := by
  unfold UcVelocity.revertPOCore UcVelocity.create_po_snapshot
  try dsimp only
  intro it hit
  obtain ⟨l, hl, he⟩ := List.mem_map.mp hit
  rw [← he]
  refine (wap_map_pair rfl ?_ _).symm
  intro r
  try dsimp only
  split
  · exact ⟨rfl, rfl⟩
  · exact ⟨rfl, rfl⟩

def poRecvP : List RecvEntry :=
  [{ po_line_item_id := 1, qty_received := 6, actual_unit_price := some (11 / 2) }]

def poP3 : POState := (create_po_receiving poA2 poRecvP).toOption.getD poA0

theorem poP3_reach : POReachable poP3 :=
  ⟨POStatus.draft,
   Relation.ReflTransGen.tail
     (Relation.ReflTransGen.tail
       (Relation.ReflTransGen.tail Relation.ReflTransGen.refl
         (POStep.addLine catalog0 poAdd1 rfl))
       (POStep.update (some POStatus.sent)))
     (POStep.receive poRecvP rfl)⟩

/-- C3 is false as stated: the session is `autoflush=False` and nothing is
flushed between inserting a receiving's event lines and the repricing
query, so the query sees no event line of the current request.  Receiving
6 units at an explicit realized price of 11/2 therefore stores
`actual_unit_price = None`, although a non-voided event with that realized
price now exists and the weighted average over the committed state is
11/2. -/
theorem C3_counterexample :
    POReachable poP3 ∧
    (nonVoidedRecvLines poP3 1).map
      (fun li => (li.actual_unit_price.isSome, li.qty_received_this_receiving)) =
      [(true, 6)] ∧
    poP3.line_items.map (fun l => l.actual_unit_price) = [none] ∧
    (calculate_weighted_average_price poP3 1).isSome = true :=
  ⟨poP3_reach, by decide, by decide, by decide⟩

set_option maxHeartbeats 1600000 in
/-- C3 (amended): a committed receiving stores, for every line it touches,
the weighted average over the receiving history *as of the start of the
request* — the unflushed event lines of the current request are invisible
to the repricing query, so the stored value lags one request behind — and
leaves every other line's stored average unchanged; a committed revert
recomputes every line's stored average from the non-voided receiving
history of the resulting state. -/
theorem C3_weighted_average_amended :
    (∀ (s : POState) (es : List RecvEntry) (s' : POState),
      create_po_receiving s es = .ok s' →
      (s.line_items.map (fun x => x.id)).Nodup →
      ∀ l ∈ s.line_items, ∃ l2 ∈ s'.line_items, l2.id = l.id ∧
        ((∃ g ∈ es, g.po_line_item_id = l.id) →
          l2.actual_unit_price = calculate_weighted_average_price s l.id) ∧
        ((¬ ∃ g ∈ es, g.po_line_item_id = l.id) →
          l2.actual_unit_price = l.actual_unit_price)) ∧
    (∀ (s : POState) (v now : Nat) (s' : POState),
      revert_po_to_version s v now = .ok s' →
      ∀ it ∈ s'.line_items,
        it.actual_unit_price = calculate_weighted_average_price s' it.id) := by
  constructor
  · intro s es s' hok hnd l hl
    obtain ⟨s2, hfold, hs2⟩ := create_po_receiving_ok hok
    obtain ⟨l2, h0, h1, -, -, -, -, h6, h7⟩ := recv_fold_effect es s.next_recv_id
      (s.receivings ++
        [{ id := s.next_recv_id
           voided_at := none
           voided_by_snapshot_id := none
           line_items := [] }])
      { s with
          receivings := s.receivings ++
            [{ id := s.next_recv_id
               voided_at := none
               voided_by_snapshot_id := none
               line_items := [] }]
          next_recv_id := s.next_recv_id + 1 } s2 hnd hfold l hl
    refine ⟨l2, ?_, h1, fun hex => ?_, h7⟩
    · rw [hs2, recvFinish_line_items]
      exact h0
    · refine (h6 hex { s with
          receivings := s.receivings ++
            [{ id := s.next_recv_id
               voided_at := none
               voided_by_snapshot_id := none
               line_items := [] }] } rfl).trans ?_
      exact wap_append_empty rfl rfl
  · intro s v now s' hok it hit
    obtain ⟨target, hfind, hv, hq⟩ := revert_po_to_version_ok hok
    subst hq
    exact revertPOCore_wap s target v now it hit

/-- Witness for the amended C3: the priced receiving stores the
pre-request average (`None`), and the concrete revert stores the
recomputed average of its own result. -/
theorem C3_weighted_average_amended_witness :
    (∀ l ∈ poA2.line_items, ∃ l2 ∈ poP3.line_items, l2.id = l.id ∧
      ((∃ g ∈ poRecvP, g.po_line_item_id = l.id) →
        l2.actual_unit_price = calculate_weighted_average_price poA2 l.id) ∧
      ((¬ ∃ g ∈ poRecvP, g.po_line_item_id = l.id) →
        l2.actual_unit_price = l.actual_unit_price)) ∧
    (∀ it ∈ poA4.line_items,
      it.actual_unit_price = calculate_weighted_average_price poA4 it.id) :=
  ⟨C3_weighted_average_amended.1 poA2 poRecvP poP3 rfl (by decide),
   C3_weighted_average_amended.2 poA3 1 100 poA4 rfl⟩

def qC2 : QuoteState :=
  (create_invoice qA1 [{ line_item_id := 1, quantity := 2 },
    { line_item_id := 1, quantity := 2 }]).toOption.getD qA0

theorem qC2_reach : QReachable qC2 :=
  ⟨{ status := "Active", client_po_number := some "CPO-1", work_description := none },
   Relation.ReflTransGen.tail
     (Relation.ReflTransGen.tail Relation.ReflTransGen.refl
       (QStep.addLine catalog0 qAdd1 rfl))
     (QStep.invoice [{ line_item_id := 1, quantity := 2 },
       { line_item_id := 1, quantity := 2 }] rfl)⟩

/-- C4 is false as stated for quote invoices: every fulfillment is
validated only against the pre-batch `qty_pending`, so a batch naming the
same line twice with quantity 2 against pending 2 commits (each entry
passes the pre-batch check) and drives the line to `qty_pending = -2`,
instead of failing because the second entry exceeds the line's *current*
pending quantity. -/
theorem C4_counterexample :
    QReachable qC2 ∧
    create_invoice qA1 [{ line_item_id := 1, quantity := 2 },
      { line_item_id := 1, quantity := 2 }] = .ok qC2 ∧
    qA1.line_items.map (fun l => l.qty_pending) = [2] ∧
    qC2.line_items.map (fun l => (l.quantity, l.qty_pending, l.qty_fulfilled)) =
      [(2, -2, 4)] :=
  ⟨qC2_reach, rfl, by decide, by decide⟩

set_option maxHeartbeats 1600000 in
/-- C4 (amended): a committed quote invoice means every entry was strictly
positive and within its line's *pre-batch* pending quantity (entries for
unknown lines or overdrafts of the pre-batch value abort the whole batch),
and each line's `qty_fulfilled`/`qty_pending` move by the *sum* of the
entries naming it — with duplicates that sum can exceed the pre-batch
pending, leaving `qty_pending` negative.  A committed PO receiving means
every entry was strictly positive, each line's `qty_received`/`qty_pending`
move by the sum of the entries naming it, and — because each PO entry is
validated against the running state — a line named by the batch always ends
with `qty_pending ≥ 0`. -/
theorem C4_fulfillment_amended :
    (∀ (q : QuoteState) (fs : List FulfillEntry) (q' : QuoteState),
      create_invoice q fs = .ok q' →
      (∀ f ∈ fs, ∃ l ∈ q.line_items, l.id = f.line_item_id ∧
        0 < f.quantity ∧ f.quantity ≤ l.qty_pending) ∧
      ((q.line_items.map (fun x => x.id)).Nodup →
        ∀ l ∈ q.line_items, ∃ l2 ∈ q'.line_items, l2.id = l.id ∧
          l2.quantity = l.quantity ∧
          l2.qty_fulfilled = l.qty_fulfilled +
            ((fs.filter (fun g => g.line_item_id = l.id)).map
              (fun g => g.quantity)).sum ∧
          l2.qty_pending = l.qty_pending -
            ((fs.filter (fun g => g.line_item_id = l.id)).map
              (fun g => g.quantity)).sum)) ∧
    (∀ (s : POState) (es : List RecvEntry) (s' : POState),
      create_po_receiving s es = .ok s' →
      (∀ g ∈ es, 0 < g.qty_received) ∧
      ((s.line_items.map (fun x => x.id)).Nodup →
        ∀ l ∈ s.line_items, ∃ l2 ∈ s'.line_items, l2.id = l.id ∧
          l2.quantity = l.quantity ∧
          l2.qty_received = l.qty_received +
            ((es.filter (fun g => g.po_line_item_id = l.id)).map
              (fun g => g.qty_received)).sum ∧
          l2.qty_pending = l.qty_pending -
            ((es.filter (fun g => g.po_line_item_id = l.id)).map
              (fun g => g.qty_received)).sum ∧
          ((∃ g ∈ es, g.po_line_item_id = l.id) → 0 ≤ l2.qty_pending))) := by
  constructor
  · intro q fs q' hok
    have hco := create_invoice_ok hok
    constructor
    · intro f hf
      have h2 := hco.2
      rw [List.any_eq_false] at h2
      have h3 := h2 f hf
      cases hfind : q.line_items.find? (fun l => l.id = f.line_item_id) with
      | none =>
          exfalso
          apply h3
          show (match q.line_items.find? (fun l => l.id = f.line_item_id) with
            | none => true
            | some b => decide (f.quantity ≤ 0 ∨ f.quantity > b.qty_pending)) = true
          rw [hfind]
      | some line =>
          have hlid := List.find?_some hfind
          simp only [decide_eq_true_eq] at hlid
          have h4 : ¬ (f.quantity ≤ 0 ∨ f.quantity > line.qty_pending) := by
            intro hd
            apply h3
            show (match q.line_items.find? (fun l => l.id = f.line_item_id) with
              | none => true
              | some b => decide (f.quantity ≤ 0 ∨ f.quantity > b.qty_pending)) = true
            rw [hfind]
            exact decide_eq_true hd
          exact ⟨line, List.mem_of_find?_eq_some hfind, hlid, by omega, by omega⟩
    · intro hnd l hl
      rw [hco.1]
      obtain ⟨l2, h0, hrest⟩ := invoice_fold_effect fs q.line_items [] hnd l hl
      exact ⟨l2, h0, hrest⟩
  · intro s es s' hok
    obtain ⟨s2, hfold, hs2⟩ := create_po_receiving_ok hok
    have hpos : es.any (fun g => g.qty_received ≤ 0) = false := by
      unfold create_po_receiving at hok
      split at hok
      · exact absurd hok (by simp)
      · rename_i hc
        simp only [Bool.not_eq_true] at hc
        exact hc
    constructor
    · intro g hg
      rw [List.any_eq_false] at hpos
      have h2 := hpos g hg
      simp only [decide_eq_true_eq] at h2
      omega
    · intro hnd l hl
      obtain ⟨l2, h0, ha, hb, hc, hd, he, -, -⟩ := recv_fold_effect es s.next_recv_id
        (s.receivings ++
          [{ id := s.next_recv_id
             voided_at := none
             voided_by_snapshot_id := none
             line_items := [] }])
        { s with
            receivings := s.receivings ++
              [{ id := s.next_recv_id
                 voided_at := none
                 voided_by_snapshot_id := none
                 line_items := [] }]
            next_recv_id := s.next_recv_id + 1 } s2 hnd hfold l hl
      refine ⟨l2, ?_, ha, hb, hc, hd, he⟩
      rw [hs2, recvFinish_line_items]
      exact h0

/-- Witness for the amended C4 on the concrete invoice and receiving
traces. -/
theorem C4_fulfillment_amended_witness :
    ((∀ f ∈ [({ line_item_id := 1, quantity := 1 } : FulfillEntry)],
        ∃ l ∈ qA1.line_items, l.id = f.line_item_id ∧
          0 < f.quantity ∧ f.quantity ≤ l.qty_pending) ∧
      ((qA1.line_items.map (fun x => x.id)).Nodup →
        ∀ l ∈ qA1.line_items, ∃ l2 ∈ qA2.line_items, l2.id = l.id ∧
          l2.quantity = l.quantity ∧
          l2.qty_fulfilled = l.qty_fulfilled +
            (([({ line_item_id := 1, quantity := 1 } : FulfillEntry)].filter
              (fun g => g.line_item_id = l.id)).map (fun g => g.quantity)).sum ∧
          l2.qty_pending = l.qty_pending -
            (([({ line_item_id := 1, quantity := 1 } : FulfillEntry)].filter
              (fun g => g.line_item_id = l.id)).map (fun g => g.quantity)).sum)) ∧
    ((∀ g ∈ poRecv1, 0 < g.qty_received) ∧
      ((poA2.line_items.map (fun x => x.id)).Nodup →
        ∀ l ∈ poA2.line_items, ∃ l2 ∈ poA3.line_items, l2.id = l.id ∧
          l2.quantity = l.quantity ∧
          l2.qty_received = l.qty_received +
            ((poRecv1.filter (fun g => g.po_line_item_id = l.id)).map
              (fun g => g.qty_received)).sum ∧
          l2.qty_pending = l.qty_pending -
            ((poRecv1.filter (fun g => g.po_line_item_id = l.id)).map
              (fun g => g.qty_received)).sum ∧
          ((∃ g ∈ poRecv1, g.po_line_item_id = l.id) → 0 ≤ l2.qty_pending))) :=
  ⟨C4_fulfillment_amended.1 qA1 [{ line_item_id := 1, quantity := 1 }] qA2 rfl,
   C4_fulfillment_amended.2 poA2 poRecv1 poA3 rfl⟩

/-! ## Claim C1 -/

/-- Identity-free content of a quote line-item snapshot row. -/
def qSnapContent (t : QLineSnap) :
    String × Option Nat × Option Nat × Option Nat × Option Nat ×
      Option String × Int × Option Rat × Int × Int × Bool × Option Rat ×
      Option Rat × Option Rat :=
  (t.item_type, t.labor_id, t.part_id, t.misc_id, t.discount_code_id,
   t.description, t.quantity, t.unit_price, t.qty_pending, t.qty_fulfilled,
   t.is_pms, t.pms_percent, t.original_markup_percent, t.base_cost)

/-- Static (non-recomputed) content of a PO line-item snapshot row. -/
def poSnapStatic (t : POLineSnap) :
    String × Option Nat × Option String × Int × Option Rat :=
  (t.item_type, t.part_id, t.description, t.quantity, t.unit_price)

/-- Static (non-recomputed) content of a live PO line item. -/
def poLineStatic (l : POLine) :
    String × Option Nat × Option String × Int × Option Rat :=
  (l.item_type, l.part_id, l.description, l.quantity, l.unit_price)

/-- The quote revert restores the full snapshot content, row by row. -/
theorem restoreQLines_content (ts : List QLineSnap) :
    ∀ n, ((restoreQLines ts n).map (fun it => qLineToSnap it false)).map
        qSnapContent = ts.map qSnapContent := by
  induction ts with
  | nil => intro n; rfl
  | cons t ts ih =>
      intro n
      show qSnapContent (qLineToSnap (qSnapToLine t n) false) ::
          ((restoreQLines ts (n + 1)).map (fun it => qLineToSnap it false)).map
            qSnapContent =
        qSnapContent t :: ts.map qSnapContent
      rw [ih (n + 1)]
      rfl

theorem statics_chain (w : POState) (ls : List POLine) :
    (((ls.map (fun l => recompute_line_item_aggregates w l)).filter
        (fun _ => true)).map (fun it => poLineToSnap it false) ++ []).map
      (fun t => poSnapStatic t) = ls.map (fun l => poLineStatic l) := by
  rw [List.append_nil,
    (List.filter_eq_self (p := fun _ => true)).mpr (fun a ha => rfl),
    List.map_map, List.map_map]
  exact List.map_congr_left (fun l hl => rfl)

theorem matched_statics (K : List POLineSnap) (ls : List POLine) :
    (ls.filterMap (fun l =>
      (K.find? (fun t => t.original_line_item_id = l.id)).map
        (fun t => poSnapToLine t l.id))).map (fun l => poLineStatic l) =
    ls.filterMap (fun l =>
      (K.find? (fun t => t.original_line_item_id = l.id)).map
        (fun t => poSnapStatic t)) := by
  rw [List.map_filterMap]
  refine congrArg (fun F => ls.filterMap F) (funext (fun l => ?_))
  show ((K.find? (fun t => t.original_line_item_id = l.id)).map
      (fun t => poSnapToLine t l.id)).map (fun l => poLineStatic l) =
    (K.find? (fun t => t.original_line_item_id = l.id)).map
      (fun t => poSnapStatic t)
  cases hf : K.find? (fun t => t.original_line_item_id = l.id) with
  | none => rfl
  | some t => rfl

theorem fresh_statics (ts : List POLineSnap) (ex : List Nat) :
    ∀ n, (restorePOLines ts ex n).map (fun l => poLineStatic l) =
      (ts.filter (fun t => !(ex.contains t.original_line_item_id))).map
        (fun t => poSnapStatic t) := by
  induction ts with
  | nil => intro n; rfl
  | cons t ts ih =>
      intro n
      simp only [restorePOLines]
      by_cases hc : ex.contains t.original_line_item_id
      · rw [if_pos hc, List.filter_cons_of_neg (by simp only [hc]; decide)]
        exact ih n
      · rw [if_neg hc,
          List.filter_cons_of_pos (by
            simp only [Bool.not_eq_true] at hc
            rw [hc]
            rfl),
          List.map_cons, List.map_cons, ih (n + 1)]
        rfl

/-- The PO revert snapshot records, up to the weighted-average/aggregate
recomputation, the static fields of the matched rows followed by the
freshly restored rows. -/
theorem revertPOCore_last_statics (m : POState) (target : POSnap) (v now : Nat) :
    ((revertPOCore m target v now).snapshots.getLast?).map
      (fun sn => sn.items.map (fun t => poSnapStatic t)) =
    some
      ((List.insertionSort (fun a b : POLine => a.id ≤ b.id) m.line_items).filterMap
        (fun l => ((List.insertionSort (fun a b : POLineSnap =>
            a.original_line_item_id ≤ b.original_line_item_id)
            (target.items.filter (fun t => !t.is_deleted))).find?
          (fun t => t.original_line_item_id = l.id)).map
          (fun t => poSnapStatic t)) ++
       ((List.insertionSort (fun a b : POLineSnap =>
            a.original_line_item_id ≤ b.original_line_item_id)
            (target.items.filter (fun t => !t.is_deleted))).filter
          (fun t => !(((List.insertionSort (fun a b : POLine => a.id ≤ b.id)
              m.line_items).map (fun l => l.id)).contains
            t.original_line_item_id))).map (fun t => poSnapStatic t)) := by
  unfold UcVelocity.revertPOCore UcVelocity.create_po_snapshot
  try dsimp only
  rw [List.getLast?_concat, Option.map_some']
  refine congrArg some ?_
  rw [statics_chain, List.map_append]
  refine congrArg₂ (fun a b => a ++ b) ?_ ?_
  · exact matched_statics _ _
  · exact fresh_statics _ _ _

theorem filterMap_congr_mem {α β : Type _} {f g : α → Option β} :
    ∀ {l : List α}, (∀ a ∈ l, f a = g a) → l.filterMap f = l.filterMap g := by
  intro l
  induction l with
  | nil => intro h; rfl
  | cons a l ih =>
      intro h
      rw [List.filterMap_cons, List.filterMap_cons, h a (List.mem_cons_self a l)]
      cases g a with
      | none => exact ih (fun x hx => h x (List.mem_cons_of_mem a hx))
      | some b => rw [ih (fun x hx => h x (List.mem_cons_of_mem a hx))]

theorem find?_append_cons_of_neg {p : POLineSnap → Bool} {t0 : POLineSnap}
    (K1 K2 : List POLineSnap) (h : ¬ (p t0 = true)) :
    (K1 ++ t0 :: K2).find? p = (K1 ++ K2).find? p := by
  induction K1 with
  | nil => exact List.find?_cons_of_neg K2 h
  | cons a K1 ih =>
      show ((a :: (K1 ++ t0 :: K2)).find? p) = ((a :: (K1 ++ K2)).find? p)
      cases hpa : p a with
      | true => rw [List.find?_cons_of_pos _ hpa, List.find?_cons_of_pos _ hpa]
      | false =>
          rw [List.find?_cons_of_neg _ (by simp [hpa]),
            List.find?_cons_of_neg _ (by simp [hpa])]
          exact ih

/-- Reconciling sorted live rows against snapshot rows by stable identity
yields, up to reordering, exactly the snapshot rows whose identity
survives. -/
theorem matched_static_perm :
    ∀ (ls : List POLine) (K : List POLineSnap),
      (ls.map (fun l => l.id)).Nodup →
      (K.map (fun t => t.original_line_item_id)).Nodup →
      List.Perm
        (ls.filterMap (fun l =>
          (K.find? (fun t => t.original_line_item_id = l.id)).map
            (fun t => poSnapStatic t)))
        ((K.filter (fun t =>
          (ls.map (fun l => l.id)).contains t.original_line_item_id)).map
          (fun t => poSnapStatic t)) := by
  intro ls
  induction ls with
  | nil =>
      intro K hls hK
      have h1 : K.filter (fun t =>
          ((([] : List POLine)).map (fun l => l.id)).contains
            t.original_line_item_id) =
          K.filter (fun t => false) :=
        List.filter_congr (fun u hu => rfl)
      rw [h1, List.filter_false]
      exact List.Perm.nil
  | cons l ls ih =>
      intro K hls hK
      rw [List.map_cons, List.nodup_cons] at hls
      cases hfind : K.find? (fun t => t.original_line_item_id = l.id) with
      | none =>
          have hFl : (fun x : POLine =>
              (K.find? (fun t => t.original_line_item_id = x.id)).map
                (fun t => poSnapStatic t)) l = none := by
            show (K.find? (fun t => t.original_line_item_id = l.id)).map
              (fun t => poSnapStatic t) = none
            rw [hfind]
            rfl
          rw [List.filterMap_cons_none (f := fun x : POLine =>
            (K.find? (fun t => t.original_line_item_id = x.id)).map
              (fun t => poSnapStatic t)) hFl]
          have hc : K.filter (fun t =>
              ((l :: ls).map (fun x => x.id)).contains t.original_line_item_id) =
              K.filter (fun t =>
                (ls.map (fun x => x.id)).contains t.original_line_item_id) := by
            refine List.filter_congr (fun u hu => ?_)
            have hne : ¬ (u.original_line_item_id = l.id) := by
              have h2 := List.find?_eq_none.mp hfind u hu
              simpa using h2
            show ((l :: ls).map (fun x => x.id)).contains
              u.original_line_item_id = _
            rw [List.map_cons, List.contains_cons]
            simp [hne]
          rw [hc]
          exact ih K hls.2 hK
      | some t0 =>
          have ht0K := List.mem_of_find?_eq_some hfind
          have ht0id := List.find?_some hfind
          simp only [decide_eq_true_eq] at ht0id
          have hFl : (fun x : POLine =>
              (K.find? (fun t => t.original_line_item_id = x.id)).map
                (fun t => poSnapStatic t)) l = some (poSnapStatic t0) := by
            show (K.find? (fun t => t.original_line_item_id = l.id)).map
              (fun t => poSnapStatic t) = some (poSnapStatic t0)
            rw [hfind]
            rfl
          rw [List.filterMap_cons_some (f := fun x : POLine =>
            (K.find? (fun t => t.original_line_item_id = x.id)).map
              (fun t => poSnapStatic t)) hFl]
          obtain ⟨K1, K2, hKs⟩ := List.append_of_mem ht0K
          subst hKs
          have hothers : ∀ u ∈ K1 ++ K2,
              u.original_line_item_id ≠ t0.original_line_item_id := by
            have hK2 := hK
            rw [List.map_append, List.map_cons, List.nodup_append] at hK2
            intro u hu he
            rcases List.mem_append.mp hu with hu | hu
            · exact hK2.2.2 (List.mem_map_of_mem _ hu)
                (by rw [he]; exact List.mem_cons_self _ _)
            · have h3 := hK2.2.1
              rw [List.nodup_cons] at h3
              exact h3.1 (by rw [← he]; exact List.mem_map_of_mem _ hu)
          have hP0 : (fun t : POLineSnap =>
              ((l :: ls).map (fun x => x.id)).contains
                t.original_line_item_id) t0 = true := by
            show ((l :: ls).map (fun x => x.id)).contains
              t0.original_line_item_id = true
            rw [List.map_cons, List.contains_cons]
            simp [ht0id]
          rw [List.filter_append,
            List.filter_cons_of_pos (p := fun t : POLineSnap =>
              ((l :: ls).map (fun x => x.id)).contains t.original_line_item_id)
              hP0,
            List.map_append, List.map_cons, List.map_cons]
          have hc1 : K1.filter (fun t =>
              (l.id :: ls.map (fun x => x.id)).contains t.original_line_item_id) =
              K1.filter (fun t =>
                (ls.map (fun x => x.id)).contains t.original_line_item_id) := by
            refine List.filter_congr (fun u hu => ?_)
            have hne : ¬ (u.original_line_item_id = l.id) := by
              intro he
              exact hothers u (List.mem_append.mpr (Or.inl hu))
                (he.trans ht0id.symm)
            show (l.id :: ls.map (fun x => x.id)).contains
              u.original_line_item_id = _
            rw [List.contains_cons]
            simp [hne]
          have hc2 : K2.filter (fun t =>
              (l.id :: ls.map (fun x => x.id)).contains t.original_line_item_id) =
              K2.filter (fun t =>
                (ls.map (fun x => x.id)).contains t.original_line_item_id) := by
            refine List.filter_congr (fun u hu => ?_)
            have hne : ¬ (u.original_line_item_id = l.id) := by
              intro he
              exact hothers u (List.mem_append.mpr (Or.inr hu))
                (he.trans ht0id.symm)
            show (l.id :: ls.map (fun x => x.id)).contains
              u.original_line_item_id = _
            rw [List.contains_cons]
            simp [hne]
          rw [hc1, hc2]
          refine List.Perm.trans (List.Perm.cons _ ?_) List.perm_middle.symm
          have hFc : ls.filterMap (fun x =>
              ((K1 ++ t0 :: K2).find? (fun t =>
                t.original_line_item_id = x.id)).map
                (fun t => poSnapStatic t)) =
              ls.filterMap (fun x =>
                ((K1 ++ K2).find? (fun t => t.original_line_item_id = x.id)).map
                  (fun t => poSnapStatic t)) := by
            refine filterMap_congr_mem (fun x hx => ?_)
            have hxne : ¬ ((fun t : POLineSnap =>
                decide (t.original_line_item_id = x.id)) t0 = true) := by
              simp only [decide_eq_true_eq]
              intro he
              apply hls.1
              rw [← ht0id, he]
              exact List.mem_map_of_mem _ hx
            rw [find?_append_cons_of_neg K1 K2 hxne]
          rw [hFc]
          have hnd12 : ((K1 ++ K2).map
              (fun t => t.original_line_item_id)).Nodup :=
            List.Nodup.sublist
              (List.Sublist.map _
                ((List.sublist_cons_self t0 K2).append_left K1)) hK
          rw [← List.map_append, ← List.filter_append]
          exact ih (K1 ++ K2) hls.2 hnd12

/-- C1 is false as stated for purchase orders: after the receiving and a
revert to version 1, reverting to version 2 succeeds, but the revert's own
snapshot stores `qty_pending = 10, qty_received = 0` for the line whose
version-2 snapshot stored `qty_pending = 4, qty_received = 6` — the revert
resets the aggregates and recomputes them from the surviving (non-voided)
receiving history instead of copying them from the target snapshot. -/
theorem C1_counterexample :
    POReachable poA5 ∧
    revert_po_to_version poA4 2 200 = .ok poA5 ∧
    (poA4.snapshots.find? (fun sn => sn.version = 2)).map
      (fun sn => sn.items.map (fun t => (t.quantity, t.qty_pending, t.qty_received))) =
      some [(10, 4, 6)] ∧
    (poA5.snapshots.getLast?).map
      (fun sn => sn.items.map (fun t => (t.quantity, t.qty_pending, t.qty_received))) =
      some [(10, 10, 0)] :=
  ⟨poA5_reach, rfl, by decide, by decide⟩

/-- C1 (amended): the revert's own snapshot reproduces the non-deleted
rows stored at the target version — with full content (including
pending/fulfilled quantities) and in order for quotes, but only the static
fields (item_type, part_id, description, quantity, unit_price), up to
reordering, for purchase orders, whose pending/received/average-price
columns are recomputed from the surviving receiving history. -/
theorem C1_revert_roundtrip_amended :
    (∀ (q : QuoteState) (v now : Nat) (q' : QuoteState) (target : QSnap),
      q.snapshots.find? (fun sn => sn.version = v) = some target →
      revert_to_snapshot q v now = .ok q' →
      (q'.snapshots.getLast?).map (fun sn => sn.items.map qSnapContent) =
        some ((target.items.filter (fun t => !t.is_deleted)).map qSnapContent)) ∧
    (∀ (s : POState) (v now : Nat) (s' : POState) (target : POSnap),
      POReachable s →
      s.snapshots.find? (fun sn => sn.version = v) = some target →
      revert_po_to_version s v now = .ok s' →
      ∃ items, (s'.snapshots.getLast?).map
          (fun sn => sn.items.map (fun t => poSnapStatic t)) = some items ∧
        List.Perm items
          ((target.items.filter (fun t => !t.is_deleted)).map
            (fun t => poSnapStatic t))) := by
  constructor
  · intro q v now q' target hfind hok
    obtain ⟨t2, hfind2, hv, hq⟩ := revert_to_snapshot_ok hok
    rw [hfind] at hfind2
    obtain rfl : target = t2 := Option.some.inj hfind2
    subst hq
    unfold UcVelocity.create_snapshot
    try dsimp only
    rw [List.getLast?_concat, Option.map_some']
    refine congrArg some ?_
    exact restoreQLines_content _ _
  · intro s v now s' target hreach hfind hok
    obtain ⟨t2, hfind2, hv, hq⟩ := revert_po_to_version_ok hok
    rw [hfind] at hfind2
    obtain rfl : target = t2 := Option.some.inj hfind2
    subst hq
    have hwf := poreach_POWF hreach
    refine ⟨_, revertPOCore_last_statics s target v now, ?_⟩
    have hndEx : ((List.insertionSort (fun a b : POLine => a.id ≤ b.id)
        s.line_items).map (fun l => l.id)).Nodup := by
      have hnd : (s.line_items.map (fun l => l.id)).Nodup :=
        List.pairwise_map.mpr (hwf.lines_sorted.imp (fun hab => Nat.ne_of_lt hab))
      exact ((List.perm_insertionSort (fun a b : POLine => a.id ≤ b.id)
        s.line_items).map (fun l => l.id)).nodup_iff.mpr hnd
    have hndK : ((List.insertionSort (fun a b : POLineSnap =>
        a.original_line_item_id ≤ b.original_line_item_id)
        (target.items.filter (fun t => !t.is_deleted))).map
          (fun t => t.original_line_item_id)).Nodup := by
      have h1 : (target.items.map (fun t => t.original_line_item_id)).Nodup :=
        hwf.snap_nodup target (List.mem_of_find?_eq_some hfind)
      have h2 : ((target.items.filter (fun t => !t.is_deleted)).map
          (fun t => t.original_line_item_id)).Nodup :=
        List.Nodup.sublist (List.Sublist.map _ (List.filter_sublist _)) h1
      exact ((List.perm_insertionSort (fun a b : POLineSnap =>
        a.original_line_item_id ≤ b.original_line_item_id)
        (target.items.filter (fun t => !t.is_deleted))).map
          (fun t => t.original_line_item_id)).nodup_iff.mpr h2
    have hmp := matched_static_perm
      (List.insertionSort (fun a b : POLine => a.id ≤ b.id) s.line_items)
      (List.insertionSort (fun a b : POLineSnap =>
        a.original_line_item_id ≤ b.original_line_item_id)
        (target.items.filter (fun t => !t.is_deleted)))
      hndEx hndK
    have hall : List.Perm
        (((List.insertionSort (fun a b : POLineSnap =>
            a.original_line_item_id ≤ b.original_line_item_id)
            (target.items.filter (fun t => !t.is_deleted))).filter
          (fun t => ((List.insertionSort (fun a b : POLine => a.id ≤ b.id)
              s.line_items).map (fun l => l.id)).contains
            t.original_line_item_id)).map (fun t => poSnapStatic t) ++
         ((List.insertionSort (fun a b : POLineSnap =>
            a.original_line_item_id ≤ b.original_line_item_id)
            (target.items.filter (fun t => !t.is_deleted))).filter
          (fun t => !(((List.insertionSort (fun a b : POLine => a.id ≤ b.id)
              s.line_items).map (fun l => l.id)).contains
            t.original_line_item_id))).map (fun t => poSnapStatic t))
        ((target.items.filter (fun t => !t.is_deleted)).map
          (fun t => poSnapStatic t)) := by
      have h6 := List.filter_append_perm
        (fun t : POLineSnap =>
          ((List.insertionSort (fun a b : POLine => a.id ≤ b.id)
            s.line_items).map (fun l => l.id)).contains t.original_line_item_id)
        (List.insertionSort (fun a b : POLineSnap =>
          a.original_line_item_id ≤ b.original_line_item_id)
          (target.items.filter (fun t => !t.is_deleted)))
      have h7 := (h6.map (fun t => poSnapStatic t)).trans
        ((List.perm_insertionSort (fun a b : POLineSnap =>
          a.original_line_item_id ≤ b.original_line_item_id)
          (target.items.filter (fun t => !t.is_deleted))).map
            (fun t => poSnapStatic t))
      rw [List.map_append] at h7
      exact h7
    exact (List.Perm.append hmp (List.Perm.refl _)).trans hall

/-- Witness for the amended C1 on the concrete revert traces. -/
theorem C1_revert_roundtrip_amended_witness :
    ((qA3.snapshots.getLast?).map (fun sn => sn.items.map qSnapContent) =
      some ((({ id := 1, version := 1, action_type := "create",
                invoice_id := none,
                items := [{ original_line_item_id := 1, item_type := "misc",
                            labor_id := none, part_id := none, misc_id := none,
                            discount_code_id := none,
                            description := some "widget",
                            quantity := 2, unit_price := none,
                            qty_pending := 2, qty_fulfilled := 0,
                            is_deleted := false, is_pms := false,
                            pms_percent := none,
                            original_markup_percent := none,
                            base_cost := none }] } : QSnap).items.filter
        (fun t => !t.is_deleted)).map qSnapContent)) ∧
    (∃ items, (poA4.snapshots.getLast?).map
        (fun sn => sn.items.map (fun t => poSnapStatic t)) = some items ∧
      List.Perm items
        ((({ id := 2, version := 1, action_type := "edit",
             receiving_id := none,
             items := [{ original_line_item_id := 1, item_type := "misc",
                         part_id := none, description := some "widget",
                         quantity := 10, unit_price := none,
                         qty_pending := 10, qty_received := 0,
                         actual_unit_price := none,
                         is_deleted := false }] } : POSnap).items.filter
          (fun t => !t.is_deleted)).map (fun t => poSnapStatic t))) :=
  ⟨C1_revert_roundtrip_amended.1 qA2 1 50 qA3
      { id := 1, version := 1, action_type := "create", invoice_id := none,
        items := [{ original_line_item_id := 1, item_type := "misc",
                    labor_id := none, part_id := none, misc_id := none,
                    discount_code_id := none, description := some "widget",
                    quantity := 2, unit_price := none, qty_pending := 2,
                    qty_fulfilled := 0, is_deleted := false, is_pms := false,
                    pms_percent := none, original_markup_percent := none,
                    base_cost := none }] }
      rfl rfl,
   C1_revert_roundtrip_amended.2 poA3 1 100 poA4
      { id := 2, version := 1, action_type := "edit", receiving_id := none,
        items := [{ original_line_item_id := 1, item_type := "misc",
                    part_id := none, description := some "widget",
                    quantity := 10, unit_price := none, qty_pending := 10,
                    qty_received := 0, actual_unit_price := none,
                    is_deleted := false }] }
      poA3_reach rfl rfl⟩

end UcVelocity